import Mathlib

/-!
# NightDriverStrip: wire ingestion and the network reader scheduler

A shallow embedding of `ProcessIncomingData` (src/src/network.cpp), of the
little-endian decoders of src/include/globals.h and of the reader loop of
`NetworkHandlingLoopEntry`, with the properties the specification states about
them.

Conventions.
* A payload (`std::unique_ptr<uint8_t []>` with its `payloadLength`) is a
  `List Nat`; `payloadData[i]` is `byteAt payloadData i`, the entry reduced
  modulo 256.  The source does not validate the length; a read past the end
  yields 0 here.
* Machine integers are naturals, reduced modulo `2 ^ w` where the source
  computes in `w` bits.
* The global `g_ptrSystem->BufferManagers()` is passed in and returned
  explicitly; a `bool` function that mutates it returns a pair.
-/

namespace NightDriver

/-! ## Wire decoders (src/include/globals.h) -/

/-- The byte `payloadData[i]` as a `uint8_t`. -/
def byteAt (payloadData : List Nat) (i : Nat) : Nat :=
  payloadData.getD i 0 % 256

/-- `ULONGFromMemory(&payloadData[off])`. -/
def ULONGFromMemory (payloadData : List Nat) (off : Nat) : Nat :=
  (byteAt payloadData (off + 7) <<< 56 |||
   byteAt payloadData (off + 6) <<< 48 |||
   byteAt payloadData (off + 5) <<< 40 |||
   byteAt payloadData (off + 4) <<< 32 |||
   byteAt payloadData (off + 3) <<< 24 |||
   byteAt payloadData (off + 2) <<< 16 |||
   byteAt payloadData (off + 1) <<< 8 |||
   byteAt payloadData off) % 2 ^ 64

/-- `DWORDFromMemory(&payloadData[off])`. -/
def DWORDFromMemory (payloadData : List Nat) (off : Nat) : Nat :=
  (byteAt payloadData (off + 3) <<< 24 |||
   byteAt payloadData (off + 2) <<< 16 |||
   byteAt payloadData (off + 1) <<< 8 |||
   byteAt payloadData off) % 2 ^ 32

/-- `WORDFromMemory(&payloadData[off])`. -/
def WORDFromMemory (payloadData : List Nat) (off : Nat) : Nat :=
  (byteAt payloadData (off + 1) <<< 8 |||
   byteAt payloadData off) % 2 ^ 16

/-- Wifi command with color data and 64-bit clock values. -/
def WIFI_COMMAND_PIXELDATA64 : Nat := 3

/-- Wifi command that delivers audio peaks. -/
def WIFI_COMMAND_PEAKDATA : Nat := 4

/-- Modelled from the spec: `LEDBuffer` is declared in ledbuffer.h, which is
not among the sources.  A frame buffer carries its wall-clock timestamp
(seconds and microseconds, both 0 while empty) and its pixel bytes. -/
structure LEDBuffer where
  seconds : Nat
  micros : Nat
  pixels : List Nat
deriving DecidableEq, Repr

/-- Modelled from the spec: a buffer slot that has not been filled yet. -/
def LEDBuffer.blank : LEDBuffer := { seconds := 0, micros := 0, pixels := [] }

/-- The type of `LEDBuffer::UpdateFromWire(payloadData, payloadLength)`: the
success flag and the buffer as the call leaves it. -/
abbrev WireUpdate := LEDBuffer → List Nat → Bool × LEDBuffer

/-- Modelled from the spec: `LEDBuffer::UpdateFromWire` is defined in
ledbuffer.h, which is not among the sources.  A truncated payload (shorter
than the 24-byte header plus three bytes per announced pixel) is refused and
leaves the buffer alone; otherwise the buffer takes the capture time of bytes
8-23 and the packed RGB triplets that follow the header. -/
def LEDBuffer.UpdateFromWire : WireUpdate := fun b payloadData =>
  let length32 := DWORDFromMemory payloadData 4
  if payloadData.length < 24 + 3 * length32 then (false, b)
  else (true, { seconds := ULONGFromMemory payloadData 8,
                micros := ULONGFromMemory payloadData 16,
                pixels := (payloadData.drop 24).take (3 * length32) })

/-- Modelled from the spec: `LEDBufferManager` is declared in ledbuffer.h,
which is not among the sources.  The pool of one channel: its configured
maximum and the buffers in use, newest first. -/
structure LEDBufferManager where
  maxBuffers : Nat
  buffers : List LEDBuffer
deriving DecidableEq, Repr

/-- Modelled from the spec: `IsEmpty` is true when no buffer is in use. -/
def LEDBufferManager.IsEmpty (m : LEDBufferManager) : Bool := m.buffers.isEmpty

/-- Modelled from the spec: `PeekNewestBuffer`, the newest buffer in use. -/
def LEDBufferManager.PeekNewestBuffer (m : LEDBufferManager) : Option LEDBuffer :=
  m.buffers.head?

/-- The number of buffers a channel has in use. -/
def LEDBufferManager.Count (m : LEDBufferManager) : Nat := m.buffers.length

/-- Modelled from the spec: `GetNewBuffer` returns the slot to fill, which
becomes the newest, together with the buffers that stay behind it.  Below the
configured maximum the pool grows by a blank slot; at the maximum the oldest
slot is recycled. -/
def LEDBufferManager.GetNewBuffer (m : LEDBufferManager) : LEDBuffer × List LEDBuffer :=
  if m.buffers.length < m.maxBuffers then (LEDBuffer.blank, m.buffers)
  else (m.buffers.getLast?.getD LEDBuffer.blank, m.buffers.dropLast)

/-! ## ProcessIncomingData (src/src/network.cpp) -/

/-- The "No match so adding new buffer" branch: `GetNewBuffer` followed by
`UpdateFromWire` on the buffer it returned. -/
def addNewBuffer (update : WireUpdate) (payloadData : List Nat)
    (bufferManager : LEDBufferManager) : Bool × LEDBufferManager :=
  let pNewBuffer := bufferManager.GetNewBuffer
  let r := update pNewBuffer.1 payloadData
  (r.1, { bufferManager with buffers := r.2 :: pNewBuffer.2 })

/-- The body of the channel loop for a channel whose bit is set.  The match
on the buffers is the test `!bufferManager.IsEmpty()` with
`PeekNewestBuffer()` as the head; `bDone` is true exactly on the branch that
updates the newest buffer.  The flag is `false` where the source executes
`return false`. -/
def updateChannel (update : WireUpdate) (payloadData : List Nat) (seconds micros : Nat)
    (bufferManager : LEDBufferManager) : Bool × LEDBufferManager :=
  match bufferManager.buffers with
  | [] => addNewBuffer update payloadData bufferManager
  | pNewestBuffer :: older =>
    if micros != 0 && pNewestBuffer.micros == micros && pNewestBuffer.seconds == seconds then
      let r := update pNewestBuffer payloadData
      (r.1, { bufferManager with buffers := r.2 :: older })
    else addNewBuffer update payloadData bufferManager

/-- The loop `for (iChannel = 0, channelMask = 1; iChannel < size; iChannel++,
channelMask <<= 1)` from the channel at the head of the list on.
`channelMask` is the 32-bit pattern of the `int`.  The flag is `false` where
the source executes `return false`, `true` at the `return true` after the
loop. -/
def channelLoop (update : WireUpdate) (payloadData : List Nat)
    (channel16 seconds micros : Nat) :
    Nat → List LEDBufferManager → Bool × List LEDBufferManager
  | _, [] => (true, [])
  | channelMask, bufferManager :: rest =>
    if (channelMask &&& channel16) != 0 then
      let r := updateChannel update payloadData seconds micros bufferManager
      if r.1 then
        let t := channelLoop update payloadData channel16 seconds micros
          (channelMask <<< 1 % 2 ^ 32) rest
        (t.1, r.2 :: t.2)
      else (false, r.2 :: rest)
    else
      let t := channelLoop update payloadData channel16 seconds micros
        (channelMask <<< 1 % 2 ^ 32) rest
      (t.1, bufferManager :: t.2)

/-- The command code as `ProcessIncomingData` reads it:
`payloadData[1] << 8 | payloadData[0]`, stored in a `uint16_t`. -/
def command16 (payloadData : List Nat) : Nat :=
  (byteAt payloadData 1 <<< 8 ||| byteAt payloadData 0) % 2 ^ 16

/-- The channel mask of a PIXELDATA packet after `if (channel16 == 0)
channel16 = 1;`. -/
def channelMask16 (payloadData : List Nat) : Nat :=
  let channel16 := WORDFromMemory payloadData 2
  if channel16 = 0 then 1 else channel16

/-- `ProcessIncomingData(payloadData, payloadLength)`.  The first argument is
the build setting `INCOMING_WIFI_ENABLED`, the second the missing
`UpdateFromWire`; the result is the returned `bool` and the buffer managers as
the call leaves them.  The PEAKDATA branch hands the peaks to the audio
analyzer (only when `ENABLE_AUDIO`) and touches no buffer manager.  The
PIXELDATA branch also decodes `length32` (`DWORDFromMemory(&payloadData[4])`),
which goes to the debug line only. -/
def ProcessIncomingData (INCOMING_WIFI_ENABLED : Bool) (update : WireUpdate)
    (BufferManagers : List LEDBufferManager) (payloadData : List Nat) :
    Bool × List LEDBufferManager :=
  if !INCOMING_WIFI_ENABLED then (false, BufferManagers)
  else if command16 payloadData = WIFI_COMMAND_PEAKDATA then (true, BufferManagers)
  else if command16 payloadData = WIFI_COMMAND_PIXELDATA64 then
    let seconds := ULONGFromMemory payloadData 8
    let micros := ULONGFromMemory payloadData 16
    channelLoop update payloadData (channelMask16 payloadData) seconds micros 1 BufferManagers
  else (false, BufferManagers)

/-- What the channel loop makes of the manager of channel `i` when it gets
past that channel: the update policy where bit `i` of the mask is set, nothing
otherwise. -/
def afterChannel (update : WireUpdate) (p : List Nat) (c s us : Nat) (i : Nat)
    (m : LEDBufferManager) : LEDBufferManager :=
  if c.testBit i then (updateChannel update p s us m).2 else m

/-- The matching rule as the specification words it: the channel is not
empty and its newest buffer has an empty timestamp or exactly the incoming
timestamp. -/
def specUpdatesInPlace (seconds micros : Nat) (m : LEDBufferManager) : Bool :=
  match m.PeekNewestBuffer with
  | none => false
  | some newest =>
    (newest.seconds == 0 && newest.micros == 0) ||
      (newest.seconds == seconds && newest.micros == micros)

/-! ## Packets, as a sender lays them out -/

/-- The `k` low bytes of `n`, least significant first. -/
def encodeLE : Nat → Nat → List Nat
  | 0, _ => []
  | k + 1, n => n % 256 :: encodeLE k (n / 256)

/-- The 24-byte header: command, channel mask, length, seconds, microseconds. -/
def wireHeader (command channel length seconds micros : Nat) : List Nat :=
  encodeLE 2 command ++ encodeLE 2 channel ++ encodeLE 4 length ++
    encodeLE 8 seconds ++ encodeLE 8 micros

/-- A PIXELDATA packet for the given mask and timestamp carrying `pixels`
(three bytes per pixel). -/
def pixelPacket (channel seconds micros : Nat) (pixels : List Nat) : List Nat :=
  wireHeader WIFI_COMMAND_PIXELDATA64 channel (pixels.length / 3) seconds micros ++ pixels

/-! ## The reader registry and the network loop (src/src/network.cpp)

`unsigned long` is 32 bits wide on the ESP32; sums and differences of
`unsigned long` values are reduced modulo `2 ^ 32`.  The clock is an oracle:
`millis k` is the value the `k`-th call of `millis()` returns, and the loop
state counts the calls made so far.  What the loop does is recorded as a
trace of clock reads and callback invocations. -/

/-- One entry of `NetworkReader::readers`.  The struct is declared in
network.h, which is not among the sources; the fields are those network.cpp
uses, the interval and the time of the last run taken as `unsigned long`.
`reader` is the `std::function`, `none` for `nullptr`, the number naming the
callback. -/
structure ReaderEntry where
  reader : Option Nat
  readInterval : Nat
  lastReadMs : Nat
  flag : Bool
  canceled : Bool
deriving DecidableEq, Repr

/-- What the network task does that is visible from outside the registry. -/
inductive Event where
  | millis (k : Nat)
  | call (index : Nat)
deriving DecidableEq, Repr

/-- The state of the network task besides the registry. -/
structure LoopState where
  clockReads : Nat
  trace : List Event
deriving DecidableEq, Repr

/-- `unsigned long` subtraction `a - b`. -/
def ulongSub (a b : Nat) : Nat := (a % 2 ^ 32 + 2 ^ 32 - b % 2 ^ 32) % 2 ^ 32

/-- `targetMs = entry.lastReadMs.load() + interval`. -/
def ReaderEntry.targetMs (entry : ReaderEntry) : Nat :=
  (entry.lastReadMs + entry.readInterval) % 2 ^ 32

/-- The condition under which the loop raises an entry's flag:
`interval && (targetMs <= now || (std::max(now, targetMs) - std::min(now,
targetMs)) > interval)`. -/
def ReaderEntry.intervalPassed (entry : ReaderEntry) (now : Nat) : Bool :=
  entry.readInterval != 0 &&
    (decide (entry.targetMs ≤ now) ||
      decide (max now entry.targetMs - min now entry.targetMs > entry.readInterval))

/-- The first loop of a pass of `NetworkHandlingLoopEntry`, "Flag entries of
which the read interval has passed", from the entry at the head of the list
(whose index is the first argument) on.  Calling an empty `std::function`
throws; the result is then `none`. -/
def flagAndRun (millis : Nat → Nat) (now : Nat) :
    Nat → List ReaderEntry → LoopState → Option (List ReaderEntry × LoopState)
  | _, [], w => some ([], w)
  | index, entry :: rest, w =>
    if entry.canceled then
      (flagAndRun millis now (index + 1) rest w).map fun r => (entry :: r.1, r.2)
    else
      let flag := if entry.intervalPassed now then true else entry.flag
      if flag then
        match entry.reader with
        | none => none
        | some _ =>
          let ran : ReaderEntry := { entry with flag := false, lastReadMs := millis w.clockReads }
          let w1 : LoopState :=
            { clockReads := w.clockReads + 1,
              trace := w.trace ++ [Event.call index, Event.millis w.clockReads] }
          (flagAndRun millis now (index + 1) rest w1).map fun r => (ran :: r.1, r.2)
      else
        (flagAndRun millis now (index + 1) rest w).map fun r =>
          ({ entry with flag := false } :: r.1, r.2)

/-- The second loop of a pass, "Calculate how long we can sleep", started
with the `holdMs` reached so far. -/
def computeHoldMs (now : Nat) : List ReaderEntry → Nat → Nat
  | [], holdMs => holdMs
  | entry :: rest, holdMs =>
    if entry.canceled then computeHoldMs now rest holdMs
    else if entry.readInterval = 0 then computeHoldMs now rest holdMs
    else if (entry.lastReadMs + entry.readInterval) % 2 ^ 32 ≤ now then 0
    else
      let entryHoldMs :=
        min entry.readInterval (ulongSub entry.readInterval (ulongSub now entry.lastReadMs))
      computeHoldMs now rest (if entryHoldMs < holdMs then entryHoldMs else holdMs)

/-- One pass of the loop of `NetworkHandlingLoopEntry` once the reader
container is available and WiFi is up: read the clock, flag and run the
readers, read the clock again and compute `holdMs`. -/
def schedulerTick (millis : Nat → Nat) (readers : List ReaderEntry) (w : LoopState) :
    Option (List ReaderEntry × LoopState × Nat) :=
  let now := millis w.clockReads
  let w0 : LoopState :=
    { clockReads := w.clockReads + 1, trace := w.trace ++ [Event.millis w.clockReads] }
  match flagAndRun millis now 0 readers w0 with
  | none => none
  | some (readers1, w1) =>
    let now1 := millis w1.clockReads
    let w2 : LoopState :=
      { clockReads := w1.clockReads + 1, trace := w1.trace ++ [Event.millis w1.clockReads] }
    some (readers1, w2, computeHoldMs now1 readers1 1000)

/-- `NetworkReader::FlagReader(index)`; waking the network task is left to
the caller. -/
def FlagReader (readers : List ReaderEntry) (index : Nat) : List ReaderEntry :=
  if index ≥ readers.length then readers
  else readers.modify (fun entry => { entry with flag := true }) index


/-- Modelled from the spec: the constructor `ReaderEntry(reader, interval)` is
declared in network.h, which is not among the sources.  A new entry has its
flag unset (so says the comment in `RegisterReader`), is not canceled, and
has no last run yet. -/
def ReaderEntry.new (reader : Option Nat) (interval : Nat) : ReaderEntry :=
  { reader := reader, readInterval := interval, lastReadMs := 0, flag := false,
    canceled := false }

/-- `NetworkReader::RegisterReader(reader, interval, flag)`: the returned
index, the registry and the loop state (the clock is read when an interval
is given). -/
def RegisterReader (millis : Nat → Nat) (readers : List ReaderEntry) (w : LoopState)
    (reader : Option Nat) (interval : Nat) (flag : Bool) :
    Nat × List ReaderEntry × LoopState :=
  let readerEntry := ReaderEntry.new reader interval
  let stamped : ReaderEntry × LoopState :=
    if interval != 0 then
      ({ readerEntry with lastReadMs := millis w.clockReads },
       { clockReads := w.clockReads + 1, trace := w.trace ++ [Event.millis w.clockReads] })
    else (readerEntry, w)
  let readers1 := readers ++ [stamped.1]
  let index := readers1.length - 1
  (index, if flag then FlagReader readers1 index else readers1, stamped.2)

/-- `NetworkReader::CancelReader(index)`. -/
def CancelReader (readers : List ReaderEntry) (index : Nat) : List ReaderEntry :=
  if index ≥ readers.length then readers
  else readers.modify
    (fun entry => { entry with canceled := true, readInterval := 0, reader := none }) index

/-- What the tasks of the firmware do to the registry, one step at a time. -/
inductive ReaderOp where
  | register (reader : Option Nat) (interval : Nat) (flag : Bool)
  | flagReader (index : Nat)
  | cancel (index : Nat)
  | tick
deriving DecidableEq, Repr

/-- One step on the registry and the loop state; `none` when a tick calls an
empty `std::function`. -/
def applyOp (millis : Nat → Nat) :
    ReaderOp → List ReaderEntry × LoopState → Option (List ReaderEntry × LoopState)
  | .register reader interval flag, st =>
    some ((RegisterReader millis st.1 st.2 reader interval flag).2.1,
      (RegisterReader millis st.1 st.2 reader interval flag).2.2)
  | .flagReader index, st => some (FlagReader st.1 index, st.2)
  | .cancel index, st => some (CancelReader st.1 index, st.2)
  | .tick, st => (schedulerTick millis st.1 st.2).map fun r => (r.1, r.2.1)

/-- A sequence of steps, in order. -/
def runOps (millis : Nat → Nat) :
    List ReaderOp → List ReaderEntry × LoopState → Option (List ReaderEntry × LoopState)
  | [], st => some st
  | op :: ops, st => (applyOp millis op st).bind (runOps millis ops)

/-- `entryHoldMs = std::min(interval, interval - (now - lastReadMs))`. -/
def ReaderEntry.holdMs (entry : ReaderEntry) (now : Nat) : Nat :=
  min entry.readInterval (ulongSub entry.readInterval (ulongSub now entry.lastReadMs))

/-- The readers that take part in the timer: not canceled, interval not 0. -/
def timedReaders (readers : List ReaderEntry) : List ReaderEntry :=
  readers.filter fun entry => !entry.canceled && entry.readInterval != 0

/-- The sleep in closed form: 0 when a timed reader has reached its target,
else the least of 1000 and the `holdMs` of the timed readers. -/
def holdMsFormula (now : Nat) (readers : List ReaderEntry) : Nat :=
  if (timedReaders readers).any (fun entry => decide (entry.targetMs ≤ now)) then 0
  else ((timedReaders readers).map fun entry => entry.holdMs now).foldl min 1000

/-- The sleep as the specification words it, in the integers: 0 when a timed
reader has `lastRun + interval ≤ now`, else the least of 1000 and
`interval − (now − lastRun)` over the timed readers. -/
def specHoldMs (now : Nat) (readers : List ReaderEntry) : Int :=
  if (timedReaders readers).any
      (fun entry => decide (entry.lastReadMs + entry.readInterval ≤ now)) then 0
  else ((timedReaders readers).map fun entry =>
      (entry.readInterval : Int) - ((now : Int) - (entry.lastReadMs : Int))).foldl min 1000

/-- The entry `e'` is a later state of the registry entry `e`: a cancellation
is kept, and as long as the entry is not canceled it has the callback and the
interval of `e`. -/
def ReaderEntry.laterOf (e e' : ReaderEntry) : Prop :=
  (e.canceled = true → e'.canceled = true) ∧
    (e'.canceled = false → e'.reader = e.reader ∧ e'.readInterval = e.readInterval)

instance (e e' : ReaderEntry) : Decidable (e.laterOf e') := by
  unfold ReaderEntry.laterOf
  infer_instance

/-! ## Effects and their factories (src/src/effectmanager.cpp) -/

/-- Modelled from the spec: `LEDStripEffect` is declared in ledstripeffect.h,
which is not among the sources.  An effect has its effect-type number, the
"core" flag, the enabled flag and its settings. -/
structure LEDStripEffect where
  effectNumber : Int
  core : Bool
  enabled : Bool
  settings : List Int
deriving DecidableEq, Repr

/-- Modelled from the spec: `MarkAsCoreEffect` sets the "core" flag. -/
def LEDStripEffect.MarkAsCoreEffect (e : LEDStripEffect) : LEDStripEffect :=
  { e with core := true }

/-- Modelled from the spec: `SetEnabled` sets the enabled flag. -/
def LEDStripEffect.SetEnabled (e : LEDStripEffect) (enabled : Bool) : LEDStripEffect :=
  { e with enabled := enabled }

/-- An object of the JSON effects array: the values under `PTY_EFFECTNR` and
`PTY_COREEFFECT` as `int`, and the other properties. -/
structure JsonObject where
  effectNr : Int
  coreEffect : Int
  settings : List Int
deriving DecidableEq, Repr

/-- A `JSONEffectFactory`: the effect built from a JSON object, `none` for a
null pointer. -/
abbrev JSONEffectFactory := JsonObject → Option LEDStripEffect

/-- The `std::map<int, JSONEffectFactory>` of `GetJSONFactories()`, as its
`find`. -/
abbrev JSONFactories := Int → Option JSONEffectFactory

/-- An `EffectFactories::NumberedFactory` of the default list: its
`EffectNumber()` and what producing its effect yields, `none` for a null
pointer. -/
structure NumberedFactory where
  effectNumber : Int
  create : Option LEDStripEffect
deriving DecidableEq, Repr

/-- The state of `LoadJSONAndMissingEffects`: `_vEffects`, the local
`loadedEffectNumbers`, and the positions in the default list of the factories
handed to `ProduceAndLoadDefaultEffect`, in the order of the calls. -/
structure LoadState where
  effects : List LEDStripEffect
  loaded : List Int
  produced : List Nat
deriving DecidableEq, Repr

/-- Modelled from the spec: `ProduceAndLoadDefaultEffect` is declared in
effectmanager.h, which is not among the sources.  It produces the effect of
the factory at position `pos` of the default list and appends it to
`_vEffects`. -/
def ProduceAndLoadDefaultEffect (pos : Nat) (numberedFactory : NumberedFactory)
    (s : LoadState) : LoadState :=
  { s with
    effects := match numberedFactory.create with
      | some pEffect => s.effects ++ [pEffect]
      | none => s.effects
    produced := s.produced ++ [pos] }

/-- The first loop of `LoadJSONAndMissingEffects`, over the JSON array. -/
def loadJSONEffects (jsonFactories : JSONFactories) : List JsonObject → LoadState → LoadState
  | [], s => s
  | effectObject :: rest, s =>
    match jsonFactories effectObject.effectNr with
    | none => loadJSONEffects jsonFactories rest s
    | some factory =>
      match factory effectObject with
      | none => loadJSONEffects jsonFactories rest s
      | some pEffect =>
        loadJSONEffects jsonFactories rest
          { s with
            effects := s.effects ++
              [if effectObject.coreEffect != 0 then pEffect.MarkAsCoreEffect else pEffect]
            loaded := effectObject.effectNr :: s.loaded }

/-- The `std::for_each(iter, defaultFactories.end(), ...)` of the second
loop: every factory from position `pos` on whose number is `effectNumber` is
produced and loaded. -/
def produceMatching (effectNumber : Int) : Nat → List NumberedFactory → LoadState → LoadState
  | _, [], s => s
  | pos, numberedFactory :: rest, s =>
    produceMatching effectNumber (pos + 1) rest
      (if numberedFactory.effectNumber = effectNumber then
        ProduceAndLoadDefaultEffect pos numberedFactory s
      else s)

/-- The second loop of `LoadJSONAndMissingEffects`, from the factory at
position `pos` (the head of the list) on. -/
def loadMissingEffects : Nat → List NumberedFactory → LoadState → LoadState
  | _, [], s => s
  | pos, numberedFactory :: rest, s =>
    if numberedFactory.effectNumber ∈ s.loaded then loadMissingEffects (pos + 1) rest s
    else
      let s1 := produceMatching numberedFactory.effectNumber pos (numberedFactory :: rest) s
      loadMissingEffects (pos + 1) rest
        { s1 with loaded := numberedFactory.effectNumber :: s1.loaded }

/-- `EffectManager::LoadJSONAndMissingEffects(effectsArray)` on the effect
list `_vEffects`. -/
def LoadJSONAndMissingEffects (jsonFactories : JSONFactories)
    (defaultFactories : List NumberedFactory) (effectsArray : List JsonObject)
    (_vEffects : List LEDStripEffect) : LoadState :=
  loadMissingEffects 0 defaultFactories
    (loadJSONEffects jsonFactories effectsArray
      { effects := _vEffects, loaded := [], produced := [] })

/-- The positions, counted from `pos` for the head of the list, of the
factories whose number is `effectNumber`, in increasing order. -/
def positionsFrom (effectNumber : Int) : Nat → List NumberedFactory → List Nat
  | _, [] => []
  | pos, numberedFactory :: rest =>
    if numberedFactory.effectNumber = effectNumber then
      pos :: positionsFrom effectNumber (pos + 1) rest
    else positionsFrom effectNumber (pos + 1) rest

/-- What the first loop makes of one JSON object: nothing when its number has
no JSON factory or the factory returns null, else the effect, marked core
when the core field is not 0. -/
def effectFromJSON (jsonFactories : JSONFactories) (effectObject : JsonObject) :
    Option LEDStripEffect :=
  match jsonFactories effectObject.effectNr with
  | none => none
  | some factory =>
    (factory effectObject).map fun pEffect =>
      if effectObject.coreEffect != 0 then pEffect.MarkAsCoreEffect else pEffect

/-- `EffectManager::CopyEffect(index)`: the returned pointer (`none` for
`nullptr`) and `_vEffects` as the call leaves it.  `serialize` is the
effect's `SerializeToJSON`, `none` where it returns false. -/
def CopyEffect (jsonFactories : JSONFactories)
    (serialize : LEDStripEffect → Option JsonObject) (_vEffects : List LEDStripEffect)
    (index : Nat) : Option LEDStripEffect × List LEDStripEffect :=
  match _vEffects[index]? with
  | none => (none, _vEffects)
  | some sourceEffect =>
    match jsonFactories sourceEffect.effectNumber with
    | none => (none, _vEffects)
    | some factory =>
      match serialize sourceEffect with
      | none => (none, _vEffects)
      | some jsonObject =>
        match factory jsonObject with
        | none => (none, _vEffects)
        | some copiedEffect => (some (copiedEffect.SetEnabled false), _vEffects)

/-! ## Initialising the effects (src/src/effectmanager.cpp) -/

/-- `EffectManager::Init()` over `_vEffects` from position `index` on: the
returned bool and the positions of the effects whose `Init` was called, in
call order.  `effectInit` is `_vEffect->Init(_gfx)`.  The palette colours
applied after the loop do not bear on the result. -/
def EffectManager.Init (effectInit : LEDStripEffect → Bool) :
    Nat → List LEDStripEffect → Bool × List Nat
  | _, [] => (true, [])
  | index, _vEffect :: rest =>
    if effectInit _vEffect = false then (false, [index])
    else
      let r := EffectManager.Init effectInit (index + 1) rest
      (r.1, index :: r.2)

/-- The end of `InitEffectsManager()`, once the manager holds `_vEffects`:
the `std::runtime_error` thrown, or the positions of the effects
initialised. -/
def InitEffectsManager (effectInit : LEDStripEffect → Bool)
    (_vEffects : List LEDStripEffect) : Except String (List Nat) :=
  let r := EffectManager.Init effectInit 0 _vEffects
  if r.1 = false then Except.error "Could not initialize effect manager"
  else Except.ok r.2

/-! ## The current-effect index file (src/src/effectmanager.cpp) -/

/-- The C library's `isspace` in the "C" locale. -/
def isspace (c : Char) : Bool :=
  c = ' ' || c = '\t' || c = '\n' || c = '\x0b' || c = '\x0c' || c = '\r'

/-- The value of a run of decimal digits, most significant first. -/
def digitsValue (digits : List Char) : Nat :=
  digits.foldl (fun acc c => acc * 10 + (c.toNat - 48)) 0

/-- The C library's `strtoul(s, nullptr, 10)` for a 32-bit `unsigned long`:
white space is skipped, a sign is taken, the longest run of decimal digits
is read (0 when there is none); a value out of range gives `ULONG_MAX`,
a minus sign negates modulo 2^32. -/
def strtoul (s : List Char) : Nat :=
  let s1 := s.dropWhile isspace
  let signed : Bool × List Char :=
    match s1 with
    | [] => (false, [])
    | c :: t => if c = '-' then (true, t) else if c = '+' then (false, t) else (false, c :: t)
  let v := digitsValue (signed.2.takeWhile Char.isDigit)
  if 2 ^ 32 ≤ v then 2 ^ 32 - 1
  else if signed.1 then (2 ^ 32 - v) % 2 ^ 32
  else v

/-- The file `CURRENT_EFFECT_CONFIG_FILE` on SPIFFS: `none` when there is no
such file, else its content. -/
abbrev IndexFile := Option (List Char)

/-- `WriteCurrentEffectIndexFile()` on the file system: the file after the
call.  `openOk` is whether `SPIFFS.open(..., FILE_WRITE)` gives a file,
`room` how many bytes the file system takes from `file.print`, which prints
`currentEffectIndex` in decimal. -/
def WriteCurrentEffectIndexFile (openOk : Bool) (room : Nat) (currentEffectIndex : Nat)
    (_file : IndexFile) : IndexFile :=
  -- SPIFFS.remove(CURRENT_EFFECT_CONFIG_FILE): whatever was there is gone
  if !openOk then none
  else
    let text := Nat.toDigits 10 currentEffectIndex
    let bytesWritten := min room text.length
    if bytesWritten = 0 then none
    else some (text.take bytesWritten)

/-- `EffectManager::ReadCurrentEffectIndex(index)`: the returned bool and
`index` after the call. -/
def ReadCurrentEffectIndex (file : IndexFile) (index : Nat) : Bool × Nat :=
  match file with
  | none => (false, index)
  | some content =>
    if 0 < content.length then
      let valueString := content
      if !valueString.isEmpty then (true, strtoul valueString)
      else (false, index)
    else (false, index)

/-! ## Web requests (src/src/webserver.cpp) -/

/-- An `AsyncWebParameter`: its name, its value and whether it came in the
body of a POST. -/
structure AsyncWebParameter where
  name : String
  value : String
  isPost : Bool
deriving DecidableEq, Repr

/-- An `AsyncWebServerRequest`, as far as the handlers look at it: its
parameters. -/
structure AsyncWebServerRequest where
  params : List AsyncWebParameter
deriving DecidableEq, Repr

/-- `pRequest->getParam(name, post)`: the first parameter of that name and
kind, `none` for `nullptr`. -/
def AsyncWebServerRequest.getParam (pRequest : AsyncWebServerRequest) (name : String)
    (post : Bool) : Option AsyncWebParameter :=
  pRequest.params.find? fun p => p.name = name && p.isPost = post

/-- `pRequest->hasParam(name, post)`. -/
def AsyncWebServerRequest.hasParam (pRequest : AsyncWebServerRequest) (name : String)
    (post : Bool) : Bool :=
  (pRequest.getParam name post).isSome

/-- What a handler sends back: `AddCORSHeaderAndSendOKResponse` or
`AddCORSHeaderAndSendBadRequest` with its message. -/
inductive Response where
  | ok
  | badRequest (message : String)
deriving DecidableEq, Repr

/-- `CWebServer::GetEffectIndexFromParam(pRequest, post)`; `strtol` is the C
library's, in base 10. -/
def GetEffectIndexFromParam (strtol : String → Int) (pRequest : AsyncWebServerRequest)
    (post : Bool) : Int :=
  match pRequest.getParam "effectIndex" post with
  | none => -1
  | some p => strtol p.value

/-- Modelled from the spec: `EffectManager::DeleteEffect` is defined in
effectmanager.h, which is not among the sources.  Deleting a non-core effect
removes it and shifts the later ones down; deleting a core effect or an
index that is not in the list leaves the list as it is. -/
def EffectManager.DeleteEffect (_vEffects : List LEDStripEffect) (index : Nat) :
    List LEDStripEffect :=
  match _vEffects[index]? with
  | none => _vEffects
  | some effect => if effect.core then _vEffects else _vEffects.eraseIdx index

/-- `CWebServer::DeleteEffect(pRequest)`: the response, and the index passed
to `EffectManager::DeleteEffect` when that is called.  `index` is a `long`
and `EffectCount()` a `size_t`, both of 32 bits, so the comparison and the
subscript take `index` modulo 2^32. -/
def CWebServer.DeleteEffect (strtol : String → Int) (_vEffects : List LEDStripEffect)
    (pRequest : AsyncWebServerRequest) : Response × Option Nat :=
  let index := GetEffectIndexFromParam strtol pRequest true
  if index = -1 then (Response.ok, none)
  else
    let i := (index % 2 ^ 32).toNat
    if i < _vEffects.length && ((_vEffects[i]?).map fun e => e.core) = some true then
      (Response.badRequest "Can't delete core effect", none)
    else (Response.ok, some i)

/-- The effect list after `CWebServer::DeleteEffect(pRequest)`. -/
def effectsAfterDelete (strtol : String → Int) (_vEffects : List LEDStripEffect)
    (pRequest : AsyncWebServerRequest) : List LEDStripEffect :=
  match (CWebServer.DeleteEffect strtol _vEffects pRequest).2 with
  | none => _vEffects
  | some i => EffectManager.DeleteEffect _vEffects i

/-- A `CWebServer::ValueValidator`: whether the value is valid, and the
message when it is not. -/
abbrev ValueValidator := String → Bool × String

/-- The loop of `ValidateAndSetSetting` over the names of the setting specs:
`paramName` after the loop, `none` when a second known setting was found. -/
def findKnownSetting (pRequest : AsyncWebServerRequest) :
    List String → String → Option String
  | [], paramName => some paramName
  | settingSpecName :: rest, paramName =>
    if pRequest.hasParam settingSpecName true then
      if paramName = "" then findKnownSetting pRequest rest settingSpecName
      else none
    else findKnownSetting pRequest rest paramName

/-- `CWebServer::ValidateAndSetSetting(pRequest)`: the response, and whether
`SetSettingsIfPresent(pRequest)` was called.  `settingSpecNames` are the
names of `LoadDeviceSettingSpecs()`, in order; `settingValidators` is the
`find` of the map of that name. -/
def ValidateAndSetSetting (settingSpecNames : List String)
    (settingValidators : String → Option ValueValidator)
    (pRequest : AsyncWebServerRequest) : Response × Bool :=
  match findKnownSetting pRequest settingSpecNames "" with
  | none => (Response.badRequest "Malformed request", false)
  | some paramName =>
    if paramName = "" then (Response.ok, false)
    else
      match settingValidators paramName with
      | none => (Response.ok, true)
      | some validator =>
        let paramValue := ((pRequest.getParam paramName true).map fun p => p.value).getD ""
        let r := validator paramValue
        if !r.1 then (Response.badRequest r.2, false)
        else (Response.ok, true)

/-! ## WiFi credentials and the connection back-off (src/src/network.cpp) -/

/-- The two strings of the NVS namespace "storage" that hold the WiFi
credentials, `none` where a key has no value. -/
structure NVSStorage where
  WiFi_ssid : Option String
  WiFi_password : Option String
deriving DecidableEq, Repr

/-- `WriteWiFiConfig(WiFi_ssid, WiFi_password)`: the returned bool and the
store after the call.  `openOk`, `ssidOk` and `passwordOk` say whether
`nvs_open` and the two `nvs_set_str` return `ESP_OK`.  The local `success`
is computed as in the source; the function ends with `return true`. -/
def WriteWiFiConfig (openOk ssidOk passwordOk : Bool) (nvs : NVSStorage)
    (WiFi_ssid WiFi_password : String) : Bool × NVSStorage :=
  if !openOk then (false, nvs)
  else
    let success := true
    let s1 : Bool × NVSStorage :=
      if !ssidOk then (false, nvs) else (success, { nvs with WiFi_ssid := some WiFi_ssid })
    let s2 : Bool × NVSStorage :=
      if !passwordOk then (false, s1.2)
      else (s1.1, { s1.2 with WiFi_password := some WiFi_password })
    (true, s2.2)

/-- `WIFI_WAIT_BASE`, in ms. -/
def WIFI_WAIT_BASE : Nat := 4000

/-- `WIFI_WAIT_INCREASE`, in ms. -/
def WIFI_WAIT_INCREASE : Nat := 1000

/-- `WIFI_WAIT_MAX`, in ms. -/
def WIFI_WAIT_MAX : Nat := 60000

/-- `WIFI_WAIT_INIT`. -/
def WIFI_WAIT_INIT : Nat := WIFI_WAIT_BASE - WIFI_WAIT_INCREASE

/-- `WiFiConnectResult`, as far as `ConnectToWiFi` returns it. -/
inductive WiFiConnectResult where
  | Connected
  | Disconnected
  | NoCredentials
deriving DecidableEq, Repr

/-- The static variables of `ConnectToWiFi`. -/
structure WiFiState where
  bPreviousConnection : Bool
  millisAtLastAttempt : Nat
  retryDelay : Nat
  WiFi_ssid : String
  WiFi_password : String
deriving DecidableEq, Repr

/-- The static variables as they are initialised. -/
def WiFiState.initial : WiFiState :=
  { bPreviousConnection := false, millisAtLastAttempt := 0, retryDelay := WIFI_WAIT_INIT,
    WiFi_ssid := "", WiFi_password := "" }

/-- What one call of `ConnectToWiFi` meets: the credentials passed (`none`
for the null pointers), what `WiFi.isConnected()` answers before and after
the attempt, and the two readings of `millis()`. -/
structure WiFiCall where
  credentials : Option (String × String)
  connectedBefore : Bool
  connectedAfter : Bool
  millisAtCheck : Nat
  millisAtAttempt : Nat
deriving DecidableEq, Repr

/-- What one call of `ConnectToWiFi` leaves: the result, the static
variables, whether the (re)connect block was entered, and whether
`WiFi.begin` was called. -/
structure WiFiOutcome where
  result : WiFiConnectResult
  state : WiFiState
  attempted : Bool
  began : Bool
deriving DecidableEq, Repr

/-- `haveNewCredentials` of `ConnectToWiFi`. -/
def haveNewCredentials (st : WiFiState) (call : WiFiCall) : Bool :=
  match call.credentials with
  | none => false
  | some (ssid, password) => st.WiFi_ssid != ssid || st.WiFi_password != password

/-- `ConnectToWiFi(ssid, password)` on its static variables.  `unsigned long`
has 32 bits.  The services started on the first connection are left out:
with `INCOMING_WIFI_ENABLED` 0 nothing there throws or touches the static
variables other than `bPreviousConnection`. -/
def ConnectToWiFi (st : WiFiState) (call : WiFiCall) : WiFiOutcome :=
  let haveNew := haveNewCredentials st call
  let st1 : WiFiState :=
    if haveNew then
      match call.credentials with
      | some (ssid, password) =>
        { st with WiFi_ssid := ssid, WiFi_password := password, retryDelay := WIFI_WAIT_INIT }
      | none => st
    else st
  if !haveNew && (st.bPreviousConnection && call.connectedBefore) then
    { result := WiFiConnectResult.Connected, state := st, attempted := false, began := false }
  else if haveNew || st1.millisAtLastAttempt == 0
      || decide (st1.retryDelay ≤ ulongSub call.millisAtCheck st1.millisAtLastAttempt)
  then
    let st2 : WiFiState :=
      { st1 with
        millisAtLastAttempt := call.millisAtAttempt % 2 ^ 32,
        retryDelay := min ((st1.retryDelay + WIFI_WAIT_INCREASE) % 2 ^ 32) WIFI_WAIT_MAX }
    if st2.WiFi_ssid.length = 0 then
      { result := WiFiConnectResult.NoCredentials, state := st2, attempted := true,
        began := false }
    else if call.connectedAfter then
      { result := WiFiConnectResult.Connected,
        state := { st2 with bPreviousConnection := true }, attempted := true, began := true }
    else
      { result := WiFiConnectResult.Disconnected, state := st2, attempted := true,
        began := true }
  else if call.connectedAfter then
    { result := WiFiConnectResult.Connected,
      state := { st1 with bPreviousConnection := true }, attempted := false, began := false }
  else
    { result := WiFiConnectResult.Disconnected, state := st1, attempted := false,
      began := false }

/-- A run of calls of `ConnectToWiFi`, with the number of calls that entered
the (re)connect block since credentials were last set: the static variables
and that number at the end. -/
def connectCalls : WiFiState → Nat → List WiFiCall → WiFiState × Nat
  | st, attempts, [] => (st, attempts)
  | st, attempts, call :: rest =>
    let o := ConnectToWiFi st call
    connectCalls o.state
      (if haveNewCredentials st call then 1
       else if o.attempted then attempts + 1 else attempts) rest

/-! ## Sizes for people (src/include/globals.h) -/

/-- The suffixes of `formatSize`. -/
def formatSize.suffixes : List String := ["", "K", "M", "G", "T", "P", "E", "Z"]

/-- The `while` loop of `formatSize`: the number of divisions by 1000.  The
double `sizeDouble` is `size / 1000 ^ suffixIndex`, taken exactly, so that
`sizeDouble >= threshold` is `threshold * 1000 ^ suffixIndex ≤ size`. -/
def formatSize.loop (size threshold : Nat) : Nat → Nat → Nat
  | 0, suffixIndex => suffixIndex
  | fuel + 1, suffixIndex =>
    if threshold * 1000 ^ suffixIndex ≤ size ∧ suffixIndex < formatSize.suffixes.length - 1 then
      formatSize.loop size threshold fuel (suffixIndex + 1)
    else suffixIndex

/-- The text of `num / den` under `std::fixed` and `std::setprecision`
with `precision` digits after the point, rounded to the nearest (a half goes
up). -/
def fixedText (num den precision : Nat) : String :=
  let scaled := (2 * num * 10 ^ precision + den) / (2 * den)
  let whole := Nat.repr (scaled / 10 ^ precision)
  if precision = 0 then whole
  else
    let frac := Nat.toDigits 10 (scaled % 10 ^ precision)
    whole ++ "." ++ String.mk (List.replicate (precision - frac.length) '0' ++ frac)

/-- `formatSize(size, threshold)`; the default `threshold` is 1000.  The
division of the double is exact here. -/
def formatSize (size threshold : Nat) : String :=
  let precision := if size < threshold then 0 else 2
  let suffixIndex := formatSize.loop size threshold formatSize.suffixes.length 0
  fixedText size (1000 ^ suffixIndex) precision ++ formatSize.suffixes.getD suffixIndex ""

/-! ## The order of the default effects, as the claims word it -/

/-- The state of `LoadJSONAndMissingEffects` between its two loops. -/
def jsonLoadState (jsonFactories : JSONFactories) (effectsArray : List JsonObject)
    (_vEffects : List LEDStripEffect) : LoadState :=
  loadJSONEffects jsonFactories effectsArray
    { effects := _vEffects, loaded := [], produced := [] }

/-- The numbers of a list, each once, in the order of their first
occurrence. -/
def firstOccurrences : List Int → List Int
  | [] => []
  | n :: rest => n :: (firstOccurrences rest).filter fun m => decide (m ≠ n)

/-- A list put in groups by a number: the groups come in the order in which
their numbers first occur in the list, and within a group the elements keep
the order they have in the list. -/
def groupedBy {α : Type} (key : α → Int) (l : List α) : List α :=
  (firstOccurrences (l.map key)).flatMap fun n => l.filter fun a => decide (key a = n)

/-- The default factories whose number is not in `loaded`, each with its
position in the default list (counted from `pos`), in the order of the
list. -/
def missingFactories (loaded : List Int) (pos : Nat) (defaultFactories : List NumberedFactory) :
    List (Nat × NumberedFactory) :=
  (defaultFactories.enumFrom pos).filter fun c => decide (c.2.effectNumber ∉ loaded)

/-- Equal numbers are contiguous in a list: a number does not come back
after another number has followed it. -/
def sameNumberContiguous : List Int → Prop
  | [] => True
  | n :: rest => n ∉ rest.dropWhile (fun m => decide (m = n)) ∧ sameNumberContiguous rest

/-! # Properties

### The decoders are little-endian -/

theorem byteAt_lt (p : List Nat) (i : Nat) : byteAt p i < 256 :=
  Nat.mod_lt _ (by decide)

theorem or_eq_add_of_shifted (i c a b : Nat) (ha : a = 2 ^ i * c) (hb : b < 2 ^ i) :
    a ||| b = a + b := by
  subst ha
  exact (Nat.mul_add_lt_is_or hb c).symm

theorem WORDFromMemory_eq (p : List Nat) (off : Nat) :
    WORDFromMemory p off = byteAt p off + 256 * byteAt p (off + 1) := by
  have h0 := byteAt_lt p off
  have h1 := byteAt_lt p (off + 1)
  unfold WORDFromMemory
  generalize byteAt p off = b0 at *
  generalize byteAt p (off + 1) = b1 at *
  simp only [Nat.shiftLeft_eq]
  rw [or_eq_add_of_shifted 8 (b1) (b1 * 2 ^ 8) (b0) (by omega) (by omega)]
  omega

theorem DWORDFromMemory_eq (p : List Nat) (off : Nat) :
    DWORDFromMemory p off = byteAt p off + 256 * byteAt p (off + 1) + 256 ^ 2 * byteAt p (off + 2) + 256 ^ 3 * byteAt p (off + 3) := by
  have h0 := byteAt_lt p off
  have h1 := byteAt_lt p (off + 1)
  have h2 := byteAt_lt p (off + 2)
  have h3 := byteAt_lt p (off + 3)
  unfold DWORDFromMemory
  generalize byteAt p off = b0 at *
  generalize byteAt p (off + 1) = b1 at *
  generalize byteAt p (off + 2) = b2 at *
  generalize byteAt p (off + 3) = b3 at *
  simp only [Nat.shiftLeft_eq]
  rw [or_eq_add_of_shifted 24 (b3) (b3 * 2 ^ 24) (b2 * 2 ^ 16) (by omega) (by omega)]
  rw [or_eq_add_of_shifted 16 (b3 * 2 ^ 8 + b2) (b3 * 2 ^ 24 + b2 * 2 ^ 16) (b1 * 2 ^ 8) (by omega) (by omega)]
  rw [or_eq_add_of_shifted 8 (b3 * 2 ^ 16 + b2 * 2 ^ 8 + b1) (b3 * 2 ^ 24 + b2 * 2 ^ 16 + b1 * 2 ^ 8) (b0) (by omega) (by omega)]
  omega

theorem ULONGFromMemory_eq (p : List Nat) (off : Nat) :
    ULONGFromMemory p off = byteAt p off + 256 * byteAt p (off + 1) + 256 ^ 2 * byteAt p (off + 2) + 256 ^ 3 * byteAt p (off + 3) + 256 ^ 4 * byteAt p (off + 4) + 256 ^ 5 * byteAt p (off + 5) + 256 ^ 6 * byteAt p (off + 6) + 256 ^ 7 * byteAt p (off + 7) := by
  have h0 := byteAt_lt p off
  have h1 := byteAt_lt p (off + 1)
  have h2 := byteAt_lt p (off + 2)
  have h3 := byteAt_lt p (off + 3)
  have h4 := byteAt_lt p (off + 4)
  have h5 := byteAt_lt p (off + 5)
  have h6 := byteAt_lt p (off + 6)
  have h7 := byteAt_lt p (off + 7)
  unfold ULONGFromMemory
  generalize byteAt p off = b0 at *
  generalize byteAt p (off + 1) = b1 at *
  generalize byteAt p (off + 2) = b2 at *
  generalize byteAt p (off + 3) = b3 at *
  generalize byteAt p (off + 4) = b4 at *
  generalize byteAt p (off + 5) = b5 at *
  generalize byteAt p (off + 6) = b6 at *
  generalize byteAt p (off + 7) = b7 at *
  simp only [Nat.shiftLeft_eq]
  rw [or_eq_add_of_shifted 56 (b7) (b7 * 2 ^ 56) (b6 * 2 ^ 48) (by omega) (by omega)]
  rw [or_eq_add_of_shifted 48 (b7 * 2 ^ 8 + b6) (b7 * 2 ^ 56 + b6 * 2 ^ 48) (b5 * 2 ^ 40) (by omega) (by omega)]
  rw [or_eq_add_of_shifted 40 (b7 * 2 ^ 16 + b6 * 2 ^ 8 + b5) (b7 * 2 ^ 56 + b6 * 2 ^ 48 + b5 * 2 ^ 40) (b4 * 2 ^ 32) (by omega) (by omega)]
  rw [or_eq_add_of_shifted 32 (b7 * 2 ^ 24 + b6 * 2 ^ 16 + b5 * 2 ^ 8 + b4) (b7 * 2 ^ 56 + b6 * 2 ^ 48 + b5 * 2 ^ 40 + b4 * 2 ^ 32) (b3 * 2 ^ 24) (by omega) (by omega)]
  rw [or_eq_add_of_shifted 24 (b7 * 2 ^ 32 + b6 * 2 ^ 24 + b5 * 2 ^ 16 + b4 * 2 ^ 8 + b3) (b7 * 2 ^ 56 + b6 * 2 ^ 48 + b5 * 2 ^ 40 + b4 * 2 ^ 32 + b3 * 2 ^ 24) (b2 * 2 ^ 16) (by omega) (by omega)]
  rw [or_eq_add_of_shifted 16 (b7 * 2 ^ 40 + b6 * 2 ^ 32 + b5 * 2 ^ 24 + b4 * 2 ^ 16 + b3 * 2 ^ 8 + b2) (b7 * 2 ^ 56 + b6 * 2 ^ 48 + b5 * 2 ^ 40 + b4 * 2 ^ 32 + b3 * 2 ^ 24 + b2 * 2 ^ 16) (b1 * 2 ^ 8) (by omega) (by omega)]
  rw [or_eq_add_of_shifted 8 (b7 * 2 ^ 48 + b6 * 2 ^ 40 + b5 * 2 ^ 32 + b4 * 2 ^ 24 + b3 * 2 ^ 16 + b2 * 2 ^ 8 + b1) (b7 * 2 ^ 56 + b6 * 2 ^ 48 + b5 * 2 ^ 40 + b4 * 2 ^ 32 + b3 * 2 ^ 24 + b2 * 2 ^ 16 + b1 * 2 ^ 8) (b0) (by omega) (by omega)]
  omega


/-! ### The channel mask -/

theorem mask_step (k : Nat) : (2 ^ k % 2 ^ 32) <<< 1 % 2 ^ 32 = 2 ^ (k + 1) % 2 ^ 32 := by
  rw [Nat.shiftLeft_eq, pow_one, Nat.mod_mul_mod, ← pow_succ]

theorem mask_and (k c : Nat) (hc : c < 2 ^ 16) :
    ((2 ^ k % 2 ^ 32 &&& c) != 0) = c.testBit k := by
  by_cases hk : k < 32
  · rw [Nat.mod_eq_of_lt (Nat.pow_lt_pow_right (by decide) hk), Nat.and_comm, Nat.and_two_pow]
    cases c.testBit k <;> simp
  · have h32 : 2 ^ k % 2 ^ 32 = 0 := by
      obtain ⟨d, rfl⟩ : ∃ d, k = 32 + d := ⟨k - 32, by omega⟩
      rw [pow_add, Nat.mul_mod_right]
    have hlt : c < 2 ^ k :=
      lt_of_lt_of_le hc (Nat.pow_le_pow_right (by decide) (by omega))
    rw [h32, Nat.zero_and, Nat.testBit_lt_two_pow hlt]
    rfl

theorem channelMask16_lt (p : List Nat) : channelMask16 p < 2 ^ 16 := by
  unfold channelMask16 WORDFromMemory
  simp only
  split
  · decide
  · exact Nat.mod_lt _ (by decide)

theorem channelLoop_cons (update : WireUpdate) (p : List Nat) (c s us : Nat) (hc : c < 2 ^ 16)
    (k : Nat) (m : LEDBufferManager) (rest : List LEDBufferManager) :
    channelLoop update p c s us (2 ^ k % 2 ^ 32) (m :: rest) =
      if c.testBit k then
        if (updateChannel update p s us m).1 then
          ((channelLoop update p c s us (2 ^ (k + 1) % 2 ^ 32) rest).1,
            (updateChannel update p s us m).2 ::
              (channelLoop update p c s us (2 ^ (k + 1) % 2 ^ 32) rest).2)
        else (false, (updateChannel update p s us m).2 :: rest)
      else
        ((channelLoop update p c s us (2 ^ (k + 1) % 2 ^ 32) rest).1,
          m :: (channelLoop update p c s us (2 ^ (k + 1) % 2 ^ 32) rest).2) := by
  rw [channelLoop, mask_and k c hc, mask_step]

theorem channelLoop_length (update : WireUpdate) (p : List Nat) (c s us : Nat) :
    ∀ (ms : List LEDBufferManager) (mask : Nat),
      (channelLoop update p c s us mask ms).2.length = ms.length := by
  intro ms
  induction ms with
  | nil => intro mask; simp [channelLoop]
  | cons m rest ih =>
    intro mask
    rw [channelLoop]
    dsimp only
    split
    · split
      · simp [ih]
      · simp
    · simp [ih]

theorem channelLoop_true_iff (update : WireUpdate) (p : List Nat) (c s us : Nat)
    (hc : c < 2 ^ 16) :
    ∀ (ms : List LEDBufferManager) (k : Nat),
      (channelLoop update p c s us (2 ^ k % 2 ^ 32) ms).1 = true ↔
        ∀ i m, ms[i]? = some m → c.testBit (k + i) = true →
          (updateChannel update p s us m).1 = true := by
  intro ms
  induction ms with
  | nil => intro k; simp [channelLoop]
  | cons m rest ih =>
    intro k
    rw [channelLoop_cons update p c s us hc]
    constructor
    · intro h i m' hi hb
      cases i with
      | zero =>
        simp only [List.getElem?_cons_zero, Option.some.injEq] at hi
        subst hi
        rw [Nat.add_zero] at hb
        rw [hb] at h
        by_contra hne
        simp [hne] at h
      | succ j =>
        rw [List.getElem?_cons_succ] at hi
        have hb' : c.testBit (k + 1 + j) = true := by
          rw [show k + 1 + j = k + (j + 1) by omega]; exact hb
        refine (ih (k + 1)).1 ?_ j m' hi hb'
        split at h
        · split at h
          · exact h
          · simp at h
        · exact h
    · intro h
      have hrest : (channelLoop update p c s us (2 ^ (k + 1) % 2 ^ 32) rest).1 = true := by
        refine (ih (k + 1)).2 ?_
        intro i m' hi hb
        refine h (i + 1) m' (by rw [List.getElem?_cons_succ]; exact hi) ?_
        rw [show k + (i + 1) = k + 1 + i by omega]; exact hb
      split
      · rename_i hb
        have h0 := h 0 m (by simp) (by rw [Nat.add_zero]; exact hb)
        rw [if_pos h0]
        exact hrest
      · exact hrest

theorem channelLoop_get_of_true (update : WireUpdate) (p : List Nat) (c s us : Nat)
    (hc : c < 2 ^ 16) :
    ∀ (ms : List LEDBufferManager) (k : Nat),
      (channelLoop update p c s us (2 ^ k % 2 ^ 32) ms).1 = true →
        ∀ i, (channelLoop update p c s us (2 ^ k % 2 ^ 32) ms).2[i]? =
          (ms[i]?).map (afterChannel update p c s us (k + i)) := by
  intro ms
  induction ms with
  | nil => intro k _ i; simp [channelLoop]
  | cons m rest ih =>
    intro k
    rw [channelLoop_cons update p c s us hc]
    intro h i
    by_cases hb : c.testBit k = true
    · rw [if_pos hb] at h ⊢
      by_cases hu : (updateChannel update p s us m).1 = true
      · rw [if_pos hu] at h ⊢
        cases i with
        | zero => simp [afterChannel, hb]
        | succ j =>
          simp only [List.getElem?_cons_succ]
          rw [ih (k + 1) h j, show k + 1 + j = k + (j + 1) by omega]
      · rw [if_neg hu] at h
        simp at h
    · rw [if_neg hb] at h ⊢
      cases i with
      | zero => simp [afterChannel, hb]
      | succ j =>
        simp only [List.getElem?_cons_succ]
        rw [ih (k + 1) h j, show k + 1 + j = k + (j + 1) by omega]


theorem command16_eq (p : List Nat) : command16 p = byteAt p 0 + 256 * byteAt p 1 := by
  have h := WORDFromMemory_eq p 0
  simpa [command16, WORDFromMemory] using h

/-! ### Dispatch on the command code -/

/-- C1: a payload whose command code (bytes 0-1, little-endian) is neither
PIXELDATA (3) nor PEAKDATA (4) makes `ProcessIncomingData` return false and
leaves every buffer manager as it was, whatever the build setting, the buffer
update routine and the system state. -/
theorem unknown_command_rejected (enabled : Bool) (update : WireUpdate)
    (BufferManagers : List LEDBufferManager) (payloadData : List Nat)
    (h3 : byteAt payloadData 0 + 256 * byteAt payloadData 1 ≠ 3)
    (h4 : byteAt payloadData 0 + 256 * byteAt payloadData 1 ≠ 4) :
    ProcessIncomingData enabled update BufferManagers payloadData = (false, BufferManagers) := by
  rw [← command16_eq] at h3 h4
  unfold ProcessIncomingData
  cases enabled
  · rfl
  · simp [WIFI_COMMAND_PEAKDATA, WIFI_COMMAND_PIXELDATA64, h3, h4]

theorem unknown_command_rejected_witness :
    ProcessIncomingData true LEDBuffer.UpdateFromWire
        [{ maxBuffers := 2, buffers := [{ seconds := 5, micros := 7, pixels := [1, 2, 3] }] }]
        (wireHeader 9 1 1 5 8 ++ [4, 5, 6]) =
      (false, [{ maxBuffers := 2, buffers := [{ seconds := 5, micros := 7, pixels := [1, 2, 3] }] }]) :=
  unknown_command_rejected true LEDBuffer.UpdateFromWire _ _ (by decide) (by decide)


theorem channelLoop_none_selected (update : WireUpdate) (p : List Nat) (c s us : Nat)
    (hc : c < 2 ^ 16) :
    ∀ (ms : List LEDBufferManager) (k : Nat),
      (∀ i, i < ms.length → c.testBit (k + i) = false) →
        channelLoop update p c s us (2 ^ k % 2 ^ 32) ms = (true, ms) := by
  intro ms
  induction ms with
  | nil => intro k _; rfl
  | cons m rest ih =>
    intro k h
    have h0 : c.testBit k = false := by simpa using h 0 (by simp)
    have hr := ih (k + 1) (fun i hi => by
      rw [show k + 1 + i = k + (i + 1) by omega]
      exact h (i + 1) (by simpa using hi))
    rw [channelLoop_cons update p c s us hc, h0, hr]
    rfl

theorem ProcessIncomingData_disabled (update : WireUpdate)
    (BufferManagers : List LEDBufferManager) (payloadData : List Nat) :
    ProcessIncomingData false update BufferManagers payloadData = (false, BufferManagers) := by
  unfold ProcessIncomingData
  rfl

theorem updateChannel_congr (update : WireUpdate) (p q : List Nat) (s us : Nat)
    (m : LEDBufferManager) (h : ∀ b, update b p = update b q) :
    updateChannel update p s us m = updateChannel update q s us m := by
  unfold updateChannel addNewBuffer
  simp only [h]

/-- C2: a PIXELDATA packet whose mask field (bytes 2-3) is 0 is handled like
the same packet with mask 1.  For two PIXELDATA payloads with mask fields 0
and 1 that carry the same timestamp and that `UpdateFromWire` does not tell
apart, `ProcessIncomingData` yields the same boolean and the same buffer
managers; and with ingestion enabled the mask-0 packet is applied to channel
0 alone: the update policy runs on the first manager, its flag is the
returned boolean, and every other manager is untouched. -/
theorem mask_zero_is_mask_one (enabled : Bool) (update : WireUpdate)
    (BufferManagers : List LEDBufferManager) (p0 p1 : List Nat)
    (hc0 : command16 p0 = WIFI_COMMAND_PIXELDATA64)
    (hc1 : command16 p1 = WIFI_COMMAND_PIXELDATA64)
    (hm0 : WORDFromMemory p0 2 = 0) (hm1 : WORDFromMemory p1 2 = 1)
    (hs : ULONGFromMemory p0 8 = ULONGFromMemory p1 8)
    (hus : ULONGFromMemory p0 16 = ULONGFromMemory p1 16)
    (hu : ∀ b, update b p0 = update b p1) :
    ProcessIncomingData enabled update BufferManagers p0 =
        ProcessIncomingData enabled update BufferManagers p1 ∧
      ProcessIncomingData true update BufferManagers p0 =
        (match BufferManagers with
         | [] => (true, [])
         | m :: rest =>
           ((updateChannel update p0 (ULONGFromMemory p0 8) (ULONGFromMemory p0 16) m).1,
            (updateChannel update p0 (ULONGFromMemory p0 8) (ULONGFromMemory p0 16) m).2 ::
              rest)) := by
  have hk0 : channelMask16 p0 = 1 := by simp [channelMask16, hm0]
  have hk1 : channelMask16 p1 = 1 := by simp [channelMask16, hm1]
  have hne : WIFI_COMMAND_PIXELDATA64 ≠ WIFI_COMMAND_PEAKDATA := by decide
  have key : ∀ (p : List Nat) (s us : Nat),
      channelLoop update p 1 s us 1 BufferManagers =
        (match BufferManagers with
         | [] => (true, [])
         | m :: rest =>
           ((updateChannel update p s us m).1, (updateChannel update p s us m).2 :: rest)) := by
    intro p s us
    cases BufferManagers with
    | nil => rfl
    | cons m rest =>
      have hrest := channelLoop_none_selected update p 1 s us (by decide) rest 1
        (fun i _ => Nat.testBit_lt_two_pow (Nat.one_lt_two_pow (by omega)))
      have hb : Nat.testBit 1 0 = true := by decide
      have hcons := channelLoop_cons update p 1 s us (by decide) 0 m rest
      rw [show (2 : Nat) ^ 0 % 2 ^ 32 = 1 by decide, Nat.zero_add, hb, hrest] at hcons
      rw [hcons]
      by_cases h : (updateChannel update p s us m).1 = true
      · simp [h]
      · simp [h]
  have e0 : ProcessIncomingData true update BufferManagers p0 =
      channelLoop update p0 1 (ULONGFromMemory p0 8) (ULONGFromMemory p0 16) 1 BufferManagers := by
    simp [ProcessIncomingData, hc0, hne, hk0]
  have e1 : ProcessIncomingData true update BufferManagers p1 =
      channelLoop update p1 1 (ULONGFromMemory p1 8) (ULONGFromMemory p1 16) 1 BufferManagers := by
    simp [ProcessIncomingData, hc1, hne, hk1]
  refine ⟨?_, ?_⟩
  · cases enabled
    · rw [ProcessIncomingData_disabled, ProcessIncomingData_disabled]
    · rw [e0, e1, key, key, ← hs, ← hus]
      cases BufferManagers with
      | nil => rfl
      | cons m rest =>
        simp only [updateChannel_congr update p0 p1 _ _ m hu]
  · rw [e0, key]

theorem mask_zero_is_mask_one_witness :
    ProcessIncomingData true LEDBuffer.UpdateFromWire
        [{ maxBuffers := 2, buffers := [] }, { maxBuffers := 2, buffers := [] }]
        (pixelPacket 0 5 7 [1, 2, 3]) =
      ProcessIncomingData true LEDBuffer.UpdateFromWire
        [{ maxBuffers := 2, buffers := [] }, { maxBuffers := 2, buffers := [] }]
        (pixelPacket 1 5 7 [1, 2, 3]) :=
  (mask_zero_is_mask_one true LEDBuffer.UpdateFromWire
    [{ maxBuffers := 2, buffers := [] }, { maxBuffers := 2, buffers := [] }]
    (pixelPacket 0 5 7 [1, 2, 3]) (pixelPacket 1 5 7 [1, 2, 3])
    (by decide) (by decide) (by decide) (by decide) (by decide) (by decide)
    (fun _ => rfl)).1

/-- C4: for a PIXELDATA packet with normalized mask `m` on a system of `N`
buffer managers, when the buffer update succeeds on every existing channel
the mask selects, `ProcessIncomingData` returns true, keeps the `N` managers,
and has applied the update policy to channel `i` exactly where `i < N` and
bit `i` of `m` is set; the other managers are unchanged, and bits of `m` at
positions `N` and above have no effect. -/
theorem mask_selects_channels (update : WireUpdate)
    (BufferManagers : List LEDBufferManager) (payloadData : List Nat)
    (hcmd : command16 payloadData = WIFI_COMMAND_PIXELDATA64)
    (hok : ∀ i m, BufferManagers[i]? = some m →
      (channelMask16 payloadData).testBit i = true →
      (updateChannel update payloadData (ULONGFromMemory payloadData 8)
        (ULONGFromMemory payloadData 16) m).1 = true) :
    (ProcessIncomingData true update BufferManagers payloadData).1 = true ∧
      (ProcessIncomingData true update BufferManagers payloadData).2.length =
        BufferManagers.length ∧
      ∀ i, (ProcessIncomingData true update BufferManagers payloadData).2[i]? =
        (BufferManagers[i]?).map fun m =>
          if (channelMask16 payloadData).testBit i then
            (updateChannel update payloadData (ULONGFromMemory payloadData 8)
              (ULONGFromMemory payloadData 16) m).2
          else m := by
  have hne : WIFI_COMMAND_PIXELDATA64 ≠ WIFI_COMMAND_PEAKDATA := by decide
  have e : ProcessIncomingData true update BufferManagers payloadData =
      channelLoop update payloadData (channelMask16 payloadData)
        (ULONGFromMemory payloadData 8) (ULONGFromMemory payloadData 16) (2 ^ 0 % 2 ^ 32)
        BufferManagers := by
    simp [ProcessIncomingData, hcmd, hne]
  have htrue := (channelLoop_true_iff update payloadData (channelMask16 payloadData)
    (ULONGFromMemory payloadData 8) (ULONGFromMemory payloadData 16)
    (channelMask16_lt payloadData) BufferManagers 0).2
    (by simpa only [Nat.zero_add] using hok)
  rw [e]
  refine ⟨htrue, channelLoop_length _ _ _ _ _ _ _, ?_⟩
  intro i
  have hget := channelLoop_get_of_true update payloadData (channelMask16 payloadData)
    (ULONGFromMemory payloadData 8) (ULONGFromMemory payloadData 16)
    (channelMask16_lt payloadData) BufferManagers 0 htrue i
  rw [hget, Nat.zero_add]
  rfl

theorem mask_selects_channels_witness :
    (ProcessIncomingData true LEDBuffer.UpdateFromWire
        [{ maxBuffers := 2, buffers := [] }, { maxBuffers := 2, buffers := [] }]
        (pixelPacket 6 5 7 [1, 2, 3])).1 = true :=
  (mask_selects_channels LEDBuffer.UpdateFromWire
    [{ maxBuffers := 2, buffers := [] }, { maxBuffers := 2, buffers := [] }]
    (pixelPacket 6 5 7 [1, 2, 3]) (by decide)
    (by
      intro i m _ _
      have hu : ∀ b, LEDBuffer.UpdateFromWire b (pixelPacket 6 5 7 [1, 2, 3]) =
          (true, { seconds := 5, micros := 7, pixels := [1, 2, 3] }) := fun _ => rfl
      unfold updateChannel addNewBuffer
      split
      · simp only [hu]
      · split <;> simp only [hu])).1


/-! ### The header layout -/

theorem byteAt_cons_zero (a : Nat) (l : List Nat) : byteAt (a :: l) 0 = a % 256 := rfl

theorem byteAt_cons_succ (a : Nat) (l : List Nat) (i : Nat) :
    byteAt (a :: l) (i + 1) = byteAt l i := rfl

theorem WORDFromMemory_cons (a : Nat) (l : List Nat) (off : Nat) :
    WORDFromMemory (a :: l) (off + 1) = WORDFromMemory l off := rfl

theorem DWORDFromMemory_cons (a : Nat) (l : List Nat) (off : Nat) :
    DWORDFromMemory (a :: l) (off + 1) = DWORDFromMemory l off := rfl

theorem ULONGFromMemory_cons (a : Nat) (l : List Nat) (off : Nat) :
    ULONGFromMemory (a :: l) (off + 1) = ULONGFromMemory l off := rfl

theorem WORDFromMemory_encodeLE (n : Nat) (rest : List Nat) (h : n < 2 ^ 16) :
    WORDFromMemory (encodeLE 2 n ++ rest) 0 = n := by
  rw [WORDFromMemory_eq]
  simp only [encodeLE, List.cons_append, List.nil_append, byteAt_cons_zero, byteAt_cons_succ]
  omega

theorem DWORDFromMemory_encodeLE (n : Nat) (rest : List Nat) (h : n < 2 ^ 32) :
    DWORDFromMemory (encodeLE 4 n ++ rest) 0 = n := by
  rw [DWORDFromMemory_eq]
  simp only [encodeLE, List.cons_append, List.nil_append, byteAt_cons_zero, byteAt_cons_succ]
  omega

theorem ULONGFromMemory_encodeLE (n : Nat) (rest : List Nat) (h : n < 2 ^ 64) :
    ULONGFromMemory (encodeLE 8 n ++ rest) 0 = n := by
  rw [ULONGFromMemory_eq]
  simp only [encodeLE, List.cons_append, List.nil_append, byteAt_cons_zero, byteAt_cons_succ]
  omega

theorem byteAt_append_right (pre l : List Nat) (k i : Nat) (hk : pre.length = k) :
    byteAt (pre ++ l) (k + i) = byteAt l i := by
  subst hk
  unfold byteAt
  rw [List.getD_eq_getElem?_getD, List.getD_eq_getElem?_getD,
    List.getElem?_append_right (by omega)]
  simp

theorem encodeLE_length (k n : Nat) : (encodeLE k n).length = k := by
  induction k generalizing n with
  | zero => rfl
  | succ k ih => simp [encodeLE, ih]

theorem WORDFromMemory_append_right (pre l : List Nat) (k off : Nat) (hk : pre.length = k) :
    WORDFromMemory (pre ++ l) (k + off) = WORDFromMemory l off := by
  unfold WORDFromMemory
  simp only [Nat.add_assoc, byteAt_append_right pre l k _ hk]

theorem DWORDFromMemory_append_right (pre l : List Nat) (k off : Nat) (hk : pre.length = k) :
    DWORDFromMemory (pre ++ l) (k + off) = DWORDFromMemory l off := by
  unfold DWORDFromMemory
  simp only [Nat.add_assoc, byteAt_append_right pre l k _ hk]

theorem ULONGFromMemory_append_right (pre l : List Nat) (k off : Nat) (hk : pre.length = k) :
    ULONGFromMemory (pre ++ l) (k + off) = ULONGFromMemory l off := by
  unfold ULONGFromMemory
  simp only [Nat.add_assoc, byteAt_append_right pre l k _ hk]

theorem wireHeader_fields (command channel length seconds micros : Nat) (body : List Nat)
    (hcmd : command < 2 ^ 16) (hch : channel < 2 ^ 16) (hlen : length < 2 ^ 32)
    (hs : seconds < 2 ^ 64) (hus : micros < 2 ^ 64) :
    command16 (wireHeader command channel length seconds micros ++ body) = command ∧
      WORDFromMemory (wireHeader command channel length seconds micros ++ body) 2 = channel ∧
      DWORDFromMemory (wireHeader command channel length seconds micros ++ body) 4 = length ∧
      ULONGFromMemory (wireHeader command channel length seconds micros ++ body) 8 = seconds ∧
      ULONGFromMemory (wireHeader command channel length seconds micros ++ body) 16 = micros := by
  have e : wireHeader command channel length seconds micros ++ body =
      encodeLE 2 command ++ (encodeLE 2 channel ++ (encodeLE 4 length ++
        (encodeLE 8 seconds ++ (encodeLE 8 micros ++ body)))) := by
    simp [wireHeader, List.append_assoc]
  have l2 := encodeLE_length 2
  have l4 := encodeLE_length 4
  have l8 := encodeLE_length 8
  refine ⟨?_, ?_, ?_, ?_, ?_⟩
  · rw [e]
    exact WORDFromMemory_encodeLE command _ hcmd
  · rw [e, WORDFromMemory_append_right _ _ 2 0 (l2 _)]
    exact WORDFromMemory_encodeLE channel _ hch
  · rw [e, ← List.append_assoc,
      DWORDFromMemory_append_right _ _ 4 0 (by rw [List.length_append, l2, l2])]
    exact DWORDFromMemory_encodeLE length _ hlen
  · rw [e, ← List.append_assoc, ← List.append_assoc,
      ULONGFromMemory_append_right _ _ 8 0 (by simp only [List.length_append, l2, l4])]
    exact ULONGFromMemory_encodeLE seconds _ hs
  · rw [e, ← List.append_assoc, ← List.append_assoc, ← List.append_assoc,
      ULONGFromMemory_append_right _ _ 16 0 (by simp only [List.length_append, l2, l4, l8])]
    exact ULONGFromMemory_encodeLE micros _ hus

/-- C8: `WORDFromMemory`, `DWORDFromMemory` and `ULONGFromMemory` decode 2, 4
and 8 bytes as little-endian unsigned integers, the value being the sum of
`byte[i] * 256 ^ i`; decoding the little-endian bytes of a number below
`2 ^ 16`, `2 ^ 32`, `2 ^ 64` gives the number back; and on a packet laid out
as command, channel mask, length, seconds, microseconds, `ProcessIncomingData`
reads the command from bytes 0-1, the mask from bytes 2-3, the length from
bytes 4-7, the seconds from bytes 8-15 and the microseconds from bytes 16-23,
and dispatches on these values. -/
theorem wire_fields_little_endian (p : List Nat) (off : Nat)
    (command channel length seconds micros : Nat) (body : List Nat)
    (update : WireUpdate) (BufferManagers : List LEDBufferManager)
    (hcmd : command < 2 ^ 16) (hch : channel < 2 ^ 16) (hlen : length < 2 ^ 32)
    (hs : seconds < 2 ^ 64) (hus : micros < 2 ^ 64) :
    (WORDFromMemory p off = byteAt p off + 256 * byteAt p (off + 1) ∧
      DWORDFromMemory p off = byteAt p off + 256 * byteAt p (off + 1)
        + 256 ^ 2 * byteAt p (off + 2) + 256 ^ 3 * byteAt p (off + 3) ∧
      ULONGFromMemory p off = byteAt p off + 256 * byteAt p (off + 1)
        + 256 ^ 2 * byteAt p (off + 2) + 256 ^ 3 * byteAt p (off + 3)
        + 256 ^ 4 * byteAt p (off + 4) + 256 ^ 5 * byteAt p (off + 5)
        + 256 ^ 6 * byteAt p (off + 6) + 256 ^ 7 * byteAt p (off + 7)) ∧
    (WORDFromMemory (encodeLE 2 command ++ body) 0 = command ∧
      DWORDFromMemory (encodeLE 4 length ++ body) 0 = length ∧
      ULONGFromMemory (encodeLE 8 seconds ++ body) 0 = seconds) ∧
    (command16 (wireHeader command channel length seconds micros ++ body) = command ∧
      WORDFromMemory (wireHeader command channel length seconds micros ++ body) 2 = channel ∧
      DWORDFromMemory (wireHeader command channel length seconds micros ++ body) 4 = length ∧
      ULONGFromMemory (wireHeader command channel length seconds micros ++ body) 8 = seconds ∧
      ULONGFromMemory (wireHeader command channel length seconds micros ++ body) 16 = micros) ∧
    ProcessIncomingData true update BufferManagers
        (wireHeader command channel length seconds micros ++ body) =
      (if command = 4 then (true, BufferManagers)
       else if command = 3 then
         channelLoop update (wireHeader command channel length seconds micros ++ body)
           (if channel = 0 then 1 else channel) seconds micros 1 BufferManagers
       else (false, BufferManagers)) := by
  have hf := wireHeader_fields command channel length seconds micros body hcmd hch hlen hs hus
  refine ⟨⟨WORDFromMemory_eq p off, DWORDFromMemory_eq p off, ULONGFromMemory_eq p off⟩,
    ⟨WORDFromMemory_encodeLE command body hcmd, DWORDFromMemory_encodeLE length body hlen,
      ULONGFromMemory_encodeLE seconds body hs⟩, hf, ?_⟩
  obtain ⟨h1, h2, _, h4, h5⟩ := hf
  simp only [ProcessIncomingData, channelMask16, h1, h2, h4, h5, WIFI_COMMAND_PEAKDATA,
    WIFI_COMMAND_PIXELDATA64, Bool.not_true, Bool.false_eq_true, if_false]

theorem wire_fields_little_endian_witness :
    ProcessIncomingData true LEDBuffer.UpdateFromWire [{ maxBuffers := 2, buffers := [] }]
        (wireHeader 3 513 1 4294967301 70000 ++ [1, 2, 3]) =
      (if 3 = 4 then (true, [{ maxBuffers := 2, buffers := [] }])
       else if 3 = 3 then
         channelLoop LEDBuffer.UpdateFromWire (wireHeader 3 513 1 4294967301 70000 ++ [1, 2, 3])
           (if 513 = 0 then 1 else 513) 4294967301 70000 1 [{ maxBuffers := 2, buffers := [] }]
       else (false, [{ maxBuffers := 2, buffers := [] }])) :=
  (wire_fields_little_endian [] 0 3 513 1 4294967301 70000 [1, 2, 3] LEDBuffer.UpdateFromWire
    [{ maxBuffers := 2, buffers := [] }] (by decide) (by decide) (by decide) (by decide)
    (by decide)).2.2.2


/-! ### The matching policy of one channel -/

theorem GetNewBuffer_length_le (m : LEDBufferManager) :
    m.GetNewBuffer.2.length ≤ m.buffers.length := by
  unfold LEDBufferManager.GetNewBuffer
  split
  · exact Nat.le_refl _
  · simp

theorem addNewBuffer_buffers (update : WireUpdate) (p : List Nat) (m : LEDBufferManager) :
    (addNewBuffer update p m).2.buffers = (update m.GetNewBuffer.1 p).2 :: m.GetNewBuffer.2 :=
  rfl

theorem addNewBuffer_fst (update : WireUpdate) (p : List Nat) (m : LEDBufferManager) :
    (addNewBuffer update p m).1 = (update m.GetNewBuffer.1 p).1 :=
  rfl

theorem updateChannel_in_place (update : WireUpdate) (p : List Nat) (s us : Nat)
    (m : LEDBufferManager) (newest : LEDBuffer) (older : List LEDBuffer)
    (hm : m.buffers = newest :: older) (hnz : us ≠ 0) (hus : newest.micros = us)
    (hs : newest.seconds = s) :
    updateChannel update p s us m =
      ((update newest p).1, { m with buffers := (update newest p).2 :: older }) := by
  unfold updateChannel
  rw [hm]
  simp [hnz, hus, hs]

theorem updateChannel_new_of_empty (update : WireUpdate) (p : List Nat) (s us : Nat)
    (m : LEDBufferManager) (hm : m.buffers = []) :
    updateChannel update p s us m = addNewBuffer update p m := by
  unfold updateChannel
  rw [hm]

theorem updateChannel_new_of_mismatch (update : WireUpdate) (p : List Nat) (s us : Nat)
    (m : LEDBufferManager) (newest : LEDBuffer) (older : List LEDBuffer)
    (hm : m.buffers = newest :: older)
    (h : ¬ (us ≠ 0 ∧ newest.micros = us ∧ newest.seconds = s)) :
    updateChannel update p s us m = addNewBuffer update p m := by
  unfold updateChannel
  rw [hm]
  have hc : (us != 0 && newest.micros == us && newest.seconds == s) = false := by
    rw [Bool.eq_false_iff]
    intro hc
    simp only [Bool.and_eq_true, bne_iff_ne, ne_eq, beq_iff_eq] at hc
    exact h ⟨hc.1.1, hc.1.2, hc.2⟩
  simp only [hc, Bool.false_eq_true, if_false]

theorem updateChannel_count_le (update : WireUpdate) (p : List Nat) (s us : Nat)
    (m : LEDBufferManager) : (updateChannel update p s us m).2.Count ≤ m.Count + 1 := by
  have hnew : (addNewBuffer update p m).2.Count ≤ m.Count + 1 := by
    unfold LEDBufferManager.Count
    rw [addNewBuffer_buffers, List.length_cons]
    exact Nat.succ_le_succ (GetNewBuffer_length_le m)
  unfold updateChannel
  split
  · exact hnew
  · rename_i newest older hm
    split
    · simp [LEDBufferManager.Count, hm]
    · exact hnew

theorem updateChannel_newest_of_true (update : WireUpdate)
    (hts : ∀ b q, (update b q).1 = true →
      (update b q).2.seconds = ULONGFromMemory q 8 ∧ (update b q).2.micros = ULONGFromMemory q 16)
    (p : List Nat) (s us : Nat) (m : LEDBufferManager)
    (h : (updateChannel update p s us m).1 = true) :
    ∃ newest older, (updateChannel update p s us m).2.buffers = newest :: older ∧
      newest.seconds = ULONGFromMemory p 8 ∧ newest.micros = ULONGFromMemory p 16 := by
  have hnew : (addNewBuffer update p m).1 = true →
      ∃ newest older, (addNewBuffer update p m).2.buffers = newest :: older ∧
        newest.seconds = ULONGFromMemory p 8 ∧ newest.micros = ULONGFromMemory p 16 := by
    intro h
    exact ⟨_, _, addNewBuffer_buffers update p m, hts _ _ h⟩
  cases hm : m.buffers with
  | nil =>
    rw [updateChannel_new_of_empty update p s us m hm] at h ⊢
    exact hnew h
  | cons newest older =>
    by_cases hc : us ≠ 0 ∧ newest.micros = us ∧ newest.seconds = s
    · rw [updateChannel_in_place update p s us m newest older hm hc.1 hc.2.1 hc.2.2] at h ⊢
      exact ⟨_, _, rfl, hts _ _ h⟩
    · rw [updateChannel_new_of_mismatch update p s us m newest older hm hc] at h ⊢
      exact hnew h

/-! ### The channel loop, whatever its outcome -/

theorem channelLoop_get_cases (update : WireUpdate) (p : List Nat) (c s us : Nat) :
    ∀ (ms : List LEDBufferManager) (mask i : Nat),
      (channelLoop update p c s us mask ms).2[i]? = ms[i]? ∨
        (channelLoop update p c s us mask ms).2[i]? =
          (ms[i]?).map fun m => (updateChannel update p s us m).2 := by
  intro ms
  induction ms with
  | nil => intro mask i; left; rfl
  | cons m rest ih =>
    intro mask i
    rw [channelLoop]
    dsimp only
    split
    · split
      · cases i with
        | zero => right; simp
        | succ j =>
          simp only [List.getElem?_cons_succ]
          exact ih _ j
      · cases i with
        | zero => right; simp
        | succ j => left; simp
    · cases i with
      | zero => left; simp
      | succ j =>
        simp only [List.getElem?_cons_succ]
        exact ih _ j

theorem channelLoop_false (update : WireUpdate) (p : List Nat) (c s us : Nat)
    (hc : c < 2 ^ 16) :
    ∀ (ms : List LEDBufferManager) (k : Nat),
      (channelLoop update p c s us (2 ^ k % 2 ^ 32) ms).1 = false →
        ∃ j m, ms[j]? = some m ∧ c.testBit (k + j) = true ∧
          (updateChannel update p s us m).1 = false ∧
          (channelLoop update p c s us (2 ^ k % 2 ^ 32) ms).2[j]? =
            some (updateChannel update p s us m).2 ∧
          (∀ i, i < j → (channelLoop update p c s us (2 ^ k % 2 ^ 32) ms).2[i]? =
            (ms[i]?).map (afterChannel update p c s us (k + i))) ∧
          (∀ i m', i < j → ms[i]? = some m' → c.testBit (k + i) = true →
            (updateChannel update p s us m').1 = true) ∧
          ∀ i, j < i → (channelLoop update p c s us (2 ^ k % 2 ^ 32) ms).2[i]? = ms[i]? := by
  intro ms
  induction ms with
  | nil => intro k h; simp [channelLoop] at h
  | cons m rest ih =>
    intro k
    rw [channelLoop_cons update p c s us hc]
    intro h
    have step : (channelLoop update p c s us (2 ^ (k + 1) % 2 ^ 32) rest).1 = false →
        (c.testBit k = true → (updateChannel update p s us m).1 = true) →
        ∀ front : LEDBufferManager, front = afterChannel update p c s us k m →
        ∃ j m0, (m :: rest)[j]? = some m0 ∧ c.testBit (k + j) = true ∧
          (updateChannel update p s us m0).1 = false ∧
          (front :: (channelLoop update p c s us (2 ^ (k + 1) % 2 ^ 32) rest).2)[j]? =
            some (updateChannel update p s us m0).2 ∧
          (∀ i, i < j →
            (front :: (channelLoop update p c s us (2 ^ (k + 1) % 2 ^ 32) rest).2)[i]? =
              ((m :: rest)[i]?).map (afterChannel update p c s us (k + i))) ∧
          (∀ i m', i < j → (m :: rest)[i]? = some m' → c.testBit (k + i) = true →
            (updateChannel update p s us m').1 = true) ∧
          ∀ i, j < i →
            (front :: (channelLoop update p c s us (2 ^ (k + 1) % 2 ^ 32) rest).2)[i]? =
              (m :: rest)[i]? := by
      intro hrest h0 front hfront
      obtain ⟨j, m0, hj, hb, hu, hget, hbefore, hok, hafter⟩ := ih (k + 1) hrest
      refine ⟨j + 1, m0, by simpa using hj, ?_, hu, by simpa using hget, ?_, ?_, ?_⟩
      · rw [show k + (j + 1) = k + 1 + j by omega]; exact hb
      · intro i hi
        cases i with
        | zero => simp [hfront]
        | succ i' =>
          simp only [List.getElem?_cons_succ]
          rw [hbefore i' (by omega), show k + 1 + i' = k + (i' + 1) by omega]
      · intro i m' hi hm' hbit
        cases i with
        | zero =>
          simp only [List.getElem?_cons_zero, Option.some.injEq] at hm'
          subst hm'
          exact h0 (by simpa using hbit)
        | succ i' =>
          rw [List.getElem?_cons_succ] at hm'
          exact hok i' m' (by omega) hm'
            (by rw [show k + 1 + i' = k + (i' + 1) by omega]; exact hbit)
      · intro i hi
        cases i with
        | zero => omega
        | succ i' =>
          simp only [List.getElem?_cons_succ]
          exact hafter i' (by omega)
    by_cases hb : c.testBit k = true
    · rw [if_pos hb] at h ⊢
      by_cases hu : (updateChannel update p s us m).1 = true
      · rw [if_pos hu] at h ⊢
        exact step h (fun _ => hu) _ (by simp [afterChannel, hb])
      · rw [if_neg hu]
        refine ⟨0, m, by simp, by simpa using hb, by simpa using hu, by simp, ?_, ?_, ?_⟩
        · intro i hi; omega
        · intro i m' hi; omega
        · intro i hi
          cases i with
          | zero => omega
          | succ i' => simp
    · rw [if_neg hb] at h ⊢
      exact step h (fun hb' => absurd hb' hb) _ (by simp [afterChannel, hb])

theorem processPixel_eq (update : WireUpdate) (st : List LEDBufferManager) (p : List Nat)
    (hcmd : command16 p = WIFI_COMMAND_PIXELDATA64) :
    ProcessIncomingData true update st p =
      channelLoop update p (channelMask16 p) (ULONGFromMemory p 8) (ULONGFromMemory p 16)
        (2 ^ 0 % 2 ^ 32) st := by
  have hne : WIFI_COMMAND_PIXELDATA64 ≠ WIFI_COMMAND_PEAKDATA := by decide
  simp [ProcessIncomingData, hcmd, hne]

/-! ### Frames with equal timestamps -/

/-- C5 as stated fails: two PIXELDATA frames with the same timestamp whose
microseconds field is 0, delivered to an empty channel with room for three
buffers, leave two buffers, the second delivery having obtained a new buffer;
and so do two frames stamped (5 s, 7 us) when the first is refused by
`UpdateFromWire` (it announces a pixel it does not carry), because the slot
obtained for it stays behind with an empty timestamp. -/
theorem same_timestamp_zero_micros_adds_two :
    (ProcessIncomingData true LEDBuffer.UpdateFromWire
        (ProcessIncomingData true LEDBuffer.UpdateFromWire
          [{ maxBuffers := 3, buffers := [] }] (pixelPacket 1 5 0 [1, 2, 3])).2
        (pixelPacket 1 5 0 [4, 5, 6]) =
      (true, [{ maxBuffers := 3,
                buffers := [{ seconds := 5, micros := 0, pixels := [4, 5, 6] },
                            { seconds := 5, micros := 0, pixels := [1, 2, 3] }] }]) ∧
      ¬ (LEDBufferManager.Count
            { maxBuffers := 3,
              buffers := [{ seconds := 5, micros := 0, pixels := [4, 5, 6] },
                          { seconds := 5, micros := 0, pixels := [1, 2, 3] }] } ≤
          LEDBufferManager.Count { maxBuffers := 3, buffers := [] } + 1)) ∧
    ProcessIncomingData true LEDBuffer.UpdateFromWire
        (ProcessIncomingData true LEDBuffer.UpdateFromWire
          [{ maxBuffers := 3, buffers := [] }] (wireHeader 3 1 1 5 7)).2
        (pixelPacket 1 5 7 [4, 5, 6]) =
      (true, [{ maxBuffers := 3,
                buffers := [{ seconds := 5, micros := 7, pixels := [4, 5, 6] },
                            LEDBuffer.blank] }]) := by
  decide

/-- C5, amended: let a PIXELDATA frame whose microseconds field is not 0 be
accepted (`ProcessIncomingData` returns true) with channel `c` selected, and
let a second PIXELDATA frame with the same seconds and microseconds follow.
Then across both deliveries the buffer count of channel `c` grows by at most
one: the first delivery adds at most one buffer, and the second leaves the
count as it is, because on the channel as the first delivery left it the
update policy rewrites the newest buffer in place and obtains no new buffer.
`UpdateFromWire` is any routine that stamps the buffer with the packet's
capture time when it succeeds. -/
theorem same_timestamp_adds_at_most_one (update : WireUpdate)
    (hts : ∀ b q, (update b q).1 = true →
      (update b q).2.seconds = ULONGFromMemory q 8 ∧ (update b q).2.micros = ULONGFromMemory q 16)
    (BufferManagers : List LEDBufferManager) (p1 p2 : List Nat) (c : Nat)
    (m : LEDBufferManager) (hc : BufferManagers[c]? = some m)
    (hcmd1 : command16 p1 = WIFI_COMMAND_PIXELDATA64)
    (hcmd2 : command16 p2 = WIFI_COMMAND_PIXELDATA64)
    (hs : ULONGFromMemory p2 8 = ULONGFromMemory p1 8)
    (hus : ULONGFromMemory p2 16 = ULONGFromMemory p1 16)
    (hnz : ULONGFromMemory p1 16 ≠ 0)
    (hsel : (channelMask16 p1).testBit c = true)
    (hok : (ProcessIncomingData true update BufferManagers p1).1 = true) :
    ∃ m1 m2 newest older,
      (ProcessIncomingData true update BufferManagers p1).2[c]? = some m1 ∧
      (ProcessIncomingData true update
        (ProcessIncomingData true update BufferManagers p1).2 p2).2[c]? = some m2 ∧
      m1.Count ≤ m.Count + 1 ∧ m2.Count = m1.Count ∧ m2.Count ≤ m.Count + 1 ∧
      m1.buffers = newest :: older ∧
      updateChannel update p2 (ULONGFromMemory p2 8) (ULONGFromMemory p2 16) m1 =
        ((update newest p2).1, { m1 with buffers := (update newest p2).2 :: older }) := by
  rw [processPixel_eq update BufferManagers p1 hcmd1] at hok ⊢
  have hget := channelLoop_get_of_true update p1 (channelMask16 p1) (ULONGFromMemory p1 8)
    (ULONGFromMemory p1 16) (channelMask16_lt p1) BufferManagers 0 hok c
  have hsucc := (channelLoop_true_iff update p1 (channelMask16 p1) (ULONGFromMemory p1 8)
    (ULONGFromMemory p1 16) (channelMask16_lt p1) BufferManagers 0).1 hok c m hc
    (by rw [Nat.zero_add]; exact hsel)
  rw [hc, Nat.zero_add] at hget
  simp only [Option.map_some', afterChannel, hsel, if_true] at hget
  obtain ⟨newest, older, hbuf, hsec, hmic⟩ :=
    updateChannel_newest_of_true update hts p1 _ _ m hsucc
  have hin := updateChannel_in_place update p2 (ULONGFromMemory p2 8) (ULONGFromMemory p2 16)
    _ newest older hbuf (by rw [hus]; exact hnz) (by rw [hus]; exact hmic)
    (by rw [hs]; exact hsec)
  have hcount1 := updateChannel_count_le update p1 (ULONGFromMemory p1 8)
    (ULONGFromMemory p1 16) m
  have hcount2 : (updateChannel update p2 (ULONGFromMemory p2 8) (ULONGFromMemory p2 16)
      (updateChannel update p1 (ULONGFromMemory p1 8) (ULONGFromMemory p1 16) m).2).2.Count =
      (updateChannel update p1 (ULONGFromMemory p1 8) (ULONGFromMemory p1 16) m).2.Count := by
    rw [hin]
    simp [LEDBufferManager.Count, hbuf]
  rw [processPixel_eq update _ p2 hcmd2]
  rcases channelLoop_get_cases update p2 (channelMask16 p2) (ULONGFromMemory p2 8)
    (ULONGFromMemory p2 16) _ (2 ^ 0 % 2 ^ 32) c with h2 | h2
  · rw [hget] at h2
    exact ⟨_, _, newest, older, hget, h2, hcount1, rfl, hcount1, hbuf, hin⟩
  · rw [hget] at h2
    simp only [Option.map_some'] at h2
    exact ⟨_, _, newest, older, hget, h2, hcount1, hcount2, by rw [hcount2]; exact hcount1,
      hbuf, hin⟩

theorem same_timestamp_adds_at_most_one_witness :
    ∃ m1 m2 newest older,
      (ProcessIncomingData true LEDBuffer.UpdateFromWire [{ maxBuffers := 3, buffers := [] }]
        (pixelPacket 1 5 7 [1, 2, 3])).2[0]? = some m1 ∧
      (ProcessIncomingData true LEDBuffer.UpdateFromWire
        (ProcessIncomingData true LEDBuffer.UpdateFromWire [{ maxBuffers := 3, buffers := [] }]
          (pixelPacket 1 5 7 [1, 2, 3])).2 (pixelPacket 1 5 7 [4, 5, 6])).2[0]? = some m2 ∧
      m1.Count ≤ LEDBufferManager.Count { maxBuffers := 3, buffers := [] } + 1 ∧
      m2.Count = m1.Count ∧
      m2.Count ≤ LEDBufferManager.Count { maxBuffers := 3, buffers := [] } + 1 ∧
      m1.buffers = newest :: older ∧
      updateChannel LEDBuffer.UpdateFromWire (pixelPacket 1 5 7 [4, 5, 6])
          (ULONGFromMemory (pixelPacket 1 5 7 [4, 5, 6]) 8)
          (ULONGFromMemory (pixelPacket 1 5 7 [4, 5, 6]) 16) m1 =
        ((LEDBuffer.UpdateFromWire newest (pixelPacket 1 5 7 [4, 5, 6])).1,
          { m1 with
            buffers := (LEDBuffer.UpdateFromWire newest (pixelPacket 1 5 7 [4, 5, 6])).2 ::
              older }) :=
  same_timestamp_adds_at_most_one LEDBuffer.UpdateFromWire
    (by
      intro b q h
      unfold LEDBuffer.UpdateFromWire at h ⊢
      dsimp only at h ⊢
      split
      · rename_i hlt
        rw [if_pos hlt] at h
        exact absurd h Bool.false_ne_true
      · exact ⟨rfl, rfl⟩)
    [{ maxBuffers := 3, buffers := [] }] (pixelPacket 1 5 7 [1, 2, 3])
    (pixelPacket 1 5 7 [4, 5, 6]) 0 { maxBuffers := 3, buffers := [] } rfl
    (by decide) (by decide) (by decide) (by decide) (by decide) (by decide) (by decide)

/-! ### The in-place rule -/

/-- C6 as stated fails: on a channel whose newest buffer has an empty
timestamp, and on a channel whose newest buffer has the incoming timestamp
with microseconds 0, the rule of the claim asks for an update in place, and
the code obtains a new buffer: the old newest buffer stays behind the new
one. -/
theorem in_place_rule_counterexample :
    (specUpdatesInPlace 5 7 { maxBuffers := 3, buffers := [LEDBuffer.blank] } = true ∧
      ProcessIncomingData true LEDBuffer.UpdateFromWire
          [{ maxBuffers := 3, buffers := [LEDBuffer.blank] }] (pixelPacket 1 5 7 [1, 2, 3]) =
        (true, [{ maxBuffers := 3,
                  buffers := [{ seconds := 5, micros := 7, pixels := [1, 2, 3] },
                              LEDBuffer.blank] }])) ∧
    (specUpdatesInPlace 5 0
        { maxBuffers := 3, buffers := [{ seconds := 5, micros := 0, pixels := [9, 9, 9] }] } =
        true ∧
      ProcessIncomingData true LEDBuffer.UpdateFromWire
          [{ maxBuffers := 3, buffers := [{ seconds := 5, micros := 0, pixels := [9, 9, 9] }] }]
          (pixelPacket 1 5 0 [1, 2, 3]) =
        (true, [{ maxBuffers := 3,
                  buffers := [{ seconds := 5, micros := 0, pixels := [1, 2, 3] },
                              { seconds := 5, micros := 0, pixels := [9, 9, 9] }] }])) := by
  decide

/-- C6, amended: on a selected channel an incoming PIXELDATA frame updates
the newest existing buffer in place if and only if the channel is not empty,
the incoming microseconds are not 0 and the newest buffer has the incoming
microseconds and seconds: `UpdateFromWire` then runs on that buffer and the
older buffers stay.  In every other case (empty channel, incoming
microseconds 0, or a newest buffer with another timestamp) the buffer that
`GetNewBuffer` returns is filled from the packet and becomes the newest. -/
theorem updates_in_place_iff_match (update : WireUpdate) (payloadData : List Nat)
    (seconds micros : Nat) (m : LEDBufferManager) :
    match m.buffers with
    | [] =>
      updateChannel update payloadData seconds micros m =
        ((update m.GetNewBuffer.1 payloadData).1,
          { m with buffers := (update m.GetNewBuffer.1 payloadData).2 :: m.GetNewBuffer.2 })
    | newest :: older =>
      (micros ≠ 0 ∧ newest.micros = micros ∧ newest.seconds = seconds →
        updateChannel update payloadData seconds micros m =
          ((update newest payloadData).1,
            { m with buffers := (update newest payloadData).2 :: older })) ∧
      (¬ (micros ≠ 0 ∧ newest.micros = micros ∧ newest.seconds = seconds) →
        updateChannel update payloadData seconds micros m =
          ((update m.GetNewBuffer.1 payloadData).1,
            { m with buffers := (update m.GetNewBuffer.1 payloadData).2 :: m.GetNewBuffer.2 })) := by
  cases hm : m.buffers with
  | nil => exact updateChannel_new_of_empty update payloadData seconds micros m hm
  | cons newest older =>
    exact ⟨fun h => updateChannel_in_place update payloadData seconds micros m newest older hm
        h.1 h.2.1 h.2.2,
      fun h => updateChannel_new_of_mismatch update payloadData seconds micros m newest older
        hm h⟩

/-! ### A failing buffer update -/

/-- C7 as stated fails: a PIXELDATA packet that announces one pixel and
carries none is refused by `UpdateFromWire`; `ProcessIncomingData` returns
false, and the buffer manager of channel 0 is not what it was: `GetNewBuffer`
has added a slot. -/
theorem failed_update_changes_state :
    ProcessIncomingData true LEDBuffer.UpdateFromWire [{ maxBuffers := 3, buffers := [] }]
        (wireHeader 3 1 1 5 7) =
      (false, [{ maxBuffers := 3, buffers := [LEDBuffer.blank] }]) ∧
    (ProcessIncomingData true LEDBuffer.UpdateFromWire [{ maxBuffers := 3, buffers := [] }]
        (wireHeader 3 1 1 5 7)).2 ≠ [{ maxBuffers := 3, buffers := [] }] := by
  decide

/-- C7, amended: when a buffer update fails while a PIXELDATA packet is
processed, `ProcessIncomingData` returns false at the first selected channel
`j` whose update fails.  Nothing is rolled back: channel `j` is left as the
failed update policy left it, every channel before `j` is as the loop left
it (updated where its bit is set, each of those updates having succeeded),
and the channels after `j` are unchanged. -/
theorem failed_update_stops_loop (update : WireUpdate)
    (BufferManagers : List LEDBufferManager) (payloadData : List Nat)
    (hcmd : command16 payloadData = WIFI_COMMAND_PIXELDATA64)
    (hfail : (ProcessIncomingData true update BufferManagers payloadData).1 = false) :
    ∃ j m, BufferManagers[j]? = some m ∧ (channelMask16 payloadData).testBit j = true ∧
      (updateChannel update payloadData (ULONGFromMemory payloadData 8)
        (ULONGFromMemory payloadData 16) m).1 = false ∧
      (ProcessIncomingData true update BufferManagers payloadData).2[j]? =
        some (updateChannel update payloadData (ULONGFromMemory payloadData 8)
          (ULONGFromMemory payloadData 16) m).2 ∧
      (∀ i, i < j → (ProcessIncomingData true update BufferManagers payloadData).2[i]? =
        (BufferManagers[i]?).map fun m' =>
          if (channelMask16 payloadData).testBit i then
            (updateChannel update payloadData (ULONGFromMemory payloadData 8)
              (ULONGFromMemory payloadData 16) m').2
          else m') ∧
      (∀ i m', i < j → BufferManagers[i]? = some m' →
        (channelMask16 payloadData).testBit i = true →
        (updateChannel update payloadData (ULONGFromMemory payloadData 8)
          (ULONGFromMemory payloadData 16) m').1 = true) ∧
      ∀ i, j < i →
        (ProcessIncomingData true update BufferManagers payloadData).2[i]? =
          BufferManagers[i]? := by
  rw [processPixel_eq update BufferManagers payloadData hcmd] at hfail ⊢
  obtain ⟨j, m, hj, hb, hu, hget, hbefore, hok, hafter⟩ :=
    channelLoop_false update payloadData (channelMask16 payloadData)
      (ULONGFromMemory payloadData 8) (ULONGFromMemory payloadData 16)
      (channelMask16_lt payloadData) BufferManagers 0 hfail
  refine ⟨j, m, hj, by simpa using hb, hu, hget, ?_, ?_, hafter⟩
  · intro i hi
    rw [hbefore i hi, Nat.zero_add]
    rfl
  · intro i m' hi hm' hbit
    exact hok i m' hi hm' (by rw [Nat.zero_add]; exact hbit)

theorem failed_update_stops_loop_witness :
    ∃ j m, [({ maxBuffers := 3, buffers := [] } : LEDBufferManager),
        { maxBuffers := 3, buffers := [] }][j]? = some m ∧
      (channelMask16 (wireHeader 3 3 1 5 7)).testBit j = true ∧
      (updateChannel LEDBuffer.UpdateFromWire (wireHeader 3 3 1 5 7)
        (ULONGFromMemory (wireHeader 3 3 1 5 7) 8)
        (ULONGFromMemory (wireHeader 3 3 1 5 7) 16) m).1 = false ∧
      (ProcessIncomingData true LEDBuffer.UpdateFromWire
          [{ maxBuffers := 3, buffers := [] }, { maxBuffers := 3, buffers := [] }]
          (wireHeader 3 3 1 5 7)).2[j]? =
        some (updateChannel LEDBuffer.UpdateFromWire (wireHeader 3 3 1 5 7)
          (ULONGFromMemory (wireHeader 3 3 1 5 7) 8)
          (ULONGFromMemory (wireHeader 3 3 1 5 7) 16) m).2 ∧
      (∀ i, i < j → (ProcessIncomingData true LEDBuffer.UpdateFromWire
          [{ maxBuffers := 3, buffers := [] }, { maxBuffers := 3, buffers := [] }]
          (wireHeader 3 3 1 5 7)).2[i]? =
        ([({ maxBuffers := 3, buffers := [] } : LEDBufferManager),
            { maxBuffers := 3, buffers := [] }][i]?).map fun m' =>
          if (channelMask16 (wireHeader 3 3 1 5 7)).testBit i then
            (updateChannel LEDBuffer.UpdateFromWire (wireHeader 3 3 1 5 7)
              (ULONGFromMemory (wireHeader 3 3 1 5 7) 8)
              (ULONGFromMemory (wireHeader 3 3 1 5 7) 16) m').2
          else m') ∧
      (∀ i m', i < j → [({ maxBuffers := 3, buffers := [] } : LEDBufferManager),
          { maxBuffers := 3, buffers := [] }][i]? = some m' →
        (channelMask16 (wireHeader 3 3 1 5 7)).testBit i = true →
        (updateChannel LEDBuffer.UpdateFromWire (wireHeader 3 3 1 5 7)
          (ULONGFromMemory (wireHeader 3 3 1 5 7) 8)
          (ULONGFromMemory (wireHeader 3 3 1 5 7) 16) m').1 = true) ∧
      ∀ i, j < i →
        (ProcessIncomingData true LEDBuffer.UpdateFromWire
          [{ maxBuffers := 3, buffers := [] }, { maxBuffers := 3, buffers := [] }]
          (wireHeader 3 3 1 5 7)).2[i]? =
          [({ maxBuffers := 3, buffers := [] } : LEDBufferManager),
            { maxBuffers := 3, buffers := [] }][i]? :=
  failed_update_stops_loop LEDBuffer.UpdateFromWire
    [{ maxBuffers := 3, buffers := [] }, { maxBuffers := 3, buffers := [] }]
    (wireHeader 3 3 1 5 7) (by decide) (by decide)

theorem updates_in_place_iff_match_witness :
    updateChannel LEDBuffer.UpdateFromWire (pixelPacket 1 5 7 [1, 2, 3]) 5 7
        { maxBuffers := 3, buffers := [{ seconds := 5, micros := 7, pixels := [9, 9, 9] }] } =
      ((LEDBuffer.UpdateFromWire { seconds := 5, micros := 7, pixels := [9, 9, 9] }
          (pixelPacket 1 5 7 [1, 2, 3])).1,
        { maxBuffers := 3,
          buffers := [(LEDBuffer.UpdateFromWire { seconds := 5, micros := 7, pixels := [9, 9, 9] }
            (pixelPacket 1 5 7 [1, 2, 3])).2] }) :=
  (updates_in_place_iff_match LEDBuffer.UpdateFromWire (pixelPacket 1 5 7 [1, 2, 3]) 5 7
    { maxBuffers := 3, buffers := [{ seconds := 5, micros := 7, pixels := [9, 9, 9] }] }).1
    ⟨by decide, rfl, rfl⟩

/-! ### The flag-and-run loop -/

theorem flagAndRun_cons (millis : Nat → Nat) (now index : Nat) (entry : ReaderEntry)
    (rest : List ReaderEntry) (w : LoopState) :
    flagAndRun millis now index (entry :: rest) w =
      if entry.canceled = true then
        (flagAndRun millis now (index + 1) rest w).map fun r => (entry :: r.1, r.2)
      else if (entry.intervalPassed now || entry.flag) = true then
        match entry.reader with
        | none => none
        | some _ =>
          (flagAndRun millis now (index + 1) rest
            { clockReads := w.clockReads + 1,
              trace := w.trace ++ [Event.call index, Event.millis w.clockReads] }).map
            fun r => ({ entry with flag := false, lastReadMs := millis w.clockReads } :: r.1, r.2)
      else
        (flagAndRun millis now (index + 1) rest w).map fun r =>
          ({ entry with flag := false } :: r.1, r.2) := by
  rw [flagAndRun]
  cases entry.canceled <;> cases entry.intervalPassed now <;> cases entry.flag <;> rfl

theorem flagAndRun_trace (millis : Nat → Nat) (now : Nat) :
    ∀ (rs : List ReaderEntry) (index : Nat) (w : LoopState)
      (r : List ReaderEntry × LoopState),
      flagAndRun millis now index rs w = some r →
        ∃ ext, r.2.trace = w.trace ++ ext ∧ ∀ j, Event.call j ∈ ext → index ≤ j := by
  intro rs
  induction rs with
  | nil =>
    intro index w r h
    simp only [flagAndRun, Option.some.injEq] at h
    subst h
    exact ⟨[], by simp, by simp⟩
  | cons entry rest ih =>
    intro index w r h
    rw [flagAndRun_cons] at h
    split at h
    · obtain ⟨a, ha, rfl⟩ := Option.map_eq_some'.1 h
      obtain ⟨ext, he, hj⟩ := ih (index + 1) w a ha
      exact ⟨ext, he, fun j hm => by have := hj j hm; omega⟩
    · split at h
      · split at h
        · exact absurd h (by simp)
        · obtain ⟨a, ha, rfl⟩ := Option.map_eq_some'.1 h
          obtain ⟨ext, he, hj⟩ := ih (index + 1) _ a ha
          refine ⟨[Event.call index, Event.millis w.clockReads] ++ ext, ?_, ?_⟩
          · rw [he]; simp
          · intro j hm
            simp only [List.cons_append, List.nil_append, List.mem_cons, Event.call.injEq,
              reduceCtorEq, false_or] at hm
            rcases hm with hm | hm
            · omega
            · have := hj j hm; omega
      · obtain ⟨a, ha, rfl⟩ := Option.map_eq_some'.1 h
        obtain ⟨ext, he, hj⟩ := ih (index + 1) w a ha
        exact ⟨ext, he, fun j hm => by have := hj j hm; omega⟩

theorem flagAndRun_isSome (millis : Nat → Nat) (now : Nat) :
    ∀ (rs : List ReaderEntry) (index : Nat) (w : LoopState),
      (∀ e ∈ rs, e.canceled = false → e.reader ≠ none) →
        ∃ r, flagAndRun millis now index rs w = some r := by
  intro rs
  induction rs with
  | nil => intro index w _; exact ⟨_, rfl⟩
  | cons entry rest ih =>
    intro index w hwf
    have hrest : ∀ e ∈ rest, e.canceled = false → e.reader ≠ none :=
      fun e he => hwf e (List.mem_cons_of_mem _ he)
    rw [flagAndRun_cons]
    split
    · obtain ⟨r, hr⟩ := ih (index + 1) w hrest
      exact ⟨_, by rw [hr]; rfl⟩
    · rename_i hc
      split
      · have hne := hwf entry (List.mem_cons_self _ _) (by simpa using hc)
        cases hrd : entry.reader with
        | none => exact absurd hrd hne
        | some cb =>
          obtain ⟨r, hr⟩ := ih (index + 1)
            { clockReads := w.clockReads + 1,
              trace := w.trace ++ [Event.call index, Event.millis w.clockReads] } hrest
          exact ⟨_, by simp only [hr]; rfl⟩
      · obtain ⟨r, hr⟩ := ih (index + 1) w hrest
        exact ⟨_, by rw [hr]; rfl⟩

theorem flagAndRun_runs_flagged (millis : Nat → Nat) (now : Nat) :
    ∀ (rs : List ReaderEntry) (index : Nat) (w : LoopState) (i : Nat) (e : ReaderEntry),
      (∀ e' ∈ rs, e'.canceled = false → e'.reader ≠ none) →
      rs[i]? = some e → e.canceled = false → e.flag = true →
        ∃ rs' w' k pre post,
          flagAndRun millis now index rs w = some (rs', w') ∧
          rs'[i]? = some { e with flag := false, lastReadMs := millis k } ∧
          w.clockReads ≤ k ∧
          w'.trace = w.trace ++ pre ++ [Event.call (index + i), Event.millis k] ++ post ∧
          Event.call (index + i) ∉ pre ∧ Event.call (index + i) ∉ post := by
  intro rs
  induction rs with
  | nil => intro index w i e _ hi; simp at hi
  | cons entry rest ih =>
    intro index w i e hwf hi hc hf
    have hrest : ∀ e' ∈ rest, e'.canceled = false → e'.reader ≠ none :=
      fun e' he' => hwf e' (List.mem_cons_of_mem _ he')
    cases i with
    | zero =>
      simp only [List.getElem?_cons_zero, Option.some.injEq] at hi
      subst hi
      have hne := hwf entry (List.mem_cons_self _ _) hc
      rw [flagAndRun_cons, if_neg (by simp [hc]), if_pos (by simp [hf])]
      cases hrd : entry.reader with
      | none => exact absurd hrd hne
      | some cb =>
        obtain ⟨r, hr⟩ := flagAndRun_isSome millis now rest (index + 1)
          { clockReads := w.clockReads + 1,
            trace := w.trace ++ [Event.call index, Event.millis w.clockReads] } hrest
        obtain ⟨ext, he, hj⟩ := flagAndRun_trace millis now rest (index + 1) _ r hr
        refine ⟨_, r.2, w.clockReads, [], ext, by simp only [hr]; rfl, by simp,
          Nat.le_refl _, ?_, by simp, ?_⟩
        · rw [he]; simp
        · intro hm
          have := hj _ hm
          omega
    | succ i' =>
      rw [List.getElem?_cons_succ] at hi
      rw [flagAndRun_cons]
      have hidx : index + (i' + 1) = index + 1 + i' := by omega
      rw [hidx]
      split
      · obtain ⟨rs', w', k, pre, post, hrun, hget, hk, htr, hpre, hpost⟩ :=
          ih (index + 1) w i' e hrest hi hc hf
        exact ⟨_, w', k, pre, post, by rw [hrun]; rfl, by simpa using hget, hk, htr, hpre,
          hpost⟩
      · rename_i hcan
        split
        · have hne := hwf entry (List.mem_cons_self _ _) (by simpa using hcan)
          cases hrd : entry.reader with
          | none => exact absurd hrd hne
          | some cb =>
            obtain ⟨rs', w', k, pre, post, hrun, hget, hk, htr, hpre, hpost⟩ :=
              ih (index + 1)
                { clockReads := w.clockReads + 1,
                  trace := w.trace ++ [Event.call index, Event.millis w.clockReads] }
                i' e hrest hi hc hf
            refine ⟨_, w', k, [Event.call index, Event.millis w.clockReads] ++ pre, post,
              by simp only [hrun]; rfl, by simpa using hget, ?_, ?_, ?_, hpost⟩
            · simp only at hk; omega
            · rw [htr]; simp
            · intro hm
              simp only [List.cons_append, List.nil_append, List.mem_cons, Event.call.injEq,
                reduceCtorEq, false_or] at hm
              rcases hm with hm | hm
              · omega
              · exact hpre hm
        · obtain ⟨rs', w', k, pre, post, hrun, hget, hk, htr, hpre, hpost⟩ :=
            ih (index + 1) w i' e hrest hi hc hf
          exact ⟨_, w', k, pre, post, by rw [hrun]; rfl, by simpa using hget, hk, htr, hpre,
            hpost⟩

/-- C10: a reader that is not canceled and whose flag is set when a scheduler
tick evaluates it is run by that tick, whatever its interval (0 included) and
its last-run time.  The tick completes; in its trace the callback of reader
`i` is invoked exactly once and is followed at once by a clock read, number
`k`, taken after the tick's initial read; the entry is left with its flag
cleared and `lastReadMs` set to that reading, everything else as it was; its
next timer target is therefore that reading plus its interval, in
`unsigned long` arithmetic.  The registry is assumed to hold a callback for
every reader that is not canceled. -/
theorem flagged_reader_runs_once (millis : Nat → Nat) (readers : List ReaderEntry)
    (w : LoopState) (i : Nat) (e : ReaderEntry)
    (hwf : ∀ e' ∈ readers, e'.canceled = false → e'.reader ≠ none)
    (hi : readers[i]? = some e) (hc : e.canceled = false) (hf : e.flag = true) :
    ∃ readers' w' holdMs k pre post,
      schedulerTick millis readers w = some (readers', w', holdMs) ∧
      readers'[i]? = some { e with flag := false, lastReadMs := millis k } ∧
      w.clockReads < k ∧
      w'.trace = w.trace ++ pre ++ [Event.call i, Event.millis k] ++ post ∧
      Event.call i ∉ pre ∧ Event.call i ∉ post ∧
      w'.trace.count (Event.call i) = w.trace.count (Event.call i) + 1 ∧
      ReaderEntry.targetMs { e with flag := false, lastReadMs := millis k } =
        (millis k + e.readInterval) % 2 ^ 32 := by
  obtain ⟨rs', w1, k, pre, post, hrun, hget, hk, htr, hpre, hpost⟩ :=
    flagAndRun_runs_flagged millis (millis w.clockReads) readers 0
      { clockReads := w.clockReads + 1, trace := w.trace ++ [Event.millis w.clockReads] }
      i e hwf hi hc hf
  rw [Nat.zero_add] at htr hpre hpost
  have hpre' : Event.call i ∉ [Event.millis w.clockReads] ++ pre := by
    simpa using hpre
  have hpost' : Event.call i ∉ post ++ [Event.millis w1.clockReads] := by
    simpa using hpost
  have htr' : w1.trace ++ [Event.millis w1.clockReads] =
      w.trace ++ ([Event.millis w.clockReads] ++ pre) ++ [Event.call i, Event.millis k] ++
        (post ++ [Event.millis w1.clockReads]) := by
    rw [htr]; simp
  refine ⟨rs',
    { clockReads := w1.clockReads + 1, trace := w1.trace ++ [Event.millis w1.clockReads] },
    computeHoldMs (millis w1.clockReads) rs' 1000, k, [Event.millis w.clockReads] ++ pre,
    post ++ [Event.millis w1.clockReads], ?_, hget, ?_, htr', hpre', hpost', ?_, rfl⟩
  · unfold schedulerTick
    simp only [hrun]
  · simp only at hk; omega
  · simp only [htr', List.count_append, List.count_eq_zero_of_not_mem hpre',
      List.count_eq_zero_of_not_mem hpost']
    simp

theorem flagged_reader_runs_once_witness :
    ∃ readers' w' holdMs k pre post,
      schedulerTick (fun n => 1000 + 10 * n)
          [{ reader := some 7, readInterval := 500, lastReadMs := 900, flag := false,
             canceled := false },
           { reader := some 8, readInterval := 0, lastReadMs := 0, flag := true,
             canceled := false }]
          { clockReads := 0, trace := [] } = some (readers', w', holdMs) ∧
      readers'[1]? =
        some { reader := some 8, readInterval := 0, lastReadMs := (fun n => 1000 + 10 * n) k,
               flag := false, canceled := false } ∧
      0 < k ∧
      w'.trace = [] ++ pre ++ [Event.call 1, Event.millis k] ++ post ∧
      Event.call 1 ∉ pre ∧ Event.call 1 ∉ post ∧
      w'.trace.count (Event.call 1) = List.count (Event.call 1) [] + 1 ∧
      ReaderEntry.targetMs
          { reader := some 8, readInterval := 0, lastReadMs := (fun n => 1000 + 10 * n) k,
            flag := false, canceled := false } =
        ((fun n => 1000 + 10 * n) k + 0) % 2 ^ 32 :=
  flagged_reader_runs_once (fun n => 1000 + 10 * n)
    [{ reader := some 7, readInterval := 500, lastReadMs := 900, flag := false,
       canceled := false },
     { reader := some 8, readInterval := 0, lastReadMs := 0, flag := true,
       canceled := false }]
    { clockReads := 0, trace := [] } 1
    { reader := some 8, readInterval := 0, lastReadMs := 0, flag := true, canceled := false }
    (by decide) rfl rfl rfl


/-! ### Which readers a pass runs -/

theorem flagAndRun_calls (millis : Nat → Nat) (now : Nat) :
    ∀ (rs : List ReaderEntry) (index : Nat) (w : LoopState)
      (r : List ReaderEntry × LoopState),
      flagAndRun millis now index rs w = some r →
        ∃ ext, r.2.trace = w.trace ++ ext ∧
          (∀ j, Event.call j ∈ ext → index ≤ j) ∧
          ∀ i e, rs[i]? = some e →
            (Event.call (index + i) ∈ ext ↔
              e.canceled = false ∧ (e.intervalPassed now || e.flag) = true) := by
  intro rs
  induction rs with
  | nil =>
    intro index w r h
    simp only [flagAndRun, Option.some.injEq] at h
    subst h
    exact ⟨[], by simp, by simp, by simp⟩
  | cons entry rest ih =>
    intro index w r h
    rw [flagAndRun_cons] at h
    have hshift : ∀ i', index + (i' + 1) = index + 1 + i' := fun i' => by omega
    by_cases hcan : entry.canceled = true
    · rw [if_pos hcan] at h
      obtain ⟨a, ha, rfl⟩ := Option.map_eq_some'.1 h
      obtain ⟨ext, he, hj, hiff⟩ := ih (index + 1) w a ha
      refine ⟨ext, he, fun j hm => by have := hj j hm; omega, ?_⟩
      intro i e hi
      cases i with
      | zero =>
        simp only [List.getElem?_cons_zero, Option.some.injEq] at hi
        subst hi
        constructor
        · intro hm
          have := hj _ hm
          omega
        · intro hx
          rw [hcan] at hx
          exact absurd hx.1 (by simp)
      | succ i' =>
        rw [List.getElem?_cons_succ] at hi
        rw [hshift]
        exact hiff i' e hi
    · rw [if_neg hcan] at h
      by_cases hrun : (entry.intervalPassed now || entry.flag) = true
      · rw [if_pos hrun] at h
        cases hrd : entry.reader with
        | none => rw [hrd] at h; exact absurd h (by simp)
        | some cb =>
          rw [hrd] at h
          obtain ⟨a, ha, rfl⟩ := Option.map_eq_some'.1 h
          obtain ⟨ext, he, hj, hiff⟩ := ih (index + 1) _ a ha
          refine ⟨[Event.call index, Event.millis w.clockReads] ++ ext, ?_, ?_, ?_⟩
          · rw [he]; simp
          · intro j hm
            simp only [List.cons_append, List.nil_append, List.mem_cons, Event.call.injEq,
              reduceCtorEq, false_or] at hm
            rcases hm with hm | hm
            · omega
            · have := hj j hm; omega
          · intro i e hi
            cases i with
            | zero =>
              simp only [List.getElem?_cons_zero, Option.some.injEq] at hi
              subst hi
              constructor
              · intro _
                exact ⟨by simpa using hcan, hrun⟩
              · intro _
                simp
            | succ i' =>
              rw [List.getElem?_cons_succ] at hi
              rw [hshift, ← hiff i' e hi]
              simp only [List.cons_append, List.nil_append, List.mem_cons, Event.call.injEq,
                reduceCtorEq, false_or]
              constructor
              · rintro (hm | hm)
                · omega
                · exact hm
              · exact fun hm => Or.inr hm
      · rw [if_neg hrun] at h
        obtain ⟨a, ha, rfl⟩ := Option.map_eq_some'.1 h
        obtain ⟨ext, he, hj, hiff⟩ := ih (index + 1) w a ha
        refine ⟨ext, he, fun j hm => by have := hj j hm; omega, ?_⟩
        intro i e hi
        cases i with
        | zero =>
          simp only [List.getElem?_cons_zero, Option.some.injEq] at hi
          subst hi
          constructor
          · intro hm
            have := hj _ hm
            omega
          · intro hx
            exact absurd hx.2 hrun
        | succ i' =>
          rw [List.getElem?_cons_succ] at hi
          rw [hshift]
          exact hiff i' e hi

theorem flagAndRun_entries (millis : Nat → Nat) (now : Nat) :
    ∀ (rs : List ReaderEntry) (index : Nat) (w : LoopState)
      (r : List ReaderEntry × LoopState),
      flagAndRun millis now index rs w = some r →
        r.1.length = rs.length ∧
          ∀ (j : Nat) (e : ReaderEntry), rs[j]? = some e →
            ∃ e' : ReaderEntry, r.1[j]? = some e' ∧ e'.reader = e.reader ∧
              e'.readInterval = e.readInterval ∧ e'.canceled = e.canceled := by
  intro rs
  induction rs with
  | nil =>
    intro index w r h
    simp only [flagAndRun, Option.some.injEq] at h
    subst h
    exact ⟨rfl, by simp⟩
  | cons entry rest ih =>
    intro index w r h
    rw [flagAndRun_cons] at h
    have key : ∀ (front : ReaderEntry) (w0 : LoopState) (a : List ReaderEntry × LoopState),
        front.reader = entry.reader → front.readInterval = entry.readInterval →
        front.canceled = entry.canceled →
        flagAndRun millis now (index + 1) rest w0 = some a →
        (front :: a.1).length = (entry :: rest).length ∧
          ∀ (j : Nat) (e : ReaderEntry), (entry :: rest)[j]? = some e →
            ∃ e' : ReaderEntry, (front :: a.1)[j]? = some e' ∧ e'.reader = e.reader ∧
              e'.readInterval = e.readInterval ∧ e'.canceled = e.canceled := by
      intro front w0 a h1 h2 h3 ha
      obtain ⟨hl, hg⟩ := ih (index + 1) w0 a ha
      refine ⟨by simp [hl], ?_⟩
      intro j e hj
      cases j with
      | zero =>
        simp only [List.getElem?_cons_zero, Option.some.injEq] at hj
        subst hj
        exact ⟨front, by simp, h1, h2, h3⟩
      | succ j' =>
        rw [List.getElem?_cons_succ] at hj
        simpa using hg j' e hj
    split at h
    · obtain ⟨a, ha, rfl⟩ := Option.map_eq_some'.1 h
      exact key entry w a rfl rfl rfl ha
    · split at h
      · split at h
        · exact absurd h (by simp)
        · obtain ⟨a, ha, rfl⟩ := Option.map_eq_some'.1 h
          exact key _ _ a rfl rfl rfl ha
      · obtain ⟨a, ha, rfl⟩ := Option.map_eq_some'.1 h
        exact key _ w a rfl rfl rfl ha

theorem schedulerTick_eq_some (millis : Nat → Nat) (readers : List ReaderEntry)
    (w : LoopState) (r : List ReaderEntry × LoopState × Nat)
    (h : schedulerTick millis readers w = some r) :
    ∃ w1, flagAndRun millis (millis w.clockReads) 0 readers
        { clockReads := w.clockReads + 1, trace := w.trace ++ [Event.millis w.clockReads] } =
          some (r.1, w1) ∧
      r.2.1 = { clockReads := w1.clockReads + 1,
                trace := w1.trace ++ [Event.millis w1.clockReads] } ∧
      r.2.2 = computeHoldMs (millis w1.clockReads) r.1 1000 := by
  unfold schedulerTick at h
  dsimp only at h
  split at h
  · exact absurd h (by simp)
  · rename_i readers1 w1 hrun
    simp only [Option.some.injEq] at h
    subst h
    exact ⟨w1, hrun, rfl, rfl⟩

theorem schedulerTick_calls (millis : Nat → Nat) (readers : List ReaderEntry)
    (w : LoopState) (r : List ReaderEntry × LoopState × Nat)
    (h : schedulerTick millis readers w = some r) :
    ∃ ext, r.2.1.trace = w.trace ++ ext ∧
      ∀ i e, readers[i]? = some e →
        (Event.call i ∈ ext ↔
          e.canceled = false ∧ (e.intervalPassed (millis w.clockReads) || e.flag) = true) := by
  obtain ⟨w1, hrun, hw, _⟩ := schedulerTick_eq_some millis readers w r h
  obtain ⟨ext, he, _, hiff⟩ := flagAndRun_calls millis _ readers 0 _ _ hrun
  refine ⟨[Event.millis w.clockReads] ++ ext ++ [Event.millis w1.clockReads], ?_, ?_⟩
  · rw [hw]
    simp only at he ⊢
    rw [he]
    simp
  · intro i e hi
    have := hiff i e hi
    rw [Nat.zero_add] at this
    rw [← this]
    simp


/-! ### The registry operations -/

theorem modify_append_last (f : ReaderEntry → ReaderEntry) (rs : List ReaderEntry)
    (e : ReaderEntry) : (rs ++ [e]).modify f rs.length = rs ++ [f e] := by
  induction rs with
  | nil => rfl
  | cons a rest ih => simp [List.modify_succ_cons, ih]

theorem RegisterReader_eq (millis : Nat → Nat) (readers : List ReaderEntry) (w : LoopState)
    (reader : Option Nat) (interval : Nat) (flag : Bool) :
    RegisterReader millis readers w reader interval flag =
      (readers.length,
        readers ++ [{ reader := reader, readInterval := interval,
                      lastReadMs := if interval ≠ 0 then millis w.clockReads else 0,
                      flag := flag, canceled := false }],
        if interval ≠ 0 then
          { clockReads := w.clockReads + 1, trace := w.trace ++ [Event.millis w.clockReads] }
        else w) := by
  unfold RegisterReader
  by_cases hI : interval = 0
  · subst hI
    cases flag
    · simp [ReaderEntry.new]
    · simp [ReaderEntry.new, FlagReader, modify_append_last]
  · cases flag
    · simp [ReaderEntry.new, hI]
    · simp [ReaderEntry.new, hI, FlagReader, modify_append_last]

theorem laterOf_refl (e : ReaderEntry) : e.laterOf e :=
  ⟨fun h => h, fun _ => ⟨rfl, rfl⟩⟩

theorem laterOf_trans {a b c : ReaderEntry} (hab : a.laterOf b) (hbc : b.laterOf c) :
    a.laterOf c := by
  refine ⟨fun h => hbc.1 (hab.1 h), fun h => ?_⟩
  have hb : b.canceled = false := by
    cases hbv : b.canceled with
    | false => rfl
    | true => rw [hbc.1 hbv] at h; exact absurd h (by simp)
  exact ⟨(hbc.2 h).1.trans (hab.2 hb).1, (hbc.2 h).2.trans (hab.2 hb).2⟩

theorem FlagReader_get (readers : List ReaderEntry) (index j : Nat) :
    (FlagReader readers index)[j]? =
      (readers[j]?).map fun e => if index = j then { e with flag := true } else e := by
  unfold FlagReader
  split
  · rename_i h
    by_cases hj : index = j
    · subst hj
      rw [List.getElem?_eq_none (by omega)]
      rfl
    · simp [hj]
  · rw [List.getElem?_modify]
    by_cases hj : index = j
    · simp [hj]
    · simp [hj]

theorem CancelReader_get (readers : List ReaderEntry) (index j : Nat) :
    (CancelReader readers index)[j]? =
      (readers[j]?).map fun e =>
        if index = j then { e with canceled := true, readInterval := 0, reader := none }
        else e := by
  unfold CancelReader
  split
  · rename_i h
    by_cases hj : index = j
    · subst hj
      rw [List.getElem?_eq_none (by omega)]
      rfl
    · simp [hj]
  · rw [List.getElem?_modify]
    by_cases hj : index = j
    · simp [hj]
    · simp [hj]

theorem FlagReader_length (readers : List ReaderEntry) (index : Nat) :
    (FlagReader readers index).length = readers.length := by
  unfold FlagReader
  split <;> simp

theorem CancelReader_length (readers : List ReaderEntry) (index : Nat) :
    (CancelReader readers index).length = readers.length := by
  unfold CancelReader
  split <;> simp


theorem schedulerTick_isSome (millis : Nat → Nat) (readers : List ReaderEntry) (w : LoopState)
    (hwf : ∀ e ∈ readers, e.canceled = false → e.reader ≠ none) :
    ∃ r, schedulerTick millis readers w = some r := by
  obtain ⟨r, hr⟩ := flagAndRun_isSome millis (millis w.clockReads) readers 0
    { clockReads := w.clockReads + 1, trace := w.trace ++ [Event.millis w.clockReads] } hwf
  unfold schedulerTick
  simp only [hr]
  exact ⟨_, rfl⟩

theorem applyOp_entries (millis : Nat → Nat) (op : ReaderOp)
    (st st' : List ReaderEntry × LoopState) (h : applyOp millis op st = some st') :
    st.1.length ≤ st'.1.length ∧
      ∀ (j : Nat) (e : ReaderEntry), st.1[j]? = some e →
        ∃ e' : ReaderEntry, st'.1[j]? = some e' ∧ e.laterOf e' := by
  cases op with
  | register reader interval flag =>
    simp only [applyOp, RegisterReader_eq, Option.some.injEq] at h
    subst h
    refine ⟨by simp, fun j e hj => ⟨e, ?_, laterOf_refl e⟩⟩
    have hlt : j < st.1.length := (List.getElem?_eq_some_iff.1 hj).1
    simp only
    rw [List.getElem?_append_left hlt]
    exact hj
  | flagReader index =>
    simp only [applyOp, Option.some.injEq] at h
    subst h
    refine ⟨by simp [FlagReader_length], fun j e hj => ?_⟩
    simp only [FlagReader_get, hj, Option.map_some']
    by_cases hij : index = j
    · exact ⟨{ e with flag := true }, by rw [if_pos hij], fun hc => hc, fun _ => ⟨rfl, rfl⟩⟩
    · exact ⟨_, by rw [if_neg hij], laterOf_refl e⟩
  | cancel index =>
    simp only [applyOp, Option.some.injEq] at h
    subst h
    refine ⟨by simp [CancelReader_length], fun j e hj => ?_⟩
    simp only [CancelReader_get, hj, Option.map_some']
    by_cases hij : index = j
    · exact ⟨{ e with canceled := true, readInterval := 0, reader := none },
        by rw [if_pos hij], fun _ => rfl, fun hc => absurd hc (by simp)⟩
    · exact ⟨_, by rw [if_neg hij], laterOf_refl e⟩
  | tick =>
    simp only [applyOp] at h
    obtain ⟨r, hr, rfl⟩ := Option.map_eq_some'.1 h
    obtain ⟨w1, hrun, _, _⟩ := schedulerTick_eq_some millis st.1 st.2 r hr
    obtain ⟨hl, hg⟩ := flagAndRun_entries millis _ st.1 0 _ _ hrun
    refine ⟨by simp only at hl ⊢; omega, fun j e hj => ?_⟩
    obtain ⟨e', he', h1, h2, h3⟩ := hg j e hj
    exact ⟨e', he', fun hc => by rw [h3]; exact hc, fun _ => ⟨h1, h2⟩⟩

theorem applyOp_trace (millis : Nat → Nat) (op : ReaderOp)
    (st st' : List ReaderEntry × LoopState) (h : applyOp millis op st = some st') :
    ∃ ext, st'.2.trace = st.2.trace ++ ext ∧
      ∀ (i : Nat) (e : ReaderEntry), st.1[i]? = some e → e.canceled = true →
        Event.call i ∉ ext := by
  cases op with
  | register reader interval flag =>
    simp only [applyOp, RegisterReader_eq, Option.some.injEq] at h
    subst h
    by_cases hI : interval = 0
    · exact ⟨[], by simp [hI], by simp⟩
    · exact ⟨[Event.millis st.2.clockReads], by simp [hI], by simp⟩
  | flagReader index =>
    simp only [applyOp, Option.some.injEq] at h
    subst h
    exact ⟨[], by simp, by simp⟩
  | cancel index =>
    simp only [applyOp, Option.some.injEq] at h
    subst h
    exact ⟨[], by simp, by simp⟩
  | tick =>
    simp only [applyOp] at h
    obtain ⟨r, hr, rfl⟩ := Option.map_eq_some'.1 h
    obtain ⟨ext, he, hiff⟩ := schedulerTick_calls millis st.1 st.2 r hr
    refine ⟨ext, he, fun i e hi hc hm => ?_⟩
    have := ((hiff i e hi).1 hm).1
    rw [hc] at this
    exact absurd this (by simp)

theorem runOps_entries (millis : Nat → Nat) :
    ∀ (ops : List ReaderOp) (st st' : List ReaderEntry × LoopState),
      runOps millis ops st = some st' →
        st.1.length ≤ st'.1.length ∧
          ∀ (j : Nat) (e : ReaderEntry), st.1[j]? = some e →
            ∃ e' : ReaderEntry, st'.1[j]? = some e' ∧ e.laterOf e' := by
  intro ops
  induction ops with
  | nil =>
    intro st st' h
    simp only [runOps, Option.some.injEq] at h
    subst h
    exact ⟨Nat.le_refl _, fun j e hj => ⟨e, hj, laterOf_refl e⟩⟩
  | cons op ops ih =>
    intro st st' h
    simp only [runOps] at h
    obtain ⟨mid, hmid, hrest⟩ := Option.bind_eq_some.1 h
    obtain ⟨hl1, hg1⟩ := applyOp_entries millis op st mid hmid
    obtain ⟨hl2, hg2⟩ := ih mid st' hrest
    refine ⟨Nat.le_trans hl1 hl2, fun j e hj => ?_⟩
    obtain ⟨e1, he1, hlat1⟩ := hg1 j e hj
    obtain ⟨e2, he2, hlat2⟩ := hg2 j e1 he1
    exact ⟨e2, he2, laterOf_trans hlat1 hlat2⟩

theorem runOps_no_call (millis : Nat → Nat) :
    ∀ (ops : List ReaderOp) (st st' : List ReaderEntry × LoopState) (i : Nat)
      (e : ReaderEntry), st.1[i]? = some e → e.canceled = true →
      runOps millis ops st = some st' →
        ∃ ext, st'.2.trace = st.2.trace ++ ext ∧ Event.call i ∉ ext := by
  intro ops
  induction ops with
  | nil =>
    intro st st' i e _ _ h
    simp only [runOps, Option.some.injEq] at h
    subst h
    exact ⟨[], by simp, by simp⟩
  | cons op ops ih =>
    intro st st' i e hi hc h
    simp only [runOps] at h
    obtain ⟨mid, hmid, hrest⟩ := Option.bind_eq_some.1 h
    obtain ⟨ext1, he1, hno1⟩ := applyOp_trace millis op st mid hmid
    obtain ⟨e1, hget1, hlat⟩ := (applyOp_entries millis op st mid hmid).2 i e hi
    obtain ⟨ext2, he2, hno2⟩ := ih mid st' i e1 hget1 (hlat.1 hc) hrest
    refine ⟨ext1 ++ ext2, by rw [he2, he1, List.append_assoc], ?_⟩
    intro hm
    rcases List.mem_append.1 hm with hm | hm
    · exact hno1 i e hi hc hm
    · exact hno2 hm

theorem callbacks_present_of_pointwise (rs rs' : List ReaderEntry)
    (hwf : ∀ e ∈ rs, e.canceled = false → e.reader ≠ none)
    (hk : ∀ (j : Nat) (e' : ReaderEntry), rs'[j]? = some e' → e'.canceled = false →
      ∃ e : ReaderEntry, rs[j]? = some e ∧ e.canceled = false ∧ e'.reader = e.reader) :
    ∀ e ∈ rs', e.canceled = false → e.reader ≠ none := by
  intro e' hmem hc
  obtain ⟨j, hj⟩ := List.mem_iff_getElem?.1 hmem
  obtain ⟨e, he, hec, her⟩ := hk j e' hj hc
  rw [her]
  exact hwf e (List.mem_iff_getElem?.2 ⟨j, he⟩) hec

theorem applyOp_isSome (millis : Nat → Nat) (op : ReaderOp)
    (st : List ReaderEntry × LoopState)
    (hwf : ∀ e ∈ st.1, e.canceled = false → e.reader ≠ none)
    (hop : ∀ r n f, op = ReaderOp.register r n f → r ≠ none) :
    ∃ st', applyOp millis op st = some st' ∧
      ∀ e ∈ st'.1, e.canceled = false → e.reader ≠ none := by
  cases op with
  | register reader interval flag =>
    refine ⟨_, rfl, ?_⟩
    simp only [RegisterReader_eq]
    intro e hmem hc
    rcases List.mem_append.1 hmem with hm | hm
    · exact hwf e hm hc
    · simp only [List.mem_singleton] at hm
      subst hm
      exact hop reader interval flag rfl
  | flagReader index =>
    refine ⟨_, rfl, callbacks_present_of_pointwise st.1 _ hwf ?_⟩
    intro j e' hj hc
    simp only [FlagReader_get] at hj
    obtain ⟨e, he, rfl⟩ := Option.map_eq_some'.1 hj
    refine ⟨e, he, ?_, ?_⟩
    · split at hc <;> exact hc
    · split <;> rfl
  | cancel index =>
    refine ⟨_, rfl, callbacks_present_of_pointwise st.1 _ hwf ?_⟩
    intro j e' hj hc
    simp only [CancelReader_get] at hj
    obtain ⟨e, he, rfl⟩ := Option.map_eq_some'.1 hj
    split at hc
    · exact absurd hc (by simp)
    · rename_i hne
      exact ⟨e, he, hc, by rw [if_neg hne]⟩
  | tick =>
    obtain ⟨r, hr⟩ := schedulerTick_isSome millis st.1 st.2 hwf
    refine ⟨(r.1, r.2.1), by simp [applyOp, hr], callbacks_present_of_pointwise st.1 _ hwf ?_⟩
    intro j e' hj hc
    obtain ⟨w1, hrun, _, _⟩ := schedulerTick_eq_some millis st.1 st.2 r hr
    obtain ⟨hl, hg⟩ := flagAndRun_entries millis _ st.1 0 _ _ hrun
    have hlt : j < st.1.length := by
      have := (List.getElem?_eq_some_iff.1 hj).1
      simp only at hl this
      omega
    obtain ⟨e'', he'', h1, _, h3⟩ := hg j st.1[j] (List.getElem?_eq_getElem hlt)
    simp only at he'' hj
    rw [hj] at he''
    simp only [Option.some.injEq] at he''
    subst he''
    exact ⟨st.1[j], List.getElem?_eq_getElem hlt, by rw [← h3]; exact hc, h1⟩

theorem runOps_isSome (millis : Nat → Nat) :
    ∀ (ops : List ReaderOp) (st : List ReaderEntry × LoopState),
      (∀ e ∈ st.1, e.canceled = false → e.reader ≠ none) →
      (∀ r n f, ReaderOp.register r n f ∈ ops → r ≠ none) →
        ∃ st', runOps millis ops st = some st' := by
  intro ops
  induction ops with
  | nil => intro st _ _; exact ⟨st, rfl⟩
  | cons op ops ih =>
    intro st hwf hops
    obtain ⟨mid, hmid, hwf'⟩ := applyOp_isSome millis op st hwf
      (fun r n f h => hops r n f (by rw [h]; exact List.mem_cons_self _ _))
    obtain ⟨st', hst'⟩ := ih mid hwf'
      (fun r n f h => hops r n f (List.mem_cons_of_mem _ h))
    exact ⟨st', by simp [runOps, hmid, hst']⟩

/-- C11: once `CancelReader(i)` has been called for a registered reader, no
later scheduler tick invokes the callback of reader `i`, whatever sequence of
`RegisterReader`, `FlagReader`, `CancelReader` calls and ticks follows and
whatever the registry was before (its flag may be set at the cancellation,
and `FlagReader(i)` may set it afterwards): the trace of every run grows by
events among which `call i` does not occur.  Such runs exist: when every
reader that is not canceled holds a callback and every registration passes
one, the sequence runs to its end. -/
theorem canceled_reader_never_runs (millis : Nat → Nat) (ops : List ReaderOp)
    (readers : List ReaderEntry) (w : LoopState) (i : Nat) (hi : i < readers.length) :
    (∀ readers' w', runOps millis ops (CancelReader readers i, w) = some (readers', w') →
      ∃ ext, w'.trace = w.trace ++ ext ∧ Event.call i ∉ ext) ∧
    ((∀ e ∈ readers, e.canceled = false → e.reader ≠ none) →
      (∀ r n f, ReaderOp.register r n f ∈ ops → r ≠ none) →
      ∃ st', runOps millis ops (CancelReader readers i, w) = some st') := by
  constructor
  · intro readers' w' hrun
    have hget : (CancelReader readers i)[i]? =
        some { readers[i] with canceled := true, readInterval := 0, reader := none } := by
      rw [CancelReader_get, List.getElem?_eq_getElem hi]
      simp
    exact runOps_no_call millis ops (CancelReader readers i, w) (readers', w') i _ hget rfl hrun
  · intro hwf hops
    refine runOps_isSome millis ops _ ?_ hops
    obtain ⟨st', hst', hwf'⟩ := applyOp_isSome millis (ReaderOp.cancel i) (readers, w) hwf
      (fun r n f h => by cases h)
    simp only [applyOp, Option.some.injEq] at hst'
    subst hst'
    exact hwf'

theorem canceled_reader_never_runs_witness :
    ∃ ext,
      [Event.millis 0, Event.millis 1, Event.millis 2, Event.call 1, Event.millis 3,
        Event.millis 4] = [] ++ ext ∧ Event.call 0 ∉ ext :=
  (canceled_reader_never_runs (fun n => 1000 + 10 * n)
    [ReaderOp.flagReader 0, ReaderOp.tick, ReaderOp.register (some 8) 0 true, ReaderOp.tick]
    [{ reader := some 7, readInterval := 500, lastReadMs := 300, flag := true,
       canceled := false }]
    { clockReads := 0, trace := [] } 0 (by decide)).1
    [{ reader := none, readInterval := 0, lastReadMs := 300, flag := true, canceled := true },
     { reader := some 8, readInterval := 0, lastReadMs := 1030, flag := false,
       canceled := false }]
    { clockReads := 5,
      trace := [Event.millis 0, Event.millis 1, Event.millis 2, Event.call 1, Event.millis 3,
                Event.millis 4] }
    (by decide)


/-- C12: in a scheduler tick that reads the time `now`, a reader that is not
canceled and whose flag was not set beforehand is run if and only if its
interval is not 0 and, with `targetMs = lastReadMs + interval` as the
`unsigned long` sum, either `targetMs <= now` or the distance between `now`
and `targetMs` exceeds the interval.  In particular a reader with interval 0
is not run by the timer.  When `lastReadMs + interval` does not overflow,
`targetMs` is that sum.  The registry is assumed to hold a callback for every
reader that is not canceled, so that the tick completes. -/
theorem timer_runs_iff_interval_passed (millis : Nat → Nat) (readers : List ReaderEntry)
    (w : LoopState) (i : Nat) (e : ReaderEntry)
    (hwf : ∀ e' ∈ readers, e'.canceled = false → e'.reader ≠ none)
    (hi : readers[i]? = some e) (hc : e.canceled = false) (hf : e.flag = false) :
    ∃ readers' w' holdMs ext,
      schedulerTick millis readers w = some (readers', w', holdMs) ∧
      w'.trace = w.trace ++ ext ∧
      (Event.call i ∈ ext ↔
        e.readInterval ≠ 0 ∧
          (e.targetMs ≤ millis w.clockReads ∨
            max (millis w.clockReads) e.targetMs - min (millis w.clockReads) e.targetMs >
              e.readInterval)) ∧
      (e.readInterval = 0 → Event.call i ∉ ext) ∧
      (e.lastReadMs + e.readInterval < 2 ^ 32 → e.targetMs = e.lastReadMs + e.readInterval) := by
  obtain ⟨r, hr⟩ := schedulerTick_isSome millis readers w hwf
  obtain ⟨ext, he, hiff⟩ := schedulerTick_calls millis readers w r hr
  have hcall : Event.call i ∈ ext ↔
      e.readInterval ≠ 0 ∧
        (e.targetMs ≤ millis w.clockReads ∨
          max (millis w.clockReads) e.targetMs - min (millis w.clockReads) e.targetMs >
            e.readInterval) := by
    rw [hiff i e hi]
    simp [hc, hf, ReaderEntry.intervalPassed]
  refine ⟨r.1, r.2.1, r.2.2, ext, hr, he, hcall, ?_, ?_⟩
  · intro h0 hm
    exact (hcall.1 hm).1 h0
  · intro hlt
    exact Nat.mod_eq_of_lt hlt

theorem timer_runs_iff_interval_passed_witness :
    ∃ readers' w' holdMs ext,
      schedulerTick (fun n => 1000 + 10 * n)
          [{ reader := some 7, readInterval := 500, lastReadMs := 400, flag := false,
             canceled := false }]
          { clockReads := 0, trace := [] } = some (readers', w', holdMs) ∧
      w'.trace = [] ++ ext ∧
      (Event.call 0 ∈ ext ↔
        (500 : Nat) ≠ 0 ∧
          (ReaderEntry.targetMs
              { reader := some 7, readInterval := 500, lastReadMs := 400, flag := false,
                canceled := false } ≤ 1000 + 10 * 0 ∨
            max (1000 + 10 * 0)
                (ReaderEntry.targetMs
                  { reader := some 7, readInterval := 500, lastReadMs := 400, flag := false,
                    canceled := false }) -
              min (1000 + 10 * 0)
                (ReaderEntry.targetMs
                  { reader := some 7, readInterval := 500, lastReadMs := 400, flag := false,
                    canceled := false }) > 500)) ∧
      ((500 : Nat) = 0 → Event.call 0 ∉ ext) ∧
      (400 + 500 < 2 ^ 32 →
        ReaderEntry.targetMs
            { reader := some 7, readInterval := 500, lastReadMs := 400, flag := false,
              canceled := false } = 400 + 500) :=
  timer_runs_iff_interval_passed (fun n => 1000 + 10 * n)
    [{ reader := some 7, readInterval := 500, lastReadMs := 400, flag := false,
       canceled := false }]
    { clockReads := 0, trace := [] } 0
    { reader := some 7, readInterval := 500, lastReadMs := 400, flag := false,
      canceled := false }
    (by decide) rfl rfl rfl

/-- C15: `CancelReader` soft-deletes and is idempotent.  It keeps the length
of the registry and every entry but the one at `index`; that entry, when it
exists, gets its canceled marker set, its interval zeroed and its callback
cleared, its flag and last-run time staying as they are; canceling twice
gives the registry that canceling once gives; and for an index at or beyond
the length the registry is unchanged. -/
theorem cancel_reader_soft_deletes (readers : List ReaderEntry) (index : Nat) :
    (CancelReader readers index).length = readers.length ∧
      (∀ j, j ≠ index → (CancelReader readers index)[j]? = readers[j]?) ∧
      (CancelReader readers index)[index]? =
        (readers[index]?).map (fun entry =>
          { entry with canceled := true, readInterval := 0, reader := none }) ∧
      CancelReader (CancelReader readers index) index = CancelReader readers index ∧
      (readers.length ≤ index → CancelReader readers index = readers) := by
  refine ⟨CancelReader_length readers index, ?_, ?_, ?_, ?_⟩
  · intro j hj
    rw [CancelReader_get]
    cases readers[j]? with
    | none => rfl
    | some e => simp [Ne.symm hj]
  · rw [CancelReader_get]
    cases readers[index]? with
    | none => rfl
    | some e => simp
  · apply List.ext_getElem?
    intro j
    rw [CancelReader_get, CancelReader_get]
    cases readers[j]? with
    | none => rfl
    | some e =>
      by_cases hj : index = j
      · simp [hj]
      · simp [hj]
  · intro h
    unfold CancelReader
    rw [if_pos h]

/-- C16: the reader registry is append-only with stable handles.
`RegisterReader` returns the previous length of the registry as index and
appends exactly one entry: the callback and interval given, the flag set
exactly when requested, not canceled, and the time of the last run set to the
clock reading when the interval is not 0 (left at its initial 0 otherwise).
No sequence of `RegisterReader`, `FlagReader`, `CancelReader` calls and ticks
shortens the registry or moves an entry: the entry at an index stays at that
index, keeps a cancellation, and keeps its callback and interval until it is
canceled.  So the index a registration returned names the reader registered
through any later operations. -/
theorem registry_append_only (millis : Nat → Nat) (readers : List ReaderEntry)
    (w : LoopState) (reader : Option Nat) (interval : Nat) (flag : Bool)
    (ops : List ReaderOp) :
    (RegisterReader millis readers w reader interval flag).1 = readers.length ∧
      (RegisterReader millis readers w reader interval flag).2.1 =
        readers ++ [{ reader := reader, readInterval := interval,
                      lastReadMs := if interval ≠ 0 then millis w.clockReads else 0,
                      flag := flag, canceled := false }] ∧
      (∀ st st' : List ReaderEntry × LoopState, runOps millis ops st = some st' →
        st.1.length ≤ st'.1.length ∧
          ∀ (j : Nat) (e : ReaderEntry), st.1[j]? = some e →
            ∃ e' : ReaderEntry, st'.1[j]? = some e' ∧ e.laterOf e') ∧
      (∀ st' : List ReaderEntry × LoopState,
        runOps millis ops
            ((RegisterReader millis readers w reader interval flag).2.1,
              (RegisterReader millis readers w reader interval flag).2.2) = some st' →
          ∃ e' : ReaderEntry,
            st'.1[(RegisterReader millis readers w reader interval flag).1]? = some e' ∧
              (e'.canceled = false → e'.reader = reader ∧ e'.readInterval = interval)) := by
  refine ⟨by rw [RegisterReader_eq], by rw [RegisterReader_eq],
    fun st st' h => runOps_entries millis ops st st' h, ?_⟩
  intro st' h
  rw [RegisterReader_eq] at h ⊢
  obtain ⟨e', he', hlat⟩ := (runOps_entries millis ops _ st' h).2 readers.length
    { reader := reader, readInterval := interval,
      lastReadMs := if interval ≠ 0 then millis w.clockReads else 0,
      flag := flag, canceled := false } (by simp)
  exact ⟨e', he', fun hc => hlat.2 hc⟩


/-! ### The sleep between two passes -/

theorem computeHoldMs_cons (now : Nat) (entry : ReaderEntry) (rest : List ReaderEntry)
    (holdMs : Nat) :
    computeHoldMs now (entry :: rest) holdMs =
      if entry.canceled = true then computeHoldMs now rest holdMs
      else if entry.readInterval = 0 then computeHoldMs now rest holdMs
      else if entry.targetMs ≤ now then 0
      else computeHoldMs now rest (min holdMs (entry.holdMs now)) := by
  rw [computeHoldMs]
  split
  · rfl
  · split
    · rfl
    · split
      · rw [if_pos (by assumption)]
      · rw [if_neg (by assumption)]
        simp only [ReaderEntry.holdMs]
        congr 1
        rw [Nat.min_def]
        split <;> split <;> omega

theorem timedReaders_cons (entry : ReaderEntry) (rest : List ReaderEntry) :
    timedReaders (entry :: rest) =
      if entry.canceled = false ∧ entry.readInterval ≠ 0 then entry :: timedReaders rest
      else timedReaders rest := by
  unfold timedReaders
  rw [List.filter_cons]
  by_cases h : entry.canceled = false ∧ entry.readInterval ≠ 0
  · rw [if_pos h, if_pos (by simp [h.1, h.2])]
  · rw [if_neg h, if_neg]
    intro hc
    simp only [Bool.and_eq_true, Bool.not_eq_true', bne_iff_ne, ne_eq] at hc
    exact h hc

theorem computeHoldMs_eq (now : Nat) :
    ∀ (readers : List ReaderEntry) (holdMs : Nat),
      computeHoldMs now readers holdMs =
        if (timedReaders readers).any (fun entry => decide (entry.targetMs ≤ now)) then 0
        else ((timedReaders readers).map fun entry => entry.holdMs now).foldl min holdMs := by
  intro readers
  induction readers with
  | nil => intro holdMs; rfl
  | cons entry rest ih =>
    intro holdMs
    rw [computeHoldMs_cons]
    by_cases hc : entry.canceled = true
    · have hT : timedReaders (entry :: rest) = timedReaders rest := by
        rw [timedReaders_cons, if_neg (by simp [hc])]
      rw [if_pos hc, hT]
      exact ih holdMs
    · rw [if_neg hc]
      by_cases hz : entry.readInterval = 0
      · have hT : timedReaders (entry :: rest) = timedReaders rest := by
          rw [timedReaders_cons, if_neg (by simp [hz])]
        rw [if_pos hz, hT]
        exact ih holdMs
      · have hT : timedReaders (entry :: rest) = entry :: timedReaders rest := by
          rw [timedReaders_cons, if_pos ⟨by simpa using hc, hz⟩]
        rw [if_neg hz, hT]
        by_cases hd : entry.targetMs ≤ now
        · rw [if_pos hd]
          simp [hd]
        · rw [if_neg hd, ih]
          simp [hd]

theorem computeHoldMs_timed (now : Nat) (readers : List ReaderEntry) (holdMs : Nat) :
    computeHoldMs now readers holdMs = computeHoldMs now (timedReaders readers) holdMs := by
  have hidem : timedReaders (timedReaders readers) = timedReaders readers := by
    unfold timedReaders
    rw [List.filter_filter]
    simp
  rw [computeHoldMs_eq now readers, computeHoldMs_eq now (timedReaders readers), hidem]

/-- C13 as stated fails: with one reader of interval 500 whose last run (2000)
lies after `now` (1900), the claimed value is min(1000, 500 − (1900 − 2000)) =
600 and the code computes 500, because it clamps with `std::min(interval,
...)`; and after the clock has wrapped (last run 2^32 − 100, `now` 50) the
claimed value in the integers is 1000 and the code, computing in `unsigned
long`, gives 350. -/
theorem hold_formula_counterexample :
    (computeHoldMs 1900
        [{ reader := some 7, readInterval := 500, lastReadMs := 2000, flag := false,
           canceled := false }] 1000 = 500 ∧
      specHoldMs 1900
        [{ reader := some 7, readInterval := 500, lastReadMs := 2000, flag := false,
           canceled := false }] = 600) ∧
    (computeHoldMs 50
        [{ reader := some 7, readInterval := 500, lastReadMs := 4294967196, flag := false,
           canceled := false }] 1000 = 350 ∧
      specHoldMs 50
        [{ reader := some 7, readInterval := 500, lastReadMs := 4294967196, flag := false,
           canceled := false }] = 1000) := by
  decide

/-- C13, amended: the sleep computed by the second loop is 0 when some reader
that is not canceled and has a non-zero interval has reached its target
(`lastReadMs + interval <= now`, the sum in `unsigned long`), and otherwise is
the least of 1000 and `min(interval, interval - (now - lastReadMs))`, the
differences in `unsigned long`, over those readers; canceled readers and
readers with interval 0 do not influence it; and this is the sleep a
scheduler tick returns, for the clock reading it takes after the readers have
run. -/
theorem hold_is_least_clamped_remaining (now : Nat) (readers : List ReaderEntry)
    (holdMs : Nat) (millis : Nat → Nat) (w : LoopState) :
    computeHoldMs now readers 1000 =
        (if (timedReaders readers).any (fun entry => decide (entry.targetMs ≤ now)) then 0
         else ((timedReaders readers).map fun entry =>
           min entry.readInterval
             (ulongSub entry.readInterval (ulongSub now entry.lastReadMs))).foldl min 1000) ∧
      computeHoldMs now readers 1000 = holdMsFormula now readers ∧
      computeHoldMs now readers holdMs = computeHoldMs now (timedReaders readers) holdMs ∧
      ∀ r, schedulerTick millis readers w = some r →
        r.2.2 = holdMsFormula (millis (r.2.1.clockReads - 1)) r.1 := by
  refine ⟨computeHoldMs_eq now readers 1000, computeHoldMs_eq now readers 1000,
    computeHoldMs_timed now readers holdMs, ?_⟩
  intro r hr
  obtain ⟨w1, _, hw, hh⟩ := schedulerTick_eq_some millis readers w r hr
  rw [hh, hw]
  exact computeHoldMs_eq _ _ 1000

theorem holdMs_of_regular (now : Nat) (entry : ReaderEntry) (hnow : now < 2 ^ 32)
    (hlast : entry.lastReadMs ≤ now) (hsum : entry.lastReadMs + entry.readInterval < 2 ^ 32)
    (hdue : ¬ entry.targetMs ≤ now) :
    entry.holdMs now = entry.lastReadMs + entry.readInterval - now ∧
      now < entry.lastReadMs + entry.readInterval := by
  unfold ReaderEntry.targetMs at hdue
  unfold ReaderEntry.holdMs ulongSub
  rw [Nat.mod_eq_of_lt hsum] at hdue
  constructor
  · omega
  · omega

theorem computeHoldMs_regular (now : Nat) (hnow : now < 2 ^ 32) :
    ∀ (readers : List ReaderEntry) (holdMs : Nat),
      (∀ e ∈ readers, e.canceled = false → e.readInterval ≠ 0 →
        e.lastReadMs ≤ now ∧ e.lastReadMs + e.readInterval < 2 ^ 32) →
      computeHoldMs now readers holdMs ≤ holdMs ∧
        (∀ e ∈ readers, e.canceled = false → e.readInterval ≠ 0 →
          computeHoldMs now readers holdMs ≤ e.lastReadMs + e.readInterval - now) ∧
        (computeHoldMs now readers holdMs = 0 ↔
          holdMs = 0 ∨ ∃ e ∈ readers, e.canceled = false ∧ e.readInterval ≠ 0 ∧
            e.lastReadMs + e.readInterval ≤ now) := by
  intro readers
  induction readers with
  | nil =>
    intro holdMs _
    simp [computeHoldMs]
  | cons entry rest ih =>
    intro holdMs hreg
    have hrest : ∀ e ∈ rest, e.canceled = false → e.readInterval ≠ 0 →
        e.lastReadMs ≤ now ∧ e.lastReadMs + e.readInterval < 2 ^ 32 :=
      fun e he => hreg e (List.mem_cons_of_mem _ he)
    rw [computeHoldMs_cons]
    have skip : (entry.canceled = true ∨ entry.readInterval = 0) →
        computeHoldMs now rest holdMs ≤ holdMs ∧
        (∀ e ∈ entry :: rest, e.canceled = false → e.readInterval ≠ 0 →
          computeHoldMs now rest holdMs ≤ e.lastReadMs + e.readInterval - now) ∧
        (computeHoldMs now rest holdMs = 0 ↔
          holdMs = 0 ∨ ∃ e ∈ entry :: rest, e.canceled = false ∧ e.readInterval ≠ 0 ∧
            e.lastReadMs + e.readInterval ≤ now) := by
      intro hskip
      obtain ⟨h1, h2, h3⟩ := ih holdMs hrest
      refine ⟨h1, ?_, ?_⟩
      · intro e he hc hz
        rcases List.mem_cons.1 he with rfl | he
        · rcases hskip with hs | hs
          · rw [hs] at hc; exact absurd hc (by simp)
          · exact absurd hs hz
        · exact h2 e he hc hz
      · rw [h3]
        constructor
        · rintro (h | ⟨e, he, hx⟩)
          · exact Or.inl h
          · exact Or.inr ⟨e, List.mem_cons_of_mem _ he, hx⟩
        · rintro (h | ⟨e, he, hc, hz, hd⟩)
          · exact Or.inl h
          · rcases List.mem_cons.1 he with rfl | he
            · rcases hskip with hs | hs
              · rw [hs] at hc; exact absurd hc (by simp)
              · exact absurd hs hz
            · exact Or.inr ⟨e, he, hc, hz, hd⟩
    by_cases hc : entry.canceled = true
    · rw [if_pos hc]
      exact skip (Or.inl hc)
    · rw [if_neg hc]
      by_cases hz : entry.readInterval = 0
      · rw [if_pos hz]
        exact skip (Or.inr hz)
      · rw [if_neg hz]
        have hcf : entry.canceled = false := by simpa using hc
        obtain ⟨hlast, hsum⟩ := hreg entry (List.mem_cons_self _ _) hcf hz
        by_cases hd : entry.targetMs ≤ now
        · rw [if_pos hd]
          have hd' : entry.lastReadMs + entry.readInterval ≤ now := by
            unfold ReaderEntry.targetMs at hd
            rwa [Nat.mod_eq_of_lt hsum] at hd
          refine ⟨Nat.zero_le _, fun _ _ _ _ => Nat.zero_le _, ?_⟩
          exact ⟨fun _ => Or.inr ⟨entry, List.mem_cons_self _ _, hcf, hz, hd'⟩, fun _ => rfl⟩
        · rw [if_neg hd]
          obtain ⟨heq, hlt⟩ := holdMs_of_regular now entry hnow hlast hsum hd
          obtain ⟨h1, h2, h3⟩ := ih (min holdMs (entry.holdMs now)) hrest
          refine ⟨Nat.le_trans h1 (Nat.min_le_left _ _), ?_, ?_⟩
          · intro e he hce hze
            rcases List.mem_cons.1 he with rfl | he
            · exact Nat.le_trans h1 (by rw [← heq]; exact Nat.min_le_right _ _)
            · exact h2 e he hce hze
          · rw [h3]
            constructor
            · rintro (h | ⟨e, he, hx⟩)
              · left
                rw [heq] at h
                rw [Nat.min_def] at h
                split at h <;> omega
              · exact Or.inr ⟨e, List.mem_cons_of_mem _ he, hx⟩
            · rintro (h | ⟨e, he, hce, hze, hde⟩)
              · left
                rw [h]
                exact Nat.zero_min _
              · rcases List.mem_cons.1 he with rfl | he
                · omega
                · exact Or.inr ⟨e, he, hce, hze, hde⟩

/-- C14: let `now` be an `unsigned long` value and let every reader that is
not canceled and has a non-zero interval have `lastReadMs <= now` and a sum
`lastReadMs + interval` that does not overflow.  Then the computed sleep is
at most 1000 ms, is at most the time remaining `lastReadMs + interval - now`
until any such reader is due, and is 0 exactly when some such reader is
already due: the scheduler does not sleep past a reader's due time. -/
theorem hold_never_past_due (now : Nat) (readers : List ReaderEntry) (hnow : now < 2 ^ 32)
    (hreg : ∀ e ∈ readers, e.canceled = false → e.readInterval ≠ 0 →
      e.lastReadMs ≤ now ∧ e.lastReadMs + e.readInterval < 2 ^ 32) :
    computeHoldMs now readers 1000 ≤ 1000 ∧
      (∀ e ∈ readers, e.canceled = false → e.readInterval ≠ 0 →
        computeHoldMs now readers 1000 ≤ e.lastReadMs + e.readInterval - now) ∧
      (computeHoldMs now readers 1000 = 0 ↔
        ∃ e ∈ readers, e.canceled = false ∧ e.readInterval ≠ 0 ∧
          e.lastReadMs + e.readInterval ≤ now) := by
  obtain ⟨h1, h2, h3⟩ := computeHoldMs_regular now hnow readers 1000 hreg
  refine ⟨h1, h2, ?_⟩
  rw [h3]
  constructor
  · rintro (h | h)
    · exact absurd h (by decide)
    · exact h
  · exact fun h => Or.inr h

theorem hold_never_past_due_witness :
    computeHoldMs 1020
        [{ reader := some 7, readInterval := 500, lastReadMs := 600, flag := false,
           canceled := false },
         { reader := none, readInterval := 0, lastReadMs := 5000, flag := true,
           canceled := true }] 1000 ≤ 1000 :=
  (hold_never_past_due 1020
    [{ reader := some 7, readInterval := 500, lastReadMs := 600, flag := false,
       canceled := false },
     { reader := none, readInterval := 0, lastReadMs := 5000, flag := true,
       canceled := true }] (by decide) (by decide)).1


/-! ### Loading effects from JSON and from the default factories -/

theorem loadJSONEffects_cons (jsonFactories : JSONFactories) (effectObject : JsonObject)
    (rest : List JsonObject) (s : LoadState) :
    loadJSONEffects jsonFactories (effectObject :: rest) s =
      match effectFromJSON jsonFactories effectObject with
      | none => loadJSONEffects jsonFactories rest s
      | some pEffect =>
        loadJSONEffects jsonFactories rest
          { s with effects := s.effects ++ [pEffect]
                   loaded := effectObject.effectNr :: s.loaded } := by
  rw [loadJSONEffects]
  unfold effectFromJSON
  cases jsonFactories effectObject.effectNr with
  | none => rfl
  | some factory =>
    cases h2 : factory effectObject with
    | none => simp only [h2, Option.map_none']
    | some pEffect => simp only [h2, Option.map_some']

theorem loadJSONEffects_spec (jsonFactories : JSONFactories) :
    ∀ (effectsArray : List JsonObject) (s : LoadState),
      (loadJSONEffects jsonFactories effectsArray s).effects =
          s.effects ++ effectsArray.filterMap (effectFromJSON jsonFactories) ∧
        (loadJSONEffects jsonFactories effectsArray s).produced = s.produced ∧
        ∀ n, n ∈ (loadJSONEffects jsonFactories effectsArray s).loaded ↔
          n ∈ s.loaded ∨ ∃ r ∈ effectsArray, r.effectNr = n ∧
            (effectFromJSON jsonFactories r).isSome = true := by
  intro effectsArray
  induction effectsArray with
  | nil => intro s; simp [loadJSONEffects]
  | cons effectObject rest ih =>
    intro s
    rw [loadJSONEffects_cons]
    cases h : effectFromJSON jsonFactories effectObject with
    | none =>
      obtain ⟨h1, h2, h3⟩ := ih s
      refine ⟨by simp [h1, h], h2, fun n => ?_⟩
      rw [h3 n]
      simp [h]
    | some pEffect =>
      obtain ⟨h1, h2, h3⟩ := ih
        { s with effects := s.effects ++ [pEffect]
                 loaded := effectObject.effectNr :: s.loaded }
      refine ⟨by simp [h1, h], h2, fun n => ?_⟩
      rw [h3 n]
      simp only [List.mem_cons, h, Option.isSome_some, and_true, exists_eq_or_imp]
      constructor
      · rintro ((hn | hn) | hn)
        · exact Or.inr (Or.inl hn.symm)
        · exact Or.inl hn
        · exact Or.inr (Or.inr hn)
      · rintro (hn | hn | hn)
        · exact Or.inl (Or.inr hn)
        · exact Or.inl (Or.inl hn.symm)
        · exact Or.inr hn


theorem produceMatching_eq (effectNumber : Int) :
    ∀ (fs : List NumberedFactory) (pos : Nat) (s : LoadState),
      produceMatching effectNumber pos fs s =
        { effects := s.effects ++
            (fs.filter fun f => decide (f.effectNumber = effectNumber)).filterMap (·.create)
          loaded := s.loaded
          produced := s.produced ++ positionsFrom effectNumber pos fs } := by
  intro fs
  induction fs with
  | nil => intro pos s; simp [produceMatching, positionsFrom]
  | cons f rest ih =>
    intro pos s
    rw [produceMatching, ih]
    by_cases h : f.effectNumber = effectNumber
    · cases hc : f.create with
      | none => simp [h, hc, ProduceAndLoadDefaultEffect, positionsFrom]
      | some e => simp [h, hc, ProduceAndLoadDefaultEffect, positionsFrom]
    · simp [h, positionsFrom]

theorem positionsFrom_ge (effectNumber : Int) :
    ∀ (fs : List NumberedFactory) (pos p : Nat),
      p ∈ positionsFrom effectNumber pos fs → pos ≤ p := by
  intro fs
  induction fs with
  | nil => intro pos p h; simp [positionsFrom] at h
  | cons f rest ih =>
    intro pos p h
    rw [positionsFrom] at h
    split at h
    · rcases List.mem_cons.1 h with h | h
      · omega
      · have := ih (pos + 1) p h; omega
    · have := ih (pos + 1) p h; omega

theorem positionsFrom_count (effectNumber : Int) :
    ∀ (fs : List NumberedFactory) (pos j : Nat),
      (positionsFrom effectNumber pos fs).count (pos + j) =
        match fs[j]? with
        | some f => if f.effectNumber = effectNumber then 1 else 0
        | none => 0 := by
  intro fs
  induction fs with
  | nil => intro pos j; simp [positionsFrom]
  | cons f rest ih =>
    intro pos j
    rw [positionsFrom]
    cases j with
    | zero =>
      have hnot : pos ∉ positionsFrom effectNumber (pos + 1) rest := fun hm => by
        have := positionsFrom_ge effectNumber rest (pos + 1) pos hm
        omega
      by_cases h : f.effectNumber = effectNumber
      · simp [h, List.count_eq_zero_of_not_mem hnot]
      · simp [h, List.count_eq_zero_of_not_mem hnot]
    | succ j' =>
      have hidx : pos + (j' + 1) = pos + 1 + j' := by omega
      have hne : ¬ pos = pos + 1 + j' := by omega
      simp only [List.getElem?_cons_succ]
      by_cases h : f.effectNumber = effectNumber
      · rw [if_pos h, hidx, List.count_cons, ih (pos + 1) j']
        simp [hne]
      · rw [if_neg h, hidx, ih (pos + 1) j']

theorem loadMissingEffects_cons (pos : Nat) (f : NumberedFactory)
    (rest : List NumberedFactory) (s : LoadState) :
    loadMissingEffects pos (f :: rest) s =
      if f.effectNumber ∈ s.loaded then loadMissingEffects (pos + 1) rest s
      else
        loadMissingEffects (pos + 1) rest
          { effects := s.effects ++
              ((f :: rest).filter fun g => decide (g.effectNumber = f.effectNumber)).filterMap
                (·.create)
            loaded := f.effectNumber :: s.loaded
            produced := s.produced ++ positionsFrom f.effectNumber pos (f :: rest) } := by
  rw [loadMissingEffects]
  split
  · rfl
  · simp only [produceMatching_eq]

theorem loadMissingEffects_count :
    ∀ (fs : List NumberedFactory) (pos : Nat) (s : LoadState),
      (∀ j, (loadMissingEffects pos fs s).produced.count (pos + j) =
        s.produced.count (pos + j) +
          match fs[j]? with
          | some f => if f.effectNumber ∈ s.loaded then 0 else 1
          | none => 0) ∧
      ∀ p, p < pos → (loadMissingEffects pos fs s).produced.count p = s.produced.count p := by
  intro fs
  induction fs with
  | nil => intro pos s; simp [loadMissingEffects]
  | cons f rest ih =>
    intro pos s
    rw [loadMissingEffects_cons]
    by_cases hl : f.effectNumber ∈ s.loaded
    · rw [if_pos hl]
      obtain ⟨ha, hb⟩ := ih (pos + 1) s
      refine ⟨fun j => ?_, fun p hp => hb p (by omega)⟩
      cases j with
      | zero => simp [hl, hb pos (by omega)]
      | succ j' =>
        rw [show pos + (j' + 1) = pos + 1 + j' by omega, ha j']
        simp
    · rw [if_neg hl]
      obtain ⟨ha, hb⟩ := ih (pos + 1)
        { effects := s.effects ++
            ((f :: rest).filter fun g => decide (g.effectNumber = f.effectNumber)).filterMap
              (·.create)
          loaded := f.effectNumber :: s.loaded
          produced := s.produced ++ positionsFrom f.effectNumber pos (f :: rest) }
      refine ⟨fun j => ?_, fun p hp => ?_⟩
      · cases j with
        | zero =>
          have hcount := positionsFrom_count f.effectNumber (f :: rest) pos 0
          rw [Nat.add_zero] at hcount ⊢
          rw [hb pos (by omega)]
          dsimp only
          rw [List.count_append, hcount]
          simp [hl]
        | succ j' =>
          have hcount := positionsFrom_count f.effectNumber (f :: rest) pos (j' + 1)
          rw [show pos + (j' + 1) = pos + 1 + j' by omega] at hcount ⊢
          rw [ha j']
          dsimp only
          rw [List.count_append, hcount]
          simp only [List.getElem?_cons_succ]
          cases hg : rest[j']? with
          | none => simp
          | some g =>
            simp only [List.mem_cons]
            by_cases hgf : g.effectNumber = f.effectNumber
            · have hgl : g.effectNumber ∉ s.loaded := by rw [hgf]; exact hl
              simp [hgf, hl]
            · by_cases hgl : g.effectNumber ∈ s.loaded
              · simp [hgf, hgl]
              · simp [hgf, hgl]
      · rw [hb p (by omega)]
        dsimp only
        rw [List.count_append]
        have hnot : p ∉ positionsFrom f.effectNumber pos (f :: rest) := fun hm => by
          have := positionsFrom_ge f.effectNumber (f :: rest) pos p hm
          omega
        rw [List.count_eq_zero_of_not_mem hnot]
        rfl


theorem loadMissingEffects_effects :
    ∀ (fs : List NumberedFactory) (pos : Nat) (s : LoadState),
      ∃ ext, (loadMissingEffects pos fs s).effects = s.effects ++ ext ∧
        (∀ e ∈ ext, ∃ f ∈ fs, f.effectNumber ∉ s.loaded ∧ f.create = some e) ∧
        ∀ f ∈ fs, f.effectNumber ∉ s.loaded → ∀ e, f.create = some e → e ∈ ext := by
  intro fs
  induction fs with
  | nil => intro pos s; exact ⟨[], by simp [loadMissingEffects], by simp, by simp⟩
  | cons f rest ih =>
    intro pos s
    rw [loadMissingEffects_cons]
    by_cases hl : f.effectNumber ∈ s.loaded
    · rw [if_pos hl]
      obtain ⟨ext, he, hfrom, hall⟩ := ih (pos + 1) s
      refine ⟨ext, he, ?_, ?_⟩
      · intro e hm
        obtain ⟨g, hg, hx⟩ := hfrom e hm
        exact ⟨g, List.mem_cons_of_mem _ hg, hx⟩
      · intro g hg hgl e hc
        rcases List.mem_cons.1 hg with rfl | hg
        · exact absurd hl hgl
        · exact hall g hg hgl e hc
    · rw [if_neg hl]
      obtain ⟨ext, he, hfrom, hall⟩ := ih (pos + 1)
        { effects := s.effects ++
            ((f :: rest).filter fun g => decide (g.effectNumber = f.effectNumber)).filterMap
              (·.create)
          loaded := f.effectNumber :: s.loaded
          produced := s.produced ++ positionsFrom f.effectNumber pos (f :: rest) }
      refine ⟨((f :: rest).filter fun g => decide (g.effectNumber = f.effectNumber)).filterMap
          (·.create) ++ ext, ?_, ?_, ?_⟩
      · rw [he, List.append_assoc]
      · intro e hm
        rcases List.mem_append.1 hm with hm | hm
        · obtain ⟨g, hg, hc⟩ := List.mem_filterMap.1 hm
          obtain ⟨hgm, hgn⟩ := List.mem_filter.1 hg
          have hgn' : g.effectNumber = f.effectNumber := by simpa using hgn
          exact ⟨g, hgm, by rw [hgn']; exact hl, hc⟩
        · obtain ⟨g, hg, hgl, hc⟩ := hfrom e hm
          refine ⟨g, List.mem_cons_of_mem _ hg, fun hin => hgl ?_, hc⟩
          exact List.mem_cons_of_mem _ hin
      · intro g hg hgl e hc
        by_cases hgn : g.effectNumber = f.effectNumber
        · apply List.mem_append_left
          exact List.mem_filterMap.2 ⟨g, List.mem_filter.2 ⟨hg, by simpa using hgn⟩, hc⟩
        · apply List.mem_append_right
          rcases List.mem_cons.1 hg with rfl | hg
          · exact absurd rfl hgn
          · refine hall g hg ?_ e hc
            intro hin
            rcases List.mem_cons.1 hin with h | h
            · exact hgn h
            · exact hgl h

theorem loadedFromJSON_iff (jsonFactories : JSONFactories) (effectsArray : List JsonObject)
    (_vEffects : List LEDStripEffect) (n : Int) :
    n ∈ (loadJSONEffects jsonFactories effectsArray
        { effects := _vEffects, loaded := [], produced := [] }).loaded ↔
      ∃ r ∈ effectsArray, r.effectNr = n ∧ (effectFromJSON jsonFactories r).isSome = true := by
  rw [(loadJSONEffects_spec jsonFactories effectsArray _).2.2 n]
  simp

theorem load_produced_count (jsonFactories : JSONFactories)
    (defaultFactories : List NumberedFactory) (effectsArray : List JsonObject)
    (_vEffects : List LEDStripEffect) (p : Nat) (f : NumberedFactory)
    (hp : defaultFactories[p]? = some f) :
    (LoadJSONAndMissingEffects jsonFactories defaultFactories effectsArray
        _vEffects).produced.count p =
      if (∃ r ∈ effectsArray, r.effectNr = f.effectNumber ∧
          (effectFromJSON jsonFactories r).isSome = true) then 0 else 1 := by
  have hcount := (loadMissingEffects_count defaultFactories 0
    (loadJSONEffects jsonFactories effectsArray
      { effects := _vEffects, loaded := [], produced := [] })).1 p
  rw [Nat.zero_add, hp, (loadJSONEffects_spec jsonFactories effectsArray _).2.1] at hcount
  simp only [List.count_nil, Nat.zero_add] at hcount
  unfold LoadJSONAndMissingEffects
  rw [hcount]
  by_cases h : ∃ r ∈ effectsArray, r.effectNr = f.effectNumber ∧
      (effectFromJSON jsonFactories r).isSome = true
  · rw [if_pos h, if_pos ((loadedFromJSON_iff jsonFactories effectsArray _vEffects _).2 h)]
  · rw [if_neg h, if_neg (fun hm =>
      h ((loadedFromJSON_iff jsonFactories effectsArray _vEffects _).1 hm))]

/-- C17: after `LoadJSONAndMissingEffects`, every default factory whose
effect-type number occurs in no JSON record, and which produces an effect of
its number, has that effect in the resulting list, so the number appears at
least once; and no default factory whose number was loaded from the JSON
records (some record of that number produced an effect) is produced at all.
The default factories are assumed to produce an effect each. -/
theorem defaults_fill_missing_numbers (jsonFactories : JSONFactories)
    (defaultFactories : List NumberedFactory) (effectsArray : List JsonObject)
    (_vEffects : List LEDStripEffect)
    (hprod : ∀ f ∈ defaultFactories, ∃ e, f.create = some e ∧ e.effectNumber = f.effectNumber) :
    (∀ f ∈ defaultFactories, (∀ r ∈ effectsArray, r.effectNr ≠ f.effectNumber) →
      ∃ e ∈ (LoadJSONAndMissingEffects jsonFactories defaultFactories effectsArray
          _vEffects).effects,
        f.create = some e ∧ e.effectNumber = f.effectNumber) ∧
    ∀ (p : Nat) (f : NumberedFactory), defaultFactories[p]? = some f →
      (∃ r ∈ effectsArray, r.effectNr = f.effectNumber ∧
        (effectFromJSON jsonFactories r).isSome = true) →
      p ∉ (LoadJSONAndMissingEffects jsonFactories defaultFactories effectsArray
        _vEffects).produced := by
  constructor
  · intro f hf hnot
    obtain ⟨e, hc, hn⟩ := hprod f hf
    obtain ⟨ext, he, _, hall⟩ := loadMissingEffects_effects defaultFactories 0
      (loadJSONEffects jsonFactories effectsArray
        { effects := _vEffects, loaded := [], produced := [] })
    have hmiss : f.effectNumber ∉ (loadJSONEffects jsonFactories effectsArray
        { effects := _vEffects, loaded := [], produced := [] }).loaded := by
      rw [loadedFromJSON_iff]
      rintro ⟨r, hr, hrn, _⟩
      exact hnot r hr hrn
    refine ⟨e, ?_, hc, hn⟩
    unfold LoadJSONAndMissingEffects
    rw [he]
    exact List.mem_append_right _ (hall f hf hmiss e hc)
  · intro p f hp hloaded hmem
    have hcount := load_produced_count jsonFactories defaultFactories effectsArray _vEffects
      p f hp
    rw [if_pos hloaded] at hcount
    have hpos := List.count_pos_iff.2 hmem
    omega


theorem defaults_fill_missing_numbers_witness :
    ∃ e ∈ (LoadJSONAndMissingEffects
        (fun n => if n = 1 then
          some (fun o => some { effectNumber := o.effectNr, core := false, enabled := true,
                                settings := o.settings })
          else none)
        [{ effectNumber := 1,
           create := some { effectNumber := 1, core := true, enabled := true, settings := [10] } },
         { effectNumber := 3,
           create := some { effectNumber := 3, core := true, enabled := true, settings := [30] } }]
        [{ effectNr := 1, coreEffect := 1, settings := [5] }] []).effects,
      (some { effectNumber := 3, core := true, enabled := true, settings := [30] } :
          Option LEDStripEffect) = some e ∧ e.effectNumber = 3 :=
  (defaults_fill_missing_numbers
    (fun n => if n = 1 then
      some (fun o => some { effectNumber := o.effectNr, core := false, enabled := true,
                            settings := o.settings })
      else none)
    [{ effectNumber := 1,
       create := some { effectNumber := 1, core := true, enabled := true, settings := [10] } },
     { effectNumber := 3,
       create := some { effectNumber := 3, core := true, enabled := true, settings := [30] } }]
    [{ effectNr := 1, coreEffect := 1, settings := [5] }] []
    (by decide)).1
    { effectNumber := 3,
      create := some { effectNumber := 3, core := true, enabled := true, settings := [30] } }
    (by decide) (by decide)

/-- C18: in `LoadJSONAndMissingEffects` the default factory at each position
of the default list is handed to `ProduceAndLoadDefaultEffect` exactly once
when its effect-type number was not loaded from JSON (no JSON record of that
number produced an effect), and not at all otherwise; this holds wherever the
factories that share a number stand in the list, adjacent or not. -/
theorem default_factory_invoked_once (jsonFactories : JSONFactories)
    (defaultFactories : List NumberedFactory) (effectsArray : List JsonObject)
    (_vEffects : List LEDStripEffect) (p : Nat) (f : NumberedFactory)
    (hp : defaultFactories[p]? = some f) :
    ((∃ r ∈ effectsArray, r.effectNr = f.effectNumber ∧
        (effectFromJSON jsonFactories r).isSome = true) →
      (LoadJSONAndMissingEffects jsonFactories defaultFactories effectsArray
        _vEffects).produced.count p = 0) ∧
    ((¬ ∃ r ∈ effectsArray, r.effectNr = f.effectNumber ∧
        (effectFromJSON jsonFactories r).isSome = true) →
      (LoadJSONAndMissingEffects jsonFactories defaultFactories effectsArray
        _vEffects).produced.count p = 1) ∧
    ∀ q ∈ (LoadJSONAndMissingEffects jsonFactories defaultFactories effectsArray
        _vEffects).produced, q < defaultFactories.length := by
  have hcount := load_produced_count jsonFactories defaultFactories effectsArray _vEffects p f hp
  refine ⟨fun h => by rw [hcount, if_pos h], fun h => by rw [hcount, if_neg h], ?_⟩
  intro q hq
  by_contra hge
  have hc := (loadMissingEffects_count defaultFactories 0
    (loadJSONEffects jsonFactories effectsArray
      { effects := _vEffects, loaded := [], produced := [] })).1 q
  rw [Nat.zero_add, List.getElem?_eq_none (by omega),
    (loadJSONEffects_spec jsonFactories effectsArray _).2.1] at hc
  have hpos := List.count_pos_iff.2 hq
  unfold LoadJSONAndMissingEffects at hpos
  simp only [List.count_nil, Nat.add_zero] at hc
  omega

theorem default_factory_invoked_once_witness :
    (LoadJSONAndMissingEffects (fun _ => none)
        [{ effectNumber := 3,
           create := some { effectNumber := 3, core := true, enabled := true, settings := [30] } },
         { effectNumber := 4,
           create := some { effectNumber := 4, core := true, enabled := true, settings := [40] } },
         { effectNumber := 3,
           create := some { effectNumber := 3, core := true, enabled := true, settings := [31] } }]
        [] []).produced.count 2 = 1 :=
  (default_factory_invoked_once (fun _ => none)
    [{ effectNumber := 3,
       create := some { effectNumber := 3, core := true, enabled := true, settings := [30] } },
     { effectNumber := 4,
       create := some { effectNumber := 4, core := true, enabled := true, settings := [40] } },
     { effectNumber := 3,
       create := some { effectNumber := 3, core := true, enabled := true, settings := [31] } }]
    [] [] 2
    { effectNumber := 3,
      create := some { effectNumber := 3, core := true, enabled := true, settings := [31] } }
    rfl).2.1 (by decide)


theorem loadJSONEffects_append (jsonFactories : JSONFactories) :
    ∀ (a b : List JsonObject) (s : LoadState),
      loadJSONEffects jsonFactories (a ++ b) s =
        loadJSONEffects jsonFactories b (loadJSONEffects jsonFactories a s) := by
  intro a
  induction a with
  | nil => intro b s; rfl
  | cons o rest ih =>
    intro b s
    rw [List.cons_append, loadJSONEffects_cons, loadJSONEffects_cons]
    cases effectFromJSON jsonFactories o with
    | none => exact ih b s
    | some e => exact ih b _

theorem effectFromJSON_eq_some (jsonFactories : JSONFactories) (o : JsonObject)
    (e : LEDStripEffect) :
    effectFromJSON jsonFactories o = some e ↔
      ∃ factory pEffect, jsonFactories o.effectNr = some factory ∧
        factory o = some pEffect ∧
        e = if o.coreEffect ≠ 0 then pEffect.MarkAsCoreEffect else pEffect := by
  unfold effectFromJSON
  cases h : jsonFactories o.effectNr with
  | none => simp
  | some factory =>
    cases h2 : factory o with
    | none => simp [h2]
    | some pEffect =>
      simp only [h2, Option.map_some', Option.some.injEq, exists_and_left, exists_eq_left']
      constructor
      · intro he
        rw [← he]
        by_cases hcore : o.coreEffect = 0 <;> simp [hcore]
      · intro he
        rw [he]
        by_cases hcore : o.coreEffect = 0 <;> simp [hcore]

/-- C19: in `LoadJSONAndMissingEffects` a JSON record whose effect-type
number has no JSON factory is skipped: the outcome is the one obtained
without the record.  The effects made from the other records stand in the
list in their JSON order, after the effects already there and ahead of every
effect a default factory produced; and a record yields an effect exactly when
its number has a factory that returns one, the effect being marked core
exactly when the record's core field is not 0. -/
theorem json_record_without_factory_skipped (jsonFactories : JSONFactories)
    (defaultFactories : List NumberedFactory) (before after : List JsonObject)
    (record : JsonObject) (_vEffects : List LEDStripEffect)
    (hno : jsonFactories record.effectNr = none) :
    LoadJSONAndMissingEffects jsonFactories defaultFactories (before ++ record :: after)
        _vEffects =
      LoadJSONAndMissingEffects jsonFactories defaultFactories (before ++ after) _vEffects ∧
    (∃ ext,
      (LoadJSONAndMissingEffects jsonFactories defaultFactories (before ++ record :: after)
          _vEffects).effects =
        _vEffects ++ (before ++ after).filterMap (effectFromJSON jsonFactories) ++ ext ∧
      ∀ e ∈ ext, ∃ f ∈ defaultFactories, f.create = some e) ∧
    ∀ (o : JsonObject) (e : LEDStripEffect),
      effectFromJSON jsonFactories o = some e ↔
        ∃ factory pEffect, jsonFactories o.effectNr = some factory ∧
          factory o = some pEffect ∧
          e = if o.coreEffect ≠ 0 then pEffect.MarkAsCoreEffect else pEffect := by
  have hnone : effectFromJSON jsonFactories record = none := by
    unfold effectFromJSON
    rw [hno]
  have hskip : ∀ s, loadJSONEffects jsonFactories (before ++ record :: after) s =
      loadJSONEffects jsonFactories (before ++ after) s := by
    intro s
    rw [loadJSONEffects_append, loadJSONEffects_cons, hnone, ← loadJSONEffects_append]
  have heq : LoadJSONAndMissingEffects jsonFactories defaultFactories
      (before ++ record :: after) _vEffects =
      LoadJSONAndMissingEffects jsonFactories defaultFactories (before ++ after) _vEffects := by
    unfold LoadJSONAndMissingEffects
    rw [hskip]
  refine ⟨heq, ?_, effectFromJSON_eq_some jsonFactories⟩
  obtain ⟨ext, he, hfrom, _⟩ := loadMissingEffects_effects defaultFactories 0
    (loadJSONEffects jsonFactories (before ++ after)
      { effects := _vEffects, loaded := [], produced := [] })
  refine ⟨ext, ?_, fun e hm => ?_⟩
  · rw [heq]
    unfold LoadJSONAndMissingEffects
    rw [he, (loadJSONEffects_spec jsonFactories (before ++ after) _).1]
  · obtain ⟨f, hf, _, hc⟩ := hfrom e hm
    exact ⟨f, hf, hc⟩

theorem json_record_without_factory_skipped_witness :
    LoadJSONAndMissingEffects
        (fun n => if n = 1 then
          some (fun o => some { effectNumber := o.effectNr, core := false, enabled := true,
                                settings := o.settings })
          else none)
        [{ effectNumber := 3,
           create := some { effectNumber := 3, core := true, enabled := true, settings := [30] } }]
        ([{ effectNr := 1, coreEffect := 1, settings := [5] }] ++
          { effectNr := 7, coreEffect := 0, settings := [6] } ::
            [{ effectNr := 1, coreEffect := 0, settings := [8] }]) [] =
      LoadJSONAndMissingEffects
        (fun n => if n = 1 then
          some (fun o => some { effectNumber := o.effectNr, core := false, enabled := true,
                                settings := o.settings })
          else none)
        [{ effectNumber := 3,
           create := some { effectNumber := 3, core := true, enabled := true, settings := [30] } }]
        ([{ effectNr := 1, coreEffect := 1, settings := [5] }] ++
          [{ effectNr := 1, coreEffect := 0, settings := [8] }]) [] :=
  (json_record_without_factory_skipped
    (fun n => if n = 1 then
      some (fun o => some { effectNumber := o.effectNr, core := false, enabled := true,
                            settings := o.settings })
      else none)
    [{ effectNumber := 3,
       create := some { effectNumber := 3, core := true, enabled := true, settings := [30] } }]
    [{ effectNr := 1, coreEffect := 1, settings := [5] }]
    [{ effectNr := 1, coreEffect := 0, settings := [8] }]
    { effectNr := 7, coreEffect := 0, settings := [6] } [] rfl).1

/-- C20: `CopyEffect(index)` leaves the effect list as it is in every case.
It returns no effect when the index is not valid, when the type of the source
effect has no JSON factory, when serializing the source fails, and when the
factory yields nothing; otherwise it returns the effect the JSON factory
builds from the serialization of the source, with the enabled flag cleared. -/
theorem copy_effect_result (jsonFactories : JSONFactories)
    (serialize : LEDStripEffect → Option JsonObject) (_vEffects : List LEDStripEffect)
    (index : Nat) :
    (CopyEffect jsonFactories serialize _vEffects index).2 = _vEffects ∧
    (_vEffects.length ≤ index → (CopyEffect jsonFactories serialize _vEffects index).1 = none) ∧
    ∀ sourceEffect, _vEffects[index]? = some sourceEffect →
      (jsonFactories sourceEffect.effectNumber = none →
        (CopyEffect jsonFactories serialize _vEffects index).1 = none) ∧
      (serialize sourceEffect = none →
        (CopyEffect jsonFactories serialize _vEffects index).1 = none) ∧
      ∀ factory jsonObject, jsonFactories sourceEffect.effectNumber = some factory →
        serialize sourceEffect = some jsonObject →
        (factory jsonObject = none →
          (CopyEffect jsonFactories serialize _vEffects index).1 = none) ∧
        ∀ copiedEffect, factory jsonObject = some copiedEffect →
          (CopyEffect jsonFactories serialize _vEffects index).1 =
            some { copiedEffect with enabled := false } := by
  refine ⟨?_, ?_, ?_⟩
  · unfold CopyEffect
    cases _vEffects[index]? with
    | none => rfl
    | some src =>
      dsimp only
      cases jsonFactories src.effectNumber with
      | none => rfl
      | some factory =>
        dsimp only
        cases serialize src with
        | none => rfl
        | some obj =>
          dsimp only
          cases factory obj <;> rfl
  · intro h
    unfold CopyEffect
    rw [List.getElem?_eq_none h]
  · intro src hsrc
    refine ⟨?_, ?_, ?_⟩
    · intro h
      unfold CopyEffect
      simp only [hsrc, h]
    · intro h
      unfold CopyEffect
      simp only [hsrc, h]
      cases jsonFactories src.effectNumber <;> rfl
    · intro factory obj hf hs
      constructor
      · intro h
        unfold CopyEffect
        simp only [hsrc, hf, hs, h]
      · intro copied h
        unfold CopyEffect
        simp only [hsrc, hf, hs, h]
        rfl

/-! ### Initialising the effects -/

theorem Init_cons (effectInit : LEDStripEffect → Bool) (index : Nat) (e : LEDStripEffect)
    (rest : List LEDStripEffect) :
    EffectManager.Init effectInit index (e :: rest)
      = if effectInit e = false then (false, [index])
        else ((EffectManager.Init effectInit (index + 1) rest).1,
              index :: (EffectManager.Init effectInit (index + 1) rest).2) := rfl

theorem Init_all (effectInit : LEDStripEffect → Bool) :
    ∀ (effects : List LEDStripEffect) (index : Nat),
      (∀ e ∈ effects, effectInit e = true) →
      EffectManager.Init effectInit index effects = (true, List.range' index effects.length)
  | [], _, _ => rfl
  | e :: rest, index, h => by
    have he : effectInit e = true := h e (List.mem_cons_self _ _)
    have hrest := Init_all effectInit rest (index + 1)
      (fun x hx => h x (List.mem_cons_of_mem _ hx))
    simp only [EffectManager.Init, he, hrest, List.length_cons, List.range'_succ]
    simp

theorem Init_fail (effectInit : LEDStripEffect → Bool) (bad : LEDStripEffect)
    (post : List LEDStripEffect) (hbad : effectInit bad = false) :
    ∀ (pre : List LEDStripEffect) (index : Nat),
      (∀ e ∈ pre, effectInit e = true) →
      EffectManager.Init effectInit index (pre ++ bad :: post)
        = (false, List.range' index (pre.length + 1))
  | [], index, _ => by
    simp [EffectManager.Init, hbad]
  | e :: rest, index, h => by
    have he : effectInit e = true := h e (List.mem_cons_self _ _)
    have hrest := Init_fail effectInit bad post hbad rest (index + 1)
      (fun x hx => h x (List.mem_cons_of_mem _ hx))
    rw [List.cons_append, Init_cons, he, hrest]
    simp [List.range'_succ]

theorem Init_true_iff (effectInit : LEDStripEffect → Bool) :
    ∀ (effects : List LEDStripEffect) (index : Nat),
      (EffectManager.Init effectInit index effects).1 = true
        ↔ ∀ e ∈ effects, effectInit e = true
  | [], _ => by simp [EffectManager.Init]
  | e :: rest, index => by
    by_cases he : effectInit e = true
    · have hrest := Init_true_iff effectInit rest (index + 1)
      simp only [EffectManager.Init, he, List.mem_cons, forall_eq_or_imp, true_and]
      simpa using hrest
    · have he2 : effectInit e = false := by simpa using he
      simp [EffectManager.Init, he2]

/-- C21: `EffectManager::Init` returns true exactly when every effect of the
list initialises; when an effect fails after effects that all initialise,
`Init` returns false having called `Init` on the effects up to and including
the failing one and on no later one; `InitEffectsManager` throws, with the
message "Could not initialize effect manager", exactly when `Init` returns
false. -/
theorem init_stops_at_first_failure (effectInit : LEDStripEffect → Bool)
    (effects : List LEDStripEffect) :
    ((EffectManager.Init effectInit 0 effects).1 = true
        ↔ ∀ e ∈ effects, effectInit e = true) ∧
    (∀ (pre post : List LEDStripEffect) (bad : LEDStripEffect),
        effects = pre ++ bad :: post → (∀ e ∈ pre, effectInit e = true) →
        effectInit bad = false →
        EffectManager.Init effectInit 0 effects = (false, List.range (pre.length + 1))) ∧
    ((∀ e ∈ effects, effectInit e = true) →
        EffectManager.Init effectInit 0 effects = (true, List.range effects.length)) ∧
    (InitEffectsManager effectInit effects
        = Except.error "Could not initialize effect manager"
        ↔ (EffectManager.Init effectInit 0 effects).1 = false) ∧
    ((∃ positions, InitEffectsManager effectInit effects = Except.ok positions)
        ↔ (EffectManager.Init effectInit 0 effects).1 = true) := by
  refine ⟨Init_true_iff effectInit effects 0, ?_, ?_, ?_, ?_⟩
  · intro pre post bad heq hpre hbad
    rw [heq, Init_fail effectInit bad post hbad pre 0 hpre, List.range_eq_range']
  · intro h
    rw [Init_all effectInit effects 0 h, List.range_eq_range']
  · unfold InitEffectsManager
    cases h : (EffectManager.Init effectInit 0 effects).1 <;> simp [h]
  · unfold InitEffectsManager
    cases h : (EffectManager.Init effectInit 0 effects).1 <;> simp [h]

/-- Three effects of which the second fails: the third is not initialised
and `InitEffectsManager` throws. -/
theorem init_stops_at_first_failure_witness :
    EffectManager.Init (fun e => e.enabled) 0
        [⟨1, false, true, []⟩, ⟨2, false, false, []⟩, ⟨3, false, true, []⟩]
      = (false, List.range 2) ∧
    InitEffectsManager (fun e => e.enabled)
        [⟨1, false, true, []⟩, ⟨2, false, false, []⟩, ⟨3, false, true, []⟩]
      = Except.error "Could not initialize effect manager" :=
  ⟨(init_stops_at_first_failure (fun e => e.enabled)
      [⟨1, false, true, []⟩, ⟨2, false, false, []⟩, ⟨3, false, true, []⟩]).2.1
      [⟨1, false, true, []⟩] [⟨3, false, true, []⟩] ⟨2, false, false, []⟩ rfl
      (by decide) rfl,
   (init_stops_at_first_failure (fun e => e.enabled)
      [⟨1, false, true, []⟩, ⟨2, false, false, []⟩, ⟨3, false, true, []⟩]).2.2.2.1.mpr rfl⟩

/-! ### The handlers of the web server -/

theorem hasParam_eq_true_iff (pRequest : AsyncWebServerRequest) (name : String) (post : Bool) :
    pRequest.hasParam name post = true ↔ ∃ p, pRequest.getParam name post = some p := by
  unfold AsyncWebServerRequest.hasParam
  exact Option.isSome_iff_exists

theorem hasParam_eq_false_iff (pRequest : AsyncWebServerRequest) (name : String) (post : Bool) :
    pRequest.hasParam name post = false ↔ pRequest.getParam name post = none := by
  unfold AsyncWebServerRequest.hasParam
  cases pRequest.getParam name post <;> simp

/-- C22: when the `effectIndex` of a delete request is the position of a core
effect of the list, the handler answers Bad Request with "Can't delete core
effect", does not call `EffectManager::DeleteEffect` and leaves the effect
list as it is; a request without an `effectIndex` parameter is answered OK,
without a call of `EffectManager::DeleteEffect` and with the list as it
is. -/
theorem delete_core_effect_rejected (strtol : String → Int) (effects : List LEDStripEffect)
    (pRequest : AsyncWebServerRequest) (hlen : effects.length < 2 ^ 32) :
    (∀ (p : AsyncWebParameter) (i : Nat) (e : LEDStripEffect),
        pRequest.getParam "effectIndex" true = some p → strtol p.value = (i : Int) →
        effects[i]? = some e → e.core = true →
        CWebServer.DeleteEffect strtol effects pRequest
          = (Response.badRequest "Can't delete core effect", none) ∧
        effectsAfterDelete strtol effects pRequest = effects) ∧
    (pRequest.hasParam "effectIndex" true = false →
        CWebServer.DeleteEffect strtol effects pRequest = (Response.ok, none) ∧
        effectsAfterDelete strtol effects pRequest = effects) := by
  constructor
  · intro p i e hp hi he hcore
    have hilt : i < effects.length := (List.getElem?_eq_some_iff.mp he).1
    have hmod : ((i : Int) % 2 ^ 32).toNat = i := by
      have h1 : ((i : Int) % 2 ^ 32) = ((i % 2 ^ 32 : Nat) : Int) := by norm_cast
      rw [h1, Int.toNat_natCast]
      exact Nat.mod_eq_of_lt (by omega)
    have hne : ((i : Int) = -1) = False := by
      apply propext; constructor
      · intro h; omega
      · intro h; exact h.elim
    have hmain : CWebServer.DeleteEffect strtol effects pRequest
        = (Response.badRequest "Can't delete core effect", none) := by
      unfold CWebServer.DeleteEffect GetEffectIndexFromParam
      simp only [hp, hi, hne, if_false, hmod, he, Option.map_some', hcore]
      simp [hilt]
    refine ⟨hmain, ?_⟩
    unfold effectsAfterDelete
    rw [hmain]
  · intro hno
    have hnone := (hasParam_eq_false_iff pRequest "effectIndex" true).mp hno
    have hmain : CWebServer.DeleteEffect strtol effects pRequest = (Response.ok, none) := by
      unfold CWebServer.DeleteEffect GetEffectIndexFromParam
      simp [hnone]
    refine ⟨hmain, ?_⟩
    unfold effectsAfterDelete
    rw [hmain]

/-- A request to delete the core effect at position 1 of two effects. -/
theorem delete_core_effect_rejected_witness :
    CWebServer.DeleteEffect (fun s => (digitsValue s.toList : Int))
        [⟨1, false, true, []⟩, ⟨2, true, true, []⟩] ⟨[⟨"effectIndex", "1", true⟩]⟩
      = (Response.badRequest "Can't delete core effect", none) ∧
    effectsAfterDelete (fun s => (digitsValue s.toList : Int))
        [⟨1, false, true, []⟩, ⟨2, true, true, []⟩] ⟨[⟨"effectIndex", "1", true⟩]⟩
      = [⟨1, false, true, []⟩, ⟨2, true, true, []⟩] :=
  (delete_core_effect_rejected (fun s => (digitsValue s.toList : Int))
      [⟨1, false, true, []⟩, ⟨2, true, true, []⟩] ⟨[⟨"effectIndex", "1", true⟩]⟩
      (by decide)).1
    ⟨"effectIndex", "1", true⟩ 1 ⟨2, true, true, []⟩ (by decide) (by decide) (by decide) rfl

theorem findKnownSetting_named (pRequest : AsyncWebServerRequest) (paramName : String)
    (hp : paramName ≠ "") :
    ∀ (names : List String),
      findKnownSetting pRequest names paramName
        = if ∃ n ∈ names, pRequest.hasParam n true = true then none else some paramName
  | [] => by simp [findKnownSetting]
  | n :: rest => by
    have ih := findKnownSetting_named pRequest paramName hp rest
    by_cases hn : pRequest.hasParam n true = true
    · simp [findKnownSetting, hn, hp]
    · have hn2 : pRequest.hasParam n true = false := by simpa using hn
      simp only [findKnownSetting, hn2, Bool.false_eq_true, if_false, ih, List.mem_cons,
        exists_eq_or_imp, false_or]

theorem findKnownSetting_none_known (pRequest : AsyncWebServerRequest) (paramName : String) :
    ∀ (names : List String), (∀ n ∈ names, pRequest.hasParam n true = false) →
      findKnownSetting pRequest names paramName = some paramName
  | [], _ => rfl
  | n :: rest, h => by
    have hn : pRequest.hasParam n true = false := h n (List.mem_cons_self _ _)
    have ih := findKnownSetting_none_known pRequest paramName rest
      (fun x hx => h x (List.mem_cons_of_mem _ hx))
    simp only [findKnownSetting, hn, Bool.false_eq_true, if_false, ih]

theorem findKnownSetting_first (pRequest : AsyncWebServerRequest) (a : String)
    (post : List String) (ha : pRequest.hasParam a true = true) :
    ∀ (pre : List String), (∀ n ∈ pre, pRequest.hasParam n true = false) →
      findKnownSetting pRequest (pre ++ a :: post) ""
        = findKnownSetting pRequest post a
  | [], _ => by simp [findKnownSetting, ha]
  | n :: rest, h => by
    have hn : pRequest.hasParam n true = false := h n (List.mem_cons_self _ _)
    have ih := findKnownSetting_first pRequest a post ha rest
      (fun x hx => h x (List.mem_cons_of_mem _ hx))
    rw [List.cons_append]
    simp only [findKnownSetting, hn, Bool.false_eq_true, if_false, ih]

theorem not_hasParam_of_first (pRequest : AsyncWebServerRequest) :
    ∀ (names : List String), (∃ n ∈ names, pRequest.hasParam n true = true) →
      ∃ pre a post, names = pre ++ a :: post ∧ pRequest.hasParam a true = true ∧
        ∀ n ∈ pre, pRequest.hasParam n true = false
  | [], h => by simp at h
  | n :: rest, h => by
    by_cases hn : pRequest.hasParam n true = true
    · exact ⟨[], n, rest, rfl, hn, by simp⟩
    · have hn2 : pRequest.hasParam n true = false := by simpa using hn
      have h2 : ∃ m ∈ rest, pRequest.hasParam m true = true := by
        obtain ⟨m, hm, hmt⟩ := h
        rcases List.mem_cons.mp hm with rfl | hm2
        · exact absurd hmt hn
        · exact ⟨m, hm2, hmt⟩
      obtain ⟨pre, a, post, heq, ha, hpre⟩ := not_hasParam_of_first pRequest rest h2
      refine ⟨n :: pre, a, post, by rw [heq, List.cons_append], ha, ?_⟩
      intro x hx
      rcases List.mem_cons.mp hx with rfl | hx2
      · exact hn2
      · exact hpre x hx2

/-- C23: with setting names that are not empty, a request that holds the
names of two entries of the setting specs is answered Bad Request with
"Malformed request" and `SetSettingsIfPresent` is not called; a request that
holds none of the names is answered OK and `SetSettingsIfPresent` is not
called. -/
theorem multiple_settings_rejected (settingSpecNames : List String)
    (settingValidators : String → Option ValueValidator) (pRequest : AsyncWebServerRequest)
    (hnames : ∀ n ∈ settingSpecNames, n ≠ "") :
    (∀ (pre mid post : List String) (a b : String),
        settingSpecNames = pre ++ a :: (mid ++ b :: post) →
        pRequest.hasParam a true = true → pRequest.hasParam b true = true →
        ValidateAndSetSetting settingSpecNames settingValidators pRequest
          = (Response.badRequest "Malformed request", false)) ∧
    ((∀ n ∈ settingSpecNames, pRequest.hasParam n true = false) →
        ValidateAndSetSetting settingSpecNames settingValidators pRequest
          = (Response.ok, false)) := by
  constructor
  · intro pre mid post a b heq ha hb
    have hex : ∃ n ∈ settingSpecNames, pRequest.hasParam n true = true :=
      ⟨a, by rw [heq]; simp, ha⟩
    obtain ⟨pre2, c, post2, heq2, hc, hpre2⟩ := not_hasParam_of_first pRequest _ hex
    have hcne : c ≠ "" := hnames c (by rw [heq2]; simp)
    -- a second known setting follows the first one
    have hsecond : ∃ n ∈ post2, pRequest.hasParam n true = true := by
      have hsplit : pre2 ++ c :: post2 = pre ++ a :: (mid ++ b :: post) := by
        rw [← heq2, heq]
      rcases List.append_eq_append_iff.mp hsplit with ⟨l, hl1, hl2⟩ | ⟨l, hl1, hl2⟩
      · -- pre = pre2 ++ l
        cases l with
        | nil =>
          simp only [List.nil_append] at hl2
          injection hl2 with h1 h2
          exact ⟨b, by rw [h2]; simp, hb⟩
        | cons x l2 =>
          rw [List.cons_append] at hl2
          injection hl2 with h1 h2
          exact ⟨b, by rw [h2]; simp, hb⟩
      · -- pre2 = pre ++ l
        cases l with
        | nil =>
          simp only [List.nil_append] at hl2
          injection hl2 with h1 h2
          exact ⟨b, by rw [← h2]; simp, hb⟩
        | cons x l2 =>
          rw [List.cons_append] at hl2
          injection hl2 with h1 h2
          have hmem : a ∈ pre2 := by rw [hl1, ← h1]; simp
          have := hpre2 a hmem
          rw [ha] at this
          exact absurd this (by decide)
    unfold ValidateAndSetSetting
    rw [heq2, findKnownSetting_first pRequest c post2 hc pre2 hpre2,
      findKnownSetting_named pRequest c hcne post2, if_pos hsecond]
  · intro hnone
    unfold ValidateAndSetSetting
    rw [findKnownSetting_none_known pRequest "" settingSpecNames hnone]
    simp

/-- The hostname and the location in one request. -/
theorem multiple_settings_rejected_witness :
    ValidateAndSetSetting ["effectInterval", "hostname", "location"] (fun _ => none)
        ⟨[⟨"location", "here", true⟩, ⟨"hostname", "strip", true⟩]⟩
      = (Response.badRequest "Malformed request", false) :=
  (multiple_settings_rejected ["effectInterval", "hostname", "location"] (fun _ => none)
      ⟨[⟨"location", "here", true⟩, ⟨"hostname", "strip", true⟩]⟩ (by decide)).1
    ["effectInterval"] [] [] "hostname" "location" rfl (by decide) (by decide)

/-- C27: with exactly one entry of the setting specs named in the request,
under a name that is not empty, `SetSettingsIfPresent` is called and the
response is OK if and only if the map of validators has no entry for the
name or its validator accepts the value of the parameter; when the
validator rejects the value the response is Bad Request with the
validator's message and `SetSettingsIfPresent` is not called. -/
theorem single_setting_validated (settingSpecNames pre post : List String) (a : String)
    (settingValidators : String → Option ValueValidator) (pRequest : AsyncWebServerRequest)
    (p : AsyncWebParameter)
    (hsplit : settingSpecNames = pre ++ a :: post) (ha : a ≠ "")
    (hp : pRequest.getParam a true = some p)
    (hpre : ∀ n ∈ pre, pRequest.hasParam n true = false)
    (hpost : ∀ n ∈ post, pRequest.hasParam n true = false) :
    (ValidateAndSetSetting settingSpecNames settingValidators pRequest = (Response.ok, true)
        ↔ settingValidators a = none
          ∨ ∃ validator, settingValidators a = some validator ∧ (validator p.value).1 = true) ∧
    (∀ validator, settingValidators a = some validator → (validator p.value).1 = false →
        ValidateAndSetSetting settingSpecNames settingValidators pRequest
          = (Response.badRequest (validator p.value).2, false)) := by
  have hhas : pRequest.hasParam a true = true :=
    (hasParam_eq_true_iff pRequest a true).mpr ⟨p, hp⟩
  have hnot : ¬ ∃ n ∈ post, pRequest.hasParam n true = true := by
    rintro ⟨n, hn, hnt⟩
    rw [hpost n hn] at hnt
    exact absurd hnt (by decide)
  have hfind : findKnownSetting pRequest settingSpecNames "" = some a := by
    rw [hsplit, findKnownSetting_first pRequest a post hhas pre hpre,
      findKnownSetting_named pRequest a ha post, if_neg hnot]
  unfold ValidateAndSetSetting
  rw [hfind]
  simp only [if_neg ha, hp, Option.map_some', Option.getD_some]
  cases hv : settingValidators a with
  | none => simp
  | some validator =>
    cases hr : (validator p.value).1 <;> simp [hr]

/-- A brightness that the validator of the brightness rejects. -/
theorem single_setting_validated_witness :
    ValidateAndSetSetting ["effectInterval", "brightness", "location"]
        (fun n => if n = "brightness" then
          some (fun v => (decide (v.length ≤ 3), "brightness is out of range")) else none)
        ⟨[⟨"brightness", "100000", true⟩, ⟨"other", "1", true⟩]⟩
      = (Response.badRequest "brightness is out of range", false) :=
  (single_setting_validated ["effectInterval", "brightness", "location"] ["effectInterval"]
      ["location"] "brightness"
      (fun n => if n = "brightness" then
        some (fun v => (decide (v.length ≤ 3), "brightness is out of range")) else none)
      ⟨[⟨"brightness", "100000", true⟩, ⟨"other", "1", true⟩]⟩
      ⟨"brightness", "100000", true⟩ rfl (by decide) (by decide) (by decide) (by decide)).2
    (fun v => (decide (v.length ≤ 3), "brightness is out of range")) rfl (by decide)

/-! ### The current-effect index file -/

theorem digitsValue_foldl (l : List Char) :
    ∀ (a : Nat), l.foldl (fun acc c => acc * 10 + (c.toNat - 48)) a
      = a * 10 ^ l.length + digitsValue l := by
  induction l with
  | nil => intro a; simp [digitsValue]
  | cons c t ih =>
    intro a
    unfold digitsValue
    rw [List.foldl_cons, List.foldl_cons, ih, ih (0 * 10 + (c.toNat - 48)), List.length_cons]
    ring

theorem digitsValue_cons (c : Char) (t : List Char) :
    digitsValue (c :: t) = (c.toNat - 48) * 10 ^ t.length + digitsValue t := by
  have h := digitsValue_foldl t (0 * 10 + (c.toNat - 48))
  unfold digitsValue at h ⊢
  rw [List.foldl_cons, h]
  simp

theorem digitChar_spec (m : Nat) (hm : m < 10) :
    (Nat.digitChar m).isDigit = true ∧ (Nat.digitChar m).toNat - 48 = m := by
  interval_cases m <;> exact ⟨by decide, by decide⟩

theorem isDigit_not_sign (c : Char) (hc : c.isDigit = true) :
    isspace c = false ∧ c ≠ '-' ∧ c ≠ '+' := by
  have h1 : 48 ≤ c.val.toNat ∧ c.val.toNat ≤ 57 := by
    simpa [Char.isDigit, UInt32.le_def, Nat.le_antisymm_iff] using hc
  have hne : ∀ d : Char, d.val.toNat < 48 → c ≠ d := by
    intro d hd heq
    rw [heq] at h1
    omega
  refine ⟨?_, hne '-' (by decide), hne '+' (by decide)⟩
  unfold isspace
  simp [hne ' ' (by decide), hne '\t' (by decide), hne '\n' (by decide),
    hne '\x0b' (by decide), hne '\x0c' (by decide), hne '\r' (by decide)]

theorem toDigitsCore_spec :
    ∀ (fuel n : Nat) (acc : List Char), n < fuel → (∀ c ∈ acc, c.isDigit = true) →
      (∀ c ∈ Nat.toDigitsCore 10 fuel n acc, c.isDigit = true) ∧
      digitsValue (Nat.toDigitsCore 10 fuel n acc) = n * 10 ^ acc.length + digitsValue acc ∧
      Nat.toDigitsCore 10 fuel n acc ≠ []
  | 0, _, _, h, _ => absurd h (Nat.not_lt_zero _)
  | fuel + 1, n, acc, h, hacc => by
    obtain ⟨hd1, hd2⟩ := digitChar_spec (n % 10) (Nat.mod_lt _ (by decide))
    have hacc2 : ∀ c ∈ Nat.digitChar (n % 10) :: acc, c.isDigit = true := by
      intro c hc
      rcases List.mem_cons.mp hc with rfl | hc2
      · exact hd1
      · exact hacc c hc2
    have hval : digitsValue (Nat.digitChar (n % 10) :: acc)
        = (n % 10) * 10 ^ acc.length + digitsValue acc := by
      rw [digitsValue_cons, hd2]
    unfold Nat.toDigitsCore
    by_cases h0 : n / 10 = 0
    · simp only [h0, if_true]
      refine ⟨hacc2, ?_, by simp⟩
      rw [hval]
      have : n % 10 = n := by omega
      rw [this]
    · simp only [h0, if_false]
      have hlt : n / 10 < fuel := by omega
      obtain ⟨i1, i2, i3⟩ := toDigitsCore_spec fuel (n / 10) _ hlt hacc2
      refine ⟨i1, ?_, i3⟩
      rw [i2, hval, List.length_cons, pow_succ]
      have hn : n = 10 * (n / 10) + n % 10 := (Nat.div_add_mod n 10).symm
      generalize n / 10 = q at hn ⊢
      generalize n % 10 = r at hn ⊢
      rw [hn]
      ring

theorem strtoul_of_digits (l : List Char) (hl : ∀ c ∈ l, c.isDigit = true) (hne : l ≠ [])
    (hv : digitsValue l < 2 ^ 32) : strtoul l = digitsValue l := by
  cases l with
  | nil => exact absurd rfl hne
  | cons c t =>
    obtain ⟨hs, hm, hp⟩ := isDigit_not_sign c (hl c (List.mem_cons_self _ _))
    have htake : List.takeWhile Char.isDigit (c :: t) = c :: t :=
      List.takeWhile_eq_self_iff.mpr hl
    unfold strtoul
    simp only [List.dropWhile_cons, hs, Bool.false_eq_true, if_false, hm, hp, htake]
    rw [if_neg (by omega)]

theorem strtoul_toDigits (n : Nat) (hn : n < 2 ^ 32) : strtoul (Nat.toDigits 10 n) = n := by
  obtain ⟨h1, h2, h3⟩ := toDigitsCore_spec (n + 1) n [] (Nat.lt_succ_self n) (by simp)
  have hval : digitsValue (Nat.toDigits 10 n) = n := by
    unfold Nat.toDigits
    rw [h2]
    simp [digitsValue]
  rw [strtoul_of_digits (Nat.toDigits 10 n) h1 h3 (by rw [hval]; exact hn), hval]

theorem toDigits_ne_nil (n : Nat) : Nat.toDigits 10 n ≠ [] :=
  (toDigitsCore_spec (n + 1) n [] (Nat.lt_succ_self n) (by simp)).2.2

/-- C24: when `WriteCurrentEffectIndexFile` writes the index `n` in full
(the file opens and takes all the bytes), the file holds the decimal text of
`n` and nothing of what it held before, and `ReadCurrentEffectIndex` then
returns true with `n` in its argument; on a missing file and on an empty
file `ReadCurrentEffectIndex` returns false and leaves its argument as it
was. -/
theorem index_file_round_trip (n room index : Nat) (old : IndexFile) (hn : n < 2 ^ 32)
    (hroom : (Nat.toDigits 10 n).length ≤ room) :
    WriteCurrentEffectIndexFile true room n old = some (Nat.toDigits 10 n) ∧
    ReadCurrentEffectIndex (WriteCurrentEffectIndexFile true room n old) index = (true, n) ∧
    ReadCurrentEffectIndex none index = (false, index) ∧
    ReadCurrentEffectIndex (some []) index = (false, index) := by
  have hne := toDigits_ne_nil n
  have hpos : 0 < (Nat.toDigits 10 n).length := List.length_pos.mpr hne
  have hw : WriteCurrentEffectIndexFile true room n old = some (Nat.toDigits 10 n) := by
    unfold WriteCurrentEffectIndexFile
    have hmin : min room (Nat.toDigits 10 n).length = (Nat.toDigits 10 n).length :=
      Nat.min_eq_right hroom
    simp only [Bool.not_true, Bool.false_eq_true, if_false, hmin]
    rw [if_neg (by omega), List.take_length]
  refine ⟨hw, ?_, rfl, rfl⟩
  rw [hw]
  unfold ReadCurrentEffectIndex
  simp only [hpos, if_true]
  have hemp : (Nat.toDigits 10 n).isEmpty = false := by
    cases h : Nat.toDigits 10 n with
    | nil => exact absurd h hne
    | cons c t => rfl
  simp [hemp, strtoul_toDigits n hn]

/-- The index 1234 written over a file that held 99999. -/
theorem index_file_round_trip_witness :
    WriteCurrentEffectIndexFile true 10 1234 (some ['9', '9', '9', '9', '9'])
      = some ['1', '2', '3', '4'] ∧
    ReadCurrentEffectIndex
        (WriteCurrentEffectIndexFile true 10 1234 (some ['9', '9', '9', '9', '9'])) 7
      = (true, 1234) :=
  ⟨(index_file_round_trip 1234 10 7 (some ['9', '9', '9', '9', '9']) (by decide)
      (by decide)).1,
   (index_file_round_trip 1234 10 7 (some ['9', '9', '9', '9', '9']) (by decide)
      (by decide)).2.1⟩

/-! ### Storing the WiFi credentials -/

theorem WriteWiFiConfig_opened (ssidOk passwordOk : Bool) (nvs : NVSStorage)
    (WiFi_ssid WiFi_password : String) :
    (WriteWiFiConfig true ssidOk passwordOk nvs WiFi_ssid WiFi_password).1 = true := rfl

theorem WriteWiFiConfig_not_opened (ssidOk passwordOk : Bool) (nvs : NVSStorage)
    (WiFi_ssid WiFi_password : String) :
    WriteWiFiConfig false ssidOk passwordOk nvs WiFi_ssid WiFi_password = (false, nvs) := rfl

/-- C25: where the store opens, the ssid is written and the write of the
password fails, `WriteWiFiConfig` returns true with only the ssid stored;
it returns true also where the write of the ssid fails. -/
theorem write_wifi_config_reports_success_on_failed_write :
    WriteWiFiConfig true true false ⟨none, none⟩ "home" "secret"
      = (true, ⟨some "home", none⟩) ∧
    WriteWiFiConfig true false true ⟨none, none⟩ "home" "secret"
      = (true, ⟨none, some "secret"⟩) :=
  ⟨rfl, rfl⟩

/-! ### Sizes for people -/

theorem formatSize_below_threshold (size : Nat) (h : size < 1000) :
    formatSize size 1000 = Nat.repr size := by
  have hloop : formatSize.loop size 1000 formatSize.suffixes.length 0 = 0 := by
    have : formatSize.suffixes.length = 7 + 1 := rfl
    rw [this]
    unfold formatSize.loop
    rw [if_neg (by omega)]
  unfold formatSize
  rw [hloop]
  simp only [if_pos h]
  unfold fixedText
  have h2 : (2 * size * 10 ^ 0 + 1000 ^ 0) / (2 * 1000 ^ 0) / 10 ^ 0 = size := by
    norm_num
    omega
  simp only [h2, if_true]
  show Nat.repr size ++ "" = Nat.repr size
  exact String.append_empty _

/-- C26: `formatSize(1024)` is "1.02K" and `formatSize(1000*1000)` is
"1.00M", with the default threshold of 1000: a size at or above the
threshold is printed with two digits after the point. -/
theorem format_size_keeps_two_decimals :
    formatSize 1024 1000 = "1.02K" ∧ formatSize (1000 * 1000) 1000 = "1.00M" := by
  constructor <;> decide

/-! ### The back-off of ConnectToWiFi -/

theorem backoff_step (x : Nat) (hx : x ≤ 60000) :
    min ((x + WIFI_WAIT_INCREASE) % 2 ^ 32) WIFI_WAIT_MAX = min (x + 1000) 60000 := by
  have e1 : WIFI_WAIT_INCREASE = 1000 := rfl
  have e2 : WIFI_WAIT_MAX = 60000 := rfl
  rw [e1, e2, Nat.mod_eq_of_lt (by omega)]

theorem ConnectToWiFi_new_credentials (st : WiFiState) (call : WiFiCall)
    (h : haveNewCredentials st call = true) :
    (ConnectToWiFi st call).attempted = true ∧
    (ConnectToWiFi st call).state.retryDelay = WIFI_WAIT_BASE := by
  cases hc : call.credentials with
  | none => simp [haveNewCredentials, hc] at h
  | some cr =>
    obtain ⟨ssid, password⟩ := cr
    unfold ConnectToWiFi
    simp only [h, hc, if_true, Bool.not_true, Bool.false_and, Bool.true_or, Bool.false_eq_true,
      if_false]
    split_ifs <;> exact ⟨rfl, rfl⟩

theorem ConnectToWiFi_same_credentials (st : WiFiState) (call : WiFiCall)
    (h : haveNewCredentials st call = false) :
    ((ConnectToWiFi st call).attempted = true →
      (ConnectToWiFi st call).state.retryDelay
        = min ((st.retryDelay + WIFI_WAIT_INCREASE) % 2 ^ 32) WIFI_WAIT_MAX) ∧
    ((ConnectToWiFi st call).attempted = false →
      (ConnectToWiFi st call).state.retryDelay = st.retryDelay) := by
  unfold ConnectToWiFi
  simp only [h, Bool.false_eq_true, if_false, Bool.not_false, Bool.true_and, Bool.false_or]
  split_ifs <;> simp

theorem ConnectToWiFi_attempted_iff (st : WiFiState) (call : WiFiCall)
    (h : haveNewCredentials st call = false)
    (hconn : (st.bPreviousConnection && call.connectedBefore) = false)
    (hlast : st.millisAtLastAttempt ≠ 0) :
    (ConnectToWiFi st call).attempted = true
      ↔ st.retryDelay ≤ ulongSub call.millisAtCheck st.millisAtLastAttempt := by
  unfold ConnectToWiFi
  simp only [h, Bool.false_eq_true, if_false, Bool.not_false, Bool.true_and, Bool.false_or,
    hconn]
  have hb : (st.millisAtLastAttempt == 0) = false := by simpa using hlast
  simp only [hb, Bool.false_or, decide_eq_true_eq]
  split_ifs <;> simp_all

theorem connectCalls_invariant :
    ∀ (calls : List WiFiCall) (st : WiFiState) (k : Nat),
      st.retryDelay = min (3000 + 1000 * k) 60000 →
      (connectCalls st k calls).1.retryDelay
        = min (3000 + 1000 * (connectCalls st k calls).2) 60000
  | [], _, _, h => h
  | call :: rest, st, k, h => by
    unfold connectCalls
    apply connectCalls_invariant rest
    by_cases hnew : haveNewCredentials st call = true
    · rw [(ConnectToWiFi_new_credentials st call hnew).2, if_pos hnew]
      decide
    · have hnew2 : haveNewCredentials st call = false := by simpa using hnew
      obtain ⟨h1, h2⟩ := ConnectToWiFi_same_credentials st call hnew2
      rw [if_neg hnew]
      by_cases hatt : (ConnectToWiFi st call).attempted = true
      · rw [if_pos hatt, h1 hatt, h, backoff_step _ (Nat.min_le_right _ _)]
        omega
      · have hatt2 : (ConnectToWiFi st call).attempted = false := by simpa using hatt
        rw [if_neg hatt, h2 hatt2, h]

/-- C28: over any run of calls of `ConnectToWiFi` from its initial static
variables, `retryDelay` is `min(3000 + 1000*k, 60000)`, where `k` is the
number of calls that entered the (re)connect block since credentials were
last set, and so never above `WIFI_WAIT_MAX`; a call with new credentials
enters the block and leaves `retryDelay` at `WIFI_WAIT_BASE`; a call
without new credentials that is not answered from the running connection,
after an attempt at a non-zero `millis()`, enters the block exactly when
`retryDelay` milliseconds have passed since that attempt, and entering adds
`WIFI_WAIT_INCREASE` up to `WIFI_WAIT_MAX`. -/
theorem retry_delay_capped_backoff (calls : List WiFiCall) :
    (connectCalls WiFiState.initial 0 calls).1.retryDelay
        = min (3000 + 1000 * (connectCalls WiFiState.initial 0 calls).2) 60000 ∧
    (connectCalls WiFiState.initial 0 calls).1.retryDelay ≤ WIFI_WAIT_MAX ∧
    (∀ (st : WiFiState) (call : WiFiCall), haveNewCredentials st call = true →
        (ConnectToWiFi st call).attempted = true ∧
        (ConnectToWiFi st call).state.retryDelay = WIFI_WAIT_BASE) ∧
    (∀ (st : WiFiState) (call : WiFiCall), haveNewCredentials st call = false →
        (st.bPreviousConnection && call.connectedBefore) = false →
        st.millisAtLastAttempt ≠ 0 →
        ((ConnectToWiFi st call).attempted = true
          ↔ st.retryDelay ≤ ulongSub call.millisAtCheck st.millisAtLastAttempt)) ∧
    (∀ (st : WiFiState) (call : WiFiCall), haveNewCredentials st call = false →
        st.retryDelay ≤ WIFI_WAIT_MAX →
        (ConnectToWiFi st call).state.retryDelay
          = if (ConnectToWiFi st call).attempted
            then min (st.retryDelay + WIFI_WAIT_INCREASE) WIFI_WAIT_MAX
            else st.retryDelay) := by
  have hinv := connectCalls_invariant calls WiFiState.initial 0 (by decide)
  refine ⟨hinv, ?_, ConnectToWiFi_new_credentials, ConnectToWiFi_attempted_iff, ?_⟩
  · rw [hinv]
    exact Nat.min_le_right _ _
  · intro st call hnew hle
    obtain ⟨h1, h2⟩ := ConnectToWiFi_same_credentials st call hnew
    cases hatt : (ConnectToWiFi st call).attempted with
    | true =>
      rw [h1 hatt, backoff_step _ hle]
      simp [WIFI_WAIT_INCREASE, WIFI_WAIT_MAX]
    | false =>
      rw [h2 hatt]
      simp

/-- Credentials given at 5 ms, then calls at 100 ms, 4006 ms and 9100 ms
without a connection: three attempts, and a delay of 6000 ms. -/
theorem retry_delay_capped_backoff_witness :
    connectCalls WiFiState.initial 0
        [⟨some ("home", "secret"), false, false, 5, 5⟩, ⟨none, false, false, 100, 100⟩,
         ⟨none, false, false, 4006, 4007⟩, ⟨none, false, false, 9100, 9100⟩]
      = (⟨false, 9100, 6000, "home", "secret"⟩, 3) ∧
    (ConnectToWiFi ⟨false, 4007, 5000, "home", "secret"⟩
        ⟨none, false, false, 9100, 9100⟩).attempted = true :=
  ⟨by decide,
   ((retry_delay_capped_backoff []).2.2.2.1 ⟨false, 4007, 5000, "home", "secret"⟩
      ⟨none, false, false, 9100, 9100⟩ rfl rfl (by decide)).mpr (by decide)⟩

/-! ### The order of the effects of the default factories -/

theorem mem_firstOccurrences : ∀ (l : List Int) (x : Int), x ∈ firstOccurrences l ↔ x ∈ l
  | [], x => by simp [firstOccurrences]
  | n :: rest, x => by
    have ih := mem_firstOccurrences rest x
    by_cases hx : x = n
    · simp [firstOccurrences, hx]
    · simp [firstOccurrences, hx, ih]

theorem filter_filter_of_imp {α : Type} (p q : α → Bool) (h : ∀ x, q x = true → p x = true) :
    ∀ (l : List α), (l.filter p).filter q = l.filter q
  | [] => rfl
  | a :: l => by
    have ih := filter_filter_of_imp p q h l
    by_cases hq : q a = true
    · simp [List.filter_cons, h a hq, hq, ih]
    · have hq2 : q a = false := by simpa using hq
      by_cases hp : p a = true
      · simp [List.filter_cons, hp, hq2, ih]
      · have hp2 : p a = false := by simpa using hp
        simp [List.filter_cons, hp2, hq2, ih]

theorem filter_comm_bool {α : Type} (p q : α → Bool) (l : List α) :
    (l.filter p).filter q = (l.filter q).filter p := by
  rw [List.filter_filter, List.filter_filter]
  congr 1
  funext x
  exact Bool.and_comm _ _

theorem firstOccurrences_filter (p : Int → Bool) :
    ∀ (l : List Int), (firstOccurrences l).filter p = firstOccurrences (l.filter p)
  | [] => rfl
  | n :: rest => by
    have ih := firstOccurrences_filter p rest
    by_cases hp : p n = true
    · rw [List.filter_cons_of_pos hp]
      simp only [firstOccurrences]
      rw [List.filter_cons_of_pos hp, filter_comm_bool, ih]
    · have hp2 : p n = false := by simpa using hp
      rw [List.filter_cons_of_neg hp]
      simp only [firstOccurrences]
      rw [List.filter_cons_of_neg hp, filter_filter_of_imp _ p ?_, ih]
      intro x hx
      have : x ≠ n := by
        rintro rfl
        rw [hp2] at hx
        exact absurd hx (by decide)
      simpa using this

theorem bind_congr_mem {α β : Type} (f g : α → List β) :
    ∀ (l : List α), (∀ x ∈ l, f x = g x) → l.flatMap f = l.flatMap g
  | [], _ => rfl
  | a :: l, h => by
    rw [List.flatMap_cons, List.flatMap_cons, h a (List.mem_cons_self _ _),
      bind_congr_mem f g l (fun x hx => h x (List.mem_cons_of_mem _ hx))]

theorem groupedBy_cons {α : Type} (key : α → Int) (a : α) (l : List α) :
    groupedBy key (a :: l)
      = a :: l.filter (fun b => decide (key b = key a))
        ++ groupedBy key (l.filter fun b => decide (key b ≠ key a)) := by
  unfold groupedBy
  rw [List.map_cons]
  simp only [firstOccurrences]
  rw [List.flatMap_cons]
  have h1 : (a :: l).filter (fun b => decide (key b = key a))
      = a :: l.filter (fun b => decide (key b = key a)) := by
    rw [List.filter_cons_of_pos (by simp)]
  rw [h1]
  congr 1
  have h2 : (firstOccurrences (l.map key)).filter (fun m => decide (m ≠ key a))
      = firstOccurrences ((l.filter fun b => decide (key b ≠ key a)).map key) := by
    rw [firstOccurrences_filter]
    congr 1
    rw [List.filter_map]
    rfl
  rw [← h2]
  apply bind_congr_mem
  intro n hn
  have hne : n ≠ key a := by
    have := (List.mem_filter.mp hn).2
    simpa using this
  rw [List.filter_cons_of_neg (by simpa using fun h => hne h.symm)]
  rw [filter_filter_of_imp]
  intro x hx
  have hx2 : key x = n := by simpa using hx
  simpa [hx2] using hne

theorem mem_groupedBy {α : Type} (key : α → Int) (l : List α) (x : α) :
    x ∈ groupedBy key l ↔ x ∈ l := by
  unfold groupedBy
  simp only [List.mem_flatMap, mem_firstOccurrences, List.mem_map, List.mem_filter,
    decide_eq_true_eq]
  constructor
  · rintro ⟨n, _, hx, _⟩
    exact hx
  · intro hx
    exact ⟨key x, ⟨x, hx, rfl⟩, hx, rfl⟩

theorem groupedBy_nil {α : Type} (key : α → Int) : groupedBy key ([] : List α) = [] := rfl

theorem groupedBy_perm_aux {α : Type} (key : α → Int) :
    ∀ (n : Nat) (l : List α), l.length ≤ n → (groupedBy key l).Perm l
  | 0, l, h => by
    have : l = [] := List.length_eq_zero.mp (Nat.le_zero.mp h)
    rw [this, groupedBy_nil]
  | n + 1, [], _ => by rw [groupedBy_nil]
  | n + 1, a :: l, h => by
    rw [groupedBy_cons]
    have hlen : (l.filter fun b => decide (key b ≠ key a)).length ≤ n :=
      Nat.le_trans (List.length_filter_le _ _) (Nat.le_of_succ_le_succ h)
    have ih := groupedBy_perm_aux key n _ hlen
    have h1 : (l.filter (fun b => decide (key b = key a))
        ++ groupedBy key (l.filter fun b => decide (key b ≠ key a))).Perm
        (l.filter (fun b => decide (key b = key a))
          ++ l.filter (fun b => !decide (key b = key a))) := by
      apply List.Perm.append_left
      have : (fun b => decide (key b ≠ key a)) = fun b => !decide (key b = key a) := by
        funext b; simp
      rw [← this]
      exact ih
    exact List.Perm.cons a (h1.trans (List.filter_append_perm _ l))

theorem groupedBy_perm {α : Type} (key : α → Int) (l : List α) : (groupedBy key l).Perm l :=
  groupedBy_perm_aux key l.length l (Nat.le_refl _)

theorem dropWhile_append_of_all {α : Type} (p : α → Bool) :
    ∀ (l1 l2 : List α), (∀ x ∈ l1, p x = true) →
      (l1 ++ l2).dropWhile p = l2.dropWhile p
  | [], _, _ => rfl
  | a :: l1, l2, h => by
    rw [List.cons_append, List.dropWhile_cons_of_pos (h a (List.mem_cons_self _ _))]
    exact dropWhile_append_of_all p l1 l2 (fun x hx => h x (List.mem_cons_of_mem _ hx))

theorem mem_of_mem_dropWhile {α : Type} (p : α → Bool) (x : α) (l : List α)
    (h : x ∈ l.dropWhile p) : x ∈ l :=
  (List.dropWhile_suffix p).subset h

theorem sameNumberContiguous_suffix :
    ∀ (l1 l2 : List Int), sameNumberContiguous (l1 ++ l2) → sameNumberContiguous l2
  | [], _, h => h
  | _ :: l1, l2, h => sameNumberContiguous_suffix l1 l2 h.2

theorem sameNumberContiguous_run (k : Int) (l2 : List Int) (hk : k ∉ l2)
    (h2 : sameNumberContiguous l2) :
    ∀ (l1 : List Int), (∀ x ∈ l1, x = k) → sameNumberContiguous (l1 ++ l2)
  | [], _ => h2
  | x :: l1, h => by
    have hx : x = k := h x (List.mem_cons_self _ _)
    have hrest : ∀ y ∈ l1, y = k := fun y hy => h y (List.mem_cons_of_mem _ hy)
    refine ⟨?_, sameNumberContiguous_run k l2 hk h2 l1 hrest⟩
    have hd := dropWhile_append_of_all (fun m => decide (m = k)) l1 l2
      (fun y hy => by simp [hrest y hy])
    show x ∉ (l1 ++ l2).dropWhile (fun m => decide (m = x))
    rw [hx, hd]
    exact fun hmem => hk (mem_of_mem_dropWhile _ _ _ hmem)

theorem map_dropWhile_key {α : Type} (key : α → Int) (k : Int) :
    ∀ (l : List α), (l.map key).dropWhile (fun m => decide (m = k))
      = (l.dropWhile fun b => decide (key b = k)).map key
  | [] => rfl
  | a :: l => by
    by_cases h : key a = k
    · rw [List.map_cons, List.dropWhile_cons_of_pos (by simpa using h),
        List.dropWhile_cons_of_pos (by simpa using h)]
      exact map_dropWhile_key key k l
    · rw [List.map_cons, List.dropWhile_cons_of_neg (by simpa using h),
        List.dropWhile_cons_of_neg (by simpa using h), List.map_cons]

theorem filter_split {α : Type} (key : α → Int) (k : Int) (t1 t2 : List α)
    (h1 : ∀ x ∈ t1, key x = k) (h2 : ∀ x ∈ t2, key x ≠ k) :
    (t1 ++ t2).filter (fun b => decide (key b = k)) = t1 ∧
    (t1 ++ t2).filter (fun b => decide (key b ≠ k)) = t2 := by
  have e1 : t1.filter (fun b => decide (key b = k)) = t1 :=
    List.filter_eq_self.mpr (fun x hx => by simpa using h1 x hx)
  have e2 : t2.filter (fun b => decide (key b = k)) = [] :=
    List.filter_eq_nil_iff.mpr (fun x hx => by simpa using h2 x hx)
  have e3 : t1.filter (fun b => decide (key b ≠ k)) = [] :=
    List.filter_eq_nil_iff.mpr (fun x hx => by simpa using h1 x hx)
  have e4 : t2.filter (fun b => decide (key b ≠ k)) = t2 :=
    List.filter_eq_self.mpr (fun x hx => by simpa using h2 x hx)
  constructor
  · rw [List.filter_append, e1, e2, List.append_nil]
  · rw [List.filter_append, e3, e4, List.nil_append]

theorem groupedBy_eq_self_aux {α : Type} (key : α → Int) :
    ∀ (n : Nat) (l : List α), l.length ≤ n →
      (groupedBy key l = l ↔ sameNumberContiguous (l.map key))
  | 0, l, h => by
    have : l = [] := List.length_eq_zero.mp (Nat.le_zero.mp h)
    rw [this, groupedBy_nil]
    simp [sameNumberContiguous]
  | n + 1, [], _ => by
    rw [groupedBy_nil]
    simp [sameNumberContiguous]
  | n + 1, a :: t, h => by
    have hlen : t.length ≤ n := Nat.le_of_succ_le_succ h
    rw [groupedBy_cons]
    constructor
    · intro heq
      have ht : t.filter (fun b => decide (key b = key a))
          ++ groupedBy key (t.filter fun b => decide (key b ≠ key a)) = t := by
        injection heq
      have h1 : ∀ x ∈ t.filter (fun b => decide (key b = key a)), key x = key a := by
        intro x hx
        simpa using (List.mem_filter.mp hx).2
      have h2 : ∀ x ∈ groupedBy key (t.filter fun b => decide (key b ≠ key a)),
          key x ≠ key a := by
        intro x hx
        simpa using (List.mem_filter.mp ((mem_groupedBy key _ x).mp hx)).2
      have hsplit := (filter_split key (key a) _ _ h1 h2).2
      rw [ht] at hsplit
      -- the tail of other numbers is its own grouping
      have hfix : groupedBy key (groupedBy key (t.filter fun b => decide (key b ≠ key a)))
          = groupedBy key (t.filter fun b => decide (key b ≠ key a)) := by
        rw [← hsplit]
        exact hsplit.symm
      have hlen2 : (groupedBy key (t.filter fun b => decide (key b ≠ key a))).length ≤ n := by
        rw [← hsplit]
        exact Nat.le_trans (List.length_filter_le _ _) hlen
      have ih := (groupedBy_eq_self_aux key n _ hlen2).mp hfix
      have hmap : (a :: t).map key
          = (key a :: (t.filter (fun b => decide (key b = key a))).map key)
            ++ (groupedBy key (t.filter fun b => decide (key b ≠ key a))).map key := by
        conv_lhs => rw [← ht]
        simp
      rw [hmap]
      apply sameNumberContiguous_run (key a) _ _ ih
      · intro x hx
        rcases List.mem_cons.mp hx with rfl | hx2
        · rfl
        · obtain ⟨y, hy, rfl⟩ := List.mem_map.mp hx2
          exact h1 y hy
      · intro hmem
        obtain ⟨y, hy, hky⟩ := List.mem_map.mp hmem
        exact h2 y hy hky
    · intro hc
      obtain ⟨hdrop, hrest⟩ := hc
      have ht : t.takeWhile (fun b => decide (key b = key a))
          ++ t.dropWhile (fun b => decide (key b = key a)) = t :=
        List.takeWhile_append_dropWhile _ t
      have h1 : ∀ x ∈ t.takeWhile (fun b => decide (key b = key a)), key x = key a := by
        intro x hx
        simpa using List.mem_takeWhile_imp hx
      have h2 : ∀ x ∈ t.dropWhile (fun b => decide (key b = key a)), key x ≠ key a := by
        intro x hx hk
        apply hdrop
        rw [map_dropWhile_key]
        exact List.mem_map.mpr ⟨x, hx, hk⟩
      obtain ⟨hf1, hf2⟩ := filter_split key (key a) _ _ h1 h2
      rw [ht] at hf1 hf2
      have hc2 : sameNumberContiguous
          ((t.dropWhile fun b => decide (key b = key a)).map key) := by
        apply sameNumberContiguous_suffix
          ((t.takeWhile fun b => decide (key b = key a)).map key)
        rw [← List.map_append, ht]
        exact hrest
      have hlen2 : (t.dropWhile fun b => decide (key b = key a)).length ≤ n :=
        Nat.le_trans (List.dropWhile_suffix _).length_le hlen
      have ih := (groupedBy_eq_self_aux key n _ hlen2).mpr hc2
      rw [hf1, hf2, ih, List.cons_append, ht]

theorem groupedBy_eq_self_iff {α : Type} (key : α → Int) (l : List α) :
    groupedBy key l = l ↔ sameNumberContiguous (l.map key) :=
  groupedBy_eq_self_aux key l.length l (Nat.le_refl _)

theorem mem_dropWhile_filter (p : Int → Bool) (n : Int) :
    ∀ (l : List Int), n ∈ (l.filter p).dropWhile (fun m => decide (m = n)) →
      n ∈ l.dropWhile (fun m => decide (m = n))
  | [], h => by simp at h
  | m :: l, h => by
    by_cases hm : m = n
    · rw [List.dropWhile_cons_of_pos (by simpa using hm)]
      apply mem_dropWhile_filter p n l
      by_cases hp : p m = true
      · rw [List.filter_cons_of_pos hp, List.dropWhile_cons_of_pos (by simpa using hm)] at h
        exact h
      · rw [List.filter_cons_of_neg hp] at h
        exact h
    · rw [List.dropWhile_cons_of_neg (by simpa using hm)]
      have h1 := mem_of_mem_dropWhile _ _ _ h
      exact (List.mem_filter.mp h1).1

theorem sameNumberContiguous_filter (p : Int → Bool) :
    ∀ (l : List Int), sameNumberContiguous l → sameNumberContiguous (l.filter p)
  | [], _ => by simp [sameNumberContiguous]
  | n :: l, h => by
    have ih := sameNumberContiguous_filter p l h.2
    by_cases hp : p n = true
    · rw [List.filter_cons_of_pos hp]
      exact ⟨fun hmem => h.1 (mem_dropWhile_filter p n l hmem), ih⟩
    · rw [List.filter_cons_of_neg hp]
      exact ih

theorem not_mem_dropWhile_iff (n : Int) :
    ∀ (l : List Int), n ∉ l.dropWhile (fun m => decide (m = n)) ↔
      ∀ (j k : Nat), j < k → l[k]? = some n → l[j]? = some n
  | [] => by simp
  | m :: r => by
    have ih := not_mem_dropWhile_iff n r
    by_cases hm : m = n
    · rw [List.dropWhile_cons_of_pos (by simpa using hm), ih]
      constructor
      · intro h j k hjk hk
        cases k with
        | zero => exact absurd hjk (Nat.not_lt_zero _)
        | succ k =>
          cases j with
          | zero => simp [hm]
          | succ j =>
            rw [List.getElem?_cons_succ] at hk ⊢
            exact h j k (Nat.lt_of_succ_lt_succ hjk) hk
      · intro h j k hjk hk
        have := h (j + 1) (k + 1) (Nat.succ_lt_succ hjk)
        rw [List.getElem?_cons_succ, List.getElem?_cons_succ] at this
        exact this hk
    · rw [List.dropWhile_cons_of_neg (by simpa using hm)]
      constructor
      · intro h j k hjk hk
        exact absurd (List.mem_iff_getElem?.mpr ⟨k, hk⟩) h
      · intro h hmem
        rcases List.mem_cons.mp hmem with hnm | hr
        · exact hm hnm.symm
        · obtain ⟨k, hk⟩ := List.mem_iff_getElem?.mp hr
          have := h 0 (k + 1) (Nat.succ_pos _)
            (by rw [List.getElem?_cons_succ]; exact hk)
          rw [List.getElem?_cons_zero] at this
          injection this with this
          exact hm this

/-- What `sameNumberContiguous` says, by positions: between two positions
that hold the same number, every position holds that number. -/
theorem sameNumberContiguous_iff :
    ∀ (l : List Int), sameNumberContiguous l ↔
      ∀ (i j k : Nat) (x : Int), i < j → j < k → l[i]? = some x → l[k]? = some x →
        l[j]? = some x
  | [] => by simp [sameNumberContiguous]
  | n :: r => by
    have ih := sameNumberContiguous_iff r
    show (n ∉ r.dropWhile (fun m => decide (m = n)) ∧ sameNumberContiguous r) ↔ _
    rw [not_mem_dropWhile_iff, ih]
    constructor
    · rintro ⟨h1, h2⟩ i j k x hij hjk hi hk
      cases k with
      | zero => exact absurd hjk (Nat.not_lt_zero _)
      | succ k =>
        cases j with
        | zero => exact absurd hij (Nat.not_lt_zero _)
        | succ j =>
          rw [List.getElem?_cons_succ] at hk ⊢
          cases i with
          | zero =>
            rw [List.getElem?_cons_zero] at hi
            injection hi with hi
            rw [← hi] at hk ⊢
            exact h1 j k (Nat.lt_of_succ_lt_succ hjk) hk
          | succ i =>
            rw [List.getElem?_cons_succ] at hi
            exact h2 i j k x (Nat.lt_of_succ_lt_succ hij) (Nat.lt_of_succ_lt_succ hjk) hi hk
    · intro h
      constructor
      · intro j k hjk hk
        have := h 0 (j + 1) (k + 1) n (Nat.succ_pos _) (Nat.succ_lt_succ hjk)
          (List.getElem?_cons_zero) (by rw [List.getElem?_cons_succ]; exact hk)
        rw [List.getElem?_cons_succ] at this
        exact this
      · intro i j k x hij hjk hi hk
        have := h (i + 1) (j + 1) (k + 1) x (Nat.succ_lt_succ hij) (Nat.succ_lt_succ hjk)
          (by rw [List.getElem?_cons_succ]; exact hi)
          (by rw [List.getElem?_cons_succ]; exact hk)
        rw [List.getElem?_cons_succ] at this
        exact this

theorem positionsFrom_eq_enum (x : Int) :
    ∀ (fs : List NumberedFactory) (pos : Nat),
      positionsFrom x pos fs
        = ((fs.enumFrom pos).filter fun c => decide (c.2.effectNumber = x)).map Prod.fst
  | [], _ => rfl
  | f :: rest, pos => by
    have ih := positionsFrom_eq_enum x rest (pos + 1)
    by_cases h : f.effectNumber = x
    · rw [List.enumFrom_cons, List.filter_cons_of_pos (by simpa using h), List.map_cons, ← ih]
      simp [positionsFrom, h]
    · rw [List.enumFrom_cons, List.filter_cons_of_neg (by simpa using h), ← ih]
      simp [positionsFrom, h]

theorem created_eq_enum (x : Int) :
    ∀ (fs : List NumberedFactory) (pos : Nat),
      (fs.filter fun f => decide (f.effectNumber = x)).filterMap (·.create)
        = ((fs.enumFrom pos).filter fun c => decide (c.2.effectNumber = x)).filterMap
            fun c => c.2.create
  | [], _ => rfl
  | f :: rest, pos => by
    have ih := created_eq_enum x rest (pos + 1)
    by_cases h : f.effectNumber = x
    · rw [List.enumFrom_cons, List.filter_cons_of_pos (by simpa using h),
        List.filter_cons_of_pos (by simpa using h), List.filterMap_cons, List.filterMap_cons,
        ih]
    · rw [List.enumFrom_cons, List.filter_cons_of_neg (by simpa using h),
        List.filter_cons_of_neg (by simpa using h), ih]

theorem missingFactories_cons_loaded (loaded : List Int) (pos : Nat) (f : NumberedFactory)
    (rest : List NumberedFactory) (h : f.effectNumber ∈ loaded) :
    missingFactories loaded pos (f :: rest) = missingFactories loaded (pos + 1) rest := by
  unfold missingFactories
  rw [List.enumFrom_cons, List.filter_cons_of_neg (by simpa using h)]

theorem missingFactories_cons_missing (loaded : List Int) (pos : Nat) (f : NumberedFactory)
    (rest : List NumberedFactory) (h : f.effectNumber ∉ loaded) :
    missingFactories loaded pos (f :: rest)
      = (pos, f) :: missingFactories loaded (pos + 1) rest := by
  unfold missingFactories
  rw [List.enumFrom_cons, List.filter_cons_of_pos (by simpa using h)]

theorem missingFactories_filter_eq (loaded : List Int) (pos : Nat) (x : Int)
    (fs : List NumberedFactory) (hx : x ∉ loaded) :
    (missingFactories loaded pos fs).filter (fun c => decide (c.2.effectNumber = x))
      = (fs.enumFrom pos).filter fun c => decide (c.2.effectNumber = x) := by
  unfold missingFactories
  apply filter_filter_of_imp
  intro c hc
  have hc2 : c.2.effectNumber = x := by simpa using hc
  simpa [hc2] using hx

theorem missingFactories_filter_ne (loaded : List Int) (pos : Nat) (x : Int)
    (fs : List NumberedFactory) :
    (missingFactories loaded pos fs).filter (fun c => decide (c.2.effectNumber ≠ x))
      = missingFactories (x :: loaded) pos fs := by
  unfold missingFactories
  rw [List.filter_filter]
  congr 1
  funext c
  simp only [List.mem_cons, not_or, Bool.decide_and, ne_eq]

theorem loadMissingEffects_grouped :
    ∀ (fs : List NumberedFactory) (pos : Nat) (s : LoadState),
      (loadMissingEffects pos fs s).produced
        = s.produced ++ (groupedBy (fun c : Nat × NumberedFactory => c.2.effectNumber)
            (missingFactories s.loaded pos fs)).map Prod.fst ∧
      (loadMissingEffects pos fs s).effects
        = s.effects ++ (groupedBy (fun c : Nat × NumberedFactory => c.2.effectNumber)
            (missingFactories s.loaded pos fs)).filterMap fun c => c.2.create
  | [], pos, s => by
    simp [loadMissingEffects, missingFactories, groupedBy_nil]
  | f :: rest, pos, s => by
    rw [loadMissingEffects_cons]
    by_cases hl : f.effectNumber ∈ s.loaded
    · rw [if_pos hl, missingFactories_cons_loaded _ _ _ _ hl]
      exact loadMissingEffects_grouped rest (pos + 1) s
    · rw [if_neg hl, missingFactories_cons_missing _ _ _ _ hl, groupedBy_cons]
      obtain ⟨ih1, ih2⟩ := loadMissingEffects_grouped rest (pos + 1)
        { effects := s.effects ++
            ((f :: rest).filter fun g => decide (g.effectNumber = f.effectNumber)).filterMap
              (·.create)
          loaded := f.effectNumber :: s.loaded
          produced := s.produced ++ positionsFrom f.effectNumber pos (f :: rest) }
      rw [ih1, ih2]
      dsimp only
      rw [missingFactories_filter_eq _ _ _ _ hl, missingFactories_filter_ne,
        positionsFrom_eq_enum, created_eq_enum f.effectNumber (f :: rest) pos,
        List.enumFrom_cons, List.filter_cons_of_pos (by simp)]
      simp only [List.map_append, List.map_cons, List.filterMap_append, List.append_assoc,
        List.cons_append]
      refine ⟨trivial, ?_⟩
      rw [← List.filterMap_append, List.cons_append]

theorem map_injOn_eq {α β : Type} (f : α → β) :
    ∀ (l1 l2 : List α), (∀ x ∈ l1, ∀ y ∈ l2, f x = f y → x = y) →
      l1.map f = l2.map f → l1 = l2
  | [], [], _, _ => rfl
  | [], _ :: _, _, h => by simp at h
  | _ :: _, [], _, h => by simp at h
  | a :: l1, b :: l2, hinj, h => by
    rw [List.map_cons, List.map_cons] at h
    injection h with h1 h2
    have hab : a = b := hinj a (List.mem_cons_self _ _) b (List.mem_cons_self _ _) h1
    have hl : l1 = l2 := map_injOn_eq f l1 l2
      (fun x hx y hy => hinj x (List.mem_cons_of_mem _ hx) y (List.mem_cons_of_mem _ hy)) h2
    rw [hab, hl]

theorem missingFactories_nodup (loaded : List Int) (pos : Nat) (fs : List NumberedFactory) :
    ((missingFactories loaded pos fs).map Prod.fst).Nodup := by
  have hsub : ((missingFactories loaded pos fs).map Prod.fst).Sublist
      ((fs.enumFrom pos).map Prod.fst) :=
    List.Sublist.map _ (List.filter_sublist _)
  apply List.Nodup.sublist hsub
  rw [List.enumFrom_map_fst]
  exact List.nodup_range' _ _

theorem missingFactories_map_number (loaded : List Int) :
    ∀ (fs : List NumberedFactory) (pos : Nat),
      (missingFactories loaded pos fs).map (fun c => c.2.effectNumber)
        = (fs.map (·.effectNumber)).filter fun n => decide (n ∉ loaded)
  | [], _ => rfl
  | f :: rest, pos => by
    have ih := missingFactories_map_number loaded rest (pos + 1)
    by_cases h : f.effectNumber ∈ loaded
    · rw [missingFactories_cons_loaded _ _ _ _ h, ih, List.map_cons,
        List.filter_cons_of_neg (by simpa using h)]
    · rw [missingFactories_cons_missing _ _ _ _ h, List.map_cons, ih, List.map_cons,
        List.filter_cons_of_pos (by simpa using h)]

theorem missingFactories_nil_loaded (pos : Nat) (fs : List NumberedFactory) :
    missingFactories [] pos fs = fs.enumFrom pos := by
  unfold missingFactories
  exact List.filter_eq_self.mpr (fun c _ => by simp)

theorem load_eq (jsonFactories : JSONFactories) (defaultFactories : List NumberedFactory)
    (effectsArray : List JsonObject) (_vEffects : List LEDStripEffect) :
    LoadJSONAndMissingEffects jsonFactories defaultFactories effectsArray _vEffects
      = loadMissingEffects 0 defaultFactories
          (jsonLoadState jsonFactories effectsArray _vEffects) := rfl

theorem jsonLoadState_produced (jsonFactories : JSONFactories) (effectsArray : List JsonObject)
    (_vEffects : List LEDStripEffect) :
    (jsonLoadState jsonFactories effectsArray _vEffects).produced = [] :=
  (loadJSONEffects_spec jsonFactories effectsArray _).2.1

theorem jsonLoadState_effects (jsonFactories : JSONFactories) (effectsArray : List JsonObject)
    (_vEffects : List LEDStripEffect) :
    (jsonLoadState jsonFactories effectsArray _vEffects).effects
      = _vEffects ++ effectsArray.filterMap (effectFromJSON jsonFactories) :=
  (loadJSONEffects_spec jsonFactories effectsArray _).1

theorem load_grouped (jsonFactories : JSONFactories) (defaultFactories : List NumberedFactory)
    (effectsArray : List JsonObject) (_vEffects : List LEDStripEffect) :
    (LoadJSONAndMissingEffects jsonFactories defaultFactories effectsArray _vEffects).produced
      = (groupedBy (fun c : Nat × NumberedFactory => c.2.effectNumber)
          (missingFactories (jsonLoadState jsonFactories effectsArray _vEffects).loaded 0
            defaultFactories)).map Prod.fst ∧
    (LoadJSONAndMissingEffects jsonFactories defaultFactories effectsArray _vEffects).effects
      = (jsonLoadState jsonFactories effectsArray _vEffects).effects
        ++ (groupedBy (fun c : Nat × NumberedFactory => c.2.effectNumber)
          (missingFactories (jsonLoadState jsonFactories effectsArray _vEffects).loaded 0
            defaultFactories)).filterMap fun c => c.2.create := by
  obtain ⟨h1, h2⟩ := loadMissingEffects_grouped defaultFactories 0
    (jsonLoadState jsonFactories effectsArray _vEffects)
  rw [jsonLoadState_produced, List.nil_append] at h1
  exact ⟨h1, h2⟩

theorem load_plain_order_iff (jsonFactories : JSONFactories)
    (defaultFactories : List NumberedFactory) (effectsArray : List JsonObject)
    (_vEffects : List LEDStripEffect) :
    (LoadJSONAndMissingEffects jsonFactories defaultFactories effectsArray _vEffects).produced
        = (missingFactories (jsonLoadState jsonFactories effectsArray _vEffects).loaded 0
            defaultFactories).map Prod.fst
      ↔ sameNumberContiguous
          ((missingFactories (jsonLoadState jsonFactories effectsArray _vEffects).loaded 0
            defaultFactories).map fun c => c.2.effectNumber) := by
  rw [(load_grouped jsonFactories defaultFactories effectsArray _vEffects).1,
    ← groupedBy_eq_self_iff]
  constructor
  · intro h
    apply map_injOn_eq Prod.fst _ _ _ h
    intro x hx y hy hxy
    exact List.inj_on_of_nodup_map (missingFactories_nodup _ _ _)
      ((mem_groupedBy _ _ x).mp hx) hy hxy
  · intro h
    rw [h]

theorem load_all_defaults (jsonFactories : JSONFactories)
    (defaultFactories : List NumberedFactory) (effectsArray : List JsonObject)
    (_vEffects : List LEDStripEffect)
    (hnone : (jsonLoadState jsonFactories effectsArray _vEffects).loaded = []) :
    (LoadJSONAndMissingEffects jsonFactories defaultFactories effectsArray
        _vEffects).produced.Perm (List.range defaultFactories.length) ∧
    ∃ ext, (LoadJSONAndMissingEffects jsonFactories defaultFactories effectsArray
        _vEffects).effects
          = (jsonLoadState jsonFactories effectsArray _vEffects).effects ++ ext ∧
      ext.Perm (defaultFactories.filterMap (·.create)) := by
  obtain ⟨h1, h2⟩ := load_grouped jsonFactories defaultFactories effectsArray _vEffects
  rw [hnone, missingFactories_nil_loaded] at h1 h2
  have hperm := groupedBy_perm (fun c : Nat × NumberedFactory => c.2.effectNumber)
    (defaultFactories.enumFrom 0)
  constructor
  · rw [h1]
    have := hperm.map Prod.fst
    rw [List.enumFrom_map_fst, ← List.range_eq_range'] at this
    exact this
  · refine ⟨_, h2, ?_⟩
    have := hperm.filterMap fun c : Nat × NumberedFactory => c.2.create
    have hmap : (defaultFactories.enumFrom 0).filterMap (fun c => c.2.create)
        = defaultFactories.filterMap (·.create) := by
      conv_rhs => rw [← List.enumFrom_map_snd 0 defaultFactories, List.filterMap_map]
      rfl
    rw [hmap] at this
    exact this

theorem jsonLoadState_loaded_nil (jsonFactories : JSONFactories)
    (effectsArray : List JsonObject) (_vEffects : List LEDStripEffect)
    (h : ∀ r ∈ effectsArray, effectFromJSON jsonFactories r = none) :
    (jsonLoadState jsonFactories effectsArray _vEffects).loaded = [] ∧
    (jsonLoadState jsonFactories effectsArray _vEffects).effects = _vEffects := by
  constructor
  · apply List.eq_nil_iff_forall_not_mem.mpr
    intro n hn
    obtain ⟨r, hr, _, hsome⟩ :=
      (loadedFromJSON_iff jsonFactories effectsArray _vEffects n).mp hn
    rw [h r hr] at hsome
    exact absurd hsome (by decide)
  · rw [jsonLoadState_effects]
    have : effectsArray.filterMap (effectFromJSON jsonFactories) = [] :=
      List.filterMap_eq_nil_iff.mpr h
    rw [this, List.append_nil]

/-- C29: the calls of `ProduceAndLoadDefaultEffect` of
`LoadJSONAndMissingEffects`, and so the effects it adds from the default
factories, go by groups of one effect-type number: the default factories
whose number was not loaded from the JSON array, grouped by number with the
groups in the order in which their numbers first occur in the default list
and each group in the order of the list.  That is the order of the default
list itself exactly when, among the factories whose number was not loaded,
those of one number are contiguous; it is so in particular when equal
numbers are contiguous in the whole default list.  With an empty JSON array
the calls are a permutation of all the positions of the default list, they
are in the order of the list exactly when equal numbers are contiguous in
it, and the effects added are a permutation of the effects of all default
factories. -/
theorem default_effects_grouped_by_number (jsonFactories : JSONFactories)
    (defaultFactories : List NumberedFactory) (effectsArray : List JsonObject)
    (_vEffects : List LEDStripEffect) :
    ((LoadJSONAndMissingEffects jsonFactories defaultFactories effectsArray _vEffects).produced
        = (groupedBy (fun c : Nat × NumberedFactory => c.2.effectNumber)
            (missingFactories (jsonLoadState jsonFactories effectsArray _vEffects).loaded 0
              defaultFactories)).map Prod.fst ∧
      (LoadJSONAndMissingEffects jsonFactories defaultFactories effectsArray _vEffects).effects
        = (jsonLoadState jsonFactories effectsArray _vEffects).effects
          ++ (groupedBy (fun c : Nat × NumberedFactory => c.2.effectNumber)
            (missingFactories (jsonLoadState jsonFactories effectsArray _vEffects).loaded 0
              defaultFactories)).filterMap fun c => c.2.create) ∧
    ((LoadJSONAndMissingEffects jsonFactories defaultFactories effectsArray _vEffects).produced
        = (missingFactories (jsonLoadState jsonFactories effectsArray _vEffects).loaded 0
            defaultFactories).map Prod.fst
      ↔ sameNumberContiguous
          ((missingFactories (jsonLoadState jsonFactories effectsArray _vEffects).loaded 0
            defaultFactories).map fun c => c.2.effectNumber)) ∧
    (sameNumberContiguous (defaultFactories.map (·.effectNumber)) →
      (LoadJSONAndMissingEffects jsonFactories defaultFactories effectsArray _vEffects).produced
        = (missingFactories (jsonLoadState jsonFactories effectsArray _vEffects).loaded 0
            defaultFactories).map Prod.fst) ∧
    (effectsArray = [] →
      (LoadJSONAndMissingEffects jsonFactories defaultFactories effectsArray
          _vEffects).produced.Perm (List.range defaultFactories.length) ∧
      ((LoadJSONAndMissingEffects jsonFactories defaultFactories effectsArray
          _vEffects).produced = List.range defaultFactories.length
        ↔ sameNumberContiguous (defaultFactories.map (·.effectNumber))) ∧
      ∃ ext, (LoadJSONAndMissingEffects jsonFactories defaultFactories effectsArray
          _vEffects).effects = _vEffects ++ ext ∧
        ext.Perm (defaultFactories.filterMap (·.create))) := by
  have hiff := load_plain_order_iff jsonFactories defaultFactories effectsArray _vEffects
  refine ⟨load_grouped jsonFactories defaultFactories effectsArray _vEffects, hiff, ?_, ?_⟩
  · intro hc
    apply hiff.mpr
    rw [missingFactories_map_number]
    exact sameNumberContiguous_filter _ _ hc
  · intro hempty
    have hnil : ∀ r ∈ effectsArray, effectFromJSON jsonFactories r = none := by
      rw [hempty]
      intro r hr
      simp at hr
    obtain ⟨hl, he⟩ := jsonLoadState_loaded_nil jsonFactories effectsArray _vEffects hnil
    obtain ⟨hp, ext, hext, hperm⟩ :=
      load_all_defaults jsonFactories defaultFactories effectsArray _vEffects hl
    refine ⟨hp, ?_, ext, by rw [hext, he], hperm⟩
    have hm : (defaultFactories.enumFrom 0).map (fun c => c.2.effectNumber)
        = defaultFactories.map (·.effectNumber) := by
      conv_rhs => rw [← List.enumFrom_map_snd 0 defaultFactories, List.map_map]
      rfl
    rw [hl, missingFactories_nil_loaded, List.enumFrom_map_fst, ← List.range_eq_range',
      hm] at hiff
    exact hiff

/-- Default factories numbered 3, 4, 3 and an empty JSON array: the two
factories of number 3 are called before the factory of number 4. -/
theorem default_effects_grouped_by_number_witness :
    (LoadJSONAndMissingEffects (fun _ => none)
        [⟨3, some ⟨3, false, true, [0]⟩⟩, ⟨4, some ⟨4, false, true, []⟩⟩,
         ⟨3, some ⟨3, false, true, [1]⟩⟩] [] []).produced = [0, 2, 1] ∧
    ¬ sameNumberContiguous [3, 4, 3] :=
  ⟨((default_effects_grouped_by_number (fun _ => none)
        [⟨3, some ⟨3, false, true, [0]⟩⟩, ⟨4, some ⟨4, false, true, []⟩⟩,
         ⟨3, some ⟨3, false, true, [1]⟩⟩] [] []).1.1).trans (by decide),
   fun h => absurd h.1 (by decide)⟩

/-- C30: a number is in `loadedEffectNumbers` after the first loop exactly
when some JSON record of that number produced an effect; when every JSON
record of a number is dropped (its number has no JSON factory, or the
factory returns null), every default factory of that number is called
exactly once and the effect it produces is in the resulting list, whether or
not the number occurs in the JSON array; when no JSON record produces an
effect, the default factories are all called, once each, and the resulting
list is `_vEffects` followed by the effects of all default factories, in
some order. -/
theorem json_number_loaded_only_if_effect_produced (jsonFactories : JSONFactories)
    (defaultFactories : List NumberedFactory) (effectsArray : List JsonObject)
    (_vEffects : List LEDStripEffect) :
    (∀ n : Int, n ∈ (jsonLoadState jsonFactories effectsArray _vEffects).loaded ↔
      ∃ r ∈ effectsArray, r.effectNr = n ∧
        (effectFromJSON jsonFactories r).isSome = true) ∧
    (∀ n : Int, (∀ r ∈ effectsArray, r.effectNr = n → effectFromJSON jsonFactories r = none) →
      ∀ (p : Nat) (f : NumberedFactory), defaultFactories[p]? = some f →
        f.effectNumber = n →
        (LoadJSONAndMissingEffects jsonFactories defaultFactories effectsArray
            _vEffects).produced.count p = 1 ∧
        ∀ e, f.create = some e →
          e ∈ (LoadJSONAndMissingEffects jsonFactories defaultFactories effectsArray
            _vEffects).effects) ∧
    ((∀ r ∈ effectsArray, effectFromJSON jsonFactories r = none) →
      (LoadJSONAndMissingEffects jsonFactories defaultFactories effectsArray
          _vEffects).produced.Perm (List.range defaultFactories.length) ∧
      ∃ ext, (LoadJSONAndMissingEffects jsonFactories defaultFactories effectsArray
          _vEffects).effects = _vEffects ++ ext ∧
        ext.Perm (defaultFactories.filterMap (·.create))) := by
  refine ⟨fun n => loadedFromJSON_iff jsonFactories effectsArray _vEffects n, ?_, ?_⟩
  · intro n hdrop p f hp hfn
    have hnot : ¬ ∃ r ∈ effectsArray, r.effectNr = f.effectNumber ∧
        (effectFromJSON jsonFactories r).isSome = true := by
      rintro ⟨r, hr, hrn, hsome⟩
      rw [hdrop r hr (hrn.trans hfn)] at hsome
      exact absurd hsome (by decide)
    constructor
    · rw [load_produced_count jsonFactories defaultFactories effectsArray _vEffects p f hp,
        if_neg hnot]
    · intro e he
      obtain ⟨ext, hext, _, hall⟩ := loadMissingEffects_effects defaultFactories 0
        (jsonLoadState jsonFactories effectsArray _vEffects)
      have hmiss : f.effectNumber ∉
          (jsonLoadState jsonFactories effectsArray _vEffects).loaded :=
        fun hm => hnot ((loadedFromJSON_iff jsonFactories effectsArray _vEffects _).mp hm)
      rw [load_eq, hext]
      exact List.mem_append_right _
        (hall f (List.mem_iff_getElem?.mpr ⟨p, hp⟩) hmiss e he)
  · intro hnone
    obtain ⟨hl, he⟩ := jsonLoadState_loaded_nil jsonFactories effectsArray _vEffects hnone
    obtain ⟨hp, ext, hext, hperm⟩ :=
      load_all_defaults jsonFactories defaultFactories effectsArray _vEffects hl
    exact ⟨hp, ext, by rw [hext, he], hperm⟩

/-- A JSON record of number 3 whose number has no JSON factory: both default
factories of number 3 are called, and the effect of the second is in the
list. -/
theorem json_number_loaded_only_if_effect_produced_witness :
    (LoadJSONAndMissingEffects (fun _ => none)
        [⟨3, some ⟨3, false, true, [0]⟩⟩, ⟨4, some ⟨4, false, true, []⟩⟩,
         ⟨3, some ⟨3, false, true, [1]⟩⟩] [⟨3, 0, []⟩] []).produced.count 2 = 1 ∧
    (⟨3, false, true, [1]⟩ : LEDStripEffect) ∈
      (LoadJSONAndMissingEffects (fun _ => none)
        [⟨3, some ⟨3, false, true, [0]⟩⟩, ⟨4, some ⟨4, false, true, []⟩⟩,
         ⟨3, some ⟨3, false, true, [1]⟩⟩] [⟨3, 0, []⟩] []).effects :=
  ⟨((json_number_loaded_only_if_effect_produced (fun _ => none)
        [⟨3, some ⟨3, false, true, [0]⟩⟩, ⟨4, some ⟨4, false, true, []⟩⟩,
         ⟨3, some ⟨3, false, true, [1]⟩⟩] [⟨3, 0, []⟩] []).2.1 3
        (fun _ _ _ => rfl) 2 ⟨3, some ⟨3, false, true, [1]⟩⟩ rfl rfl).1,
   ((json_number_loaded_only_if_effect_produced (fun _ => none)
        [⟨3, some ⟨3, false, true, [0]⟩⟩, ⟨4, some ⟨4, false, true, []⟩⟩,
         ⟨3, some ⟨3, false, true, [1]⟩⟩] [⟨3, 0, []⟩] []).2.1 3
        (fun _ _ _ => rfl) 2 ⟨3, some ⟨3, false, true, [1]⟩⟩ rfl rfl).2
      ⟨3, false, true, [1]⟩ rfl⟩

end NightDriver
